import Mathlib

/-!
NamelessRaytracer: geometry kernel, model loading, camera, sampling loop and image writers

A shallow embedding of `src/Main.cpp`.

* The geometry kernel (`RayEquation`, `RayPlaneIntersection`, `RayTriangleIntersection`) is
  written over an arbitrary linearly ordered field `K`, so that it can be evaluated on
  rationals and reasoned about over the reals.  The square root used by `glm::normalize`
  is a parameter of the embedding; the theorems instantiate it with `Real.sqrt`.
* The model loader (`VerifyPrimitive`, `LoadModel`) works on a value of the parsed asset
  (`tinygltf::Model`).  Library containers are lists; an access outside a vector or buffer,
  which is undefined behaviour in the source, is `none`.  The text written to `std::cout` is
  returned as a list of lines.
* Machine integers: `int` fields are integers, `size_t` is 64 bits wide: the sum
  `vertexCount += count` and the product `vertexCount * 10` are taken modulo `2 ^ 64`;
  `uint32_t` sums are taken modulo `2 ^ 32`, `uint16_t` values are read little-endian from
  two bytes.  Vertex positions and normals are kept as the raw bytes that
  `memcpy` moves; a converted colour channel `c / 65535.0f` is kept as the exact rational.
* The camera (`Camera`, `GetRay`) takes `std::tan` and the constant `pi` as further
  parameters.  The random generator is a stream `rng : Nat → K` of the values of
  `RandomDouble()` together with the position of the next value; the rejection loop of
  `GetRay` runs on fuel, and returns as soon as one round within the fuel is accepted.
* The sampling loop of `main` is embedded by its parts: the pixel coordinates, the
  nearest-hit scan over the triangle list, and the shading term.
* The image classes (`PPMImage`, `PNGImage`) keep the array behind `m_Buffer` as a list; the
  text that `PPMImage::WriteImage` writes to the file is returned as a string, with
  `toString` for the decimal text of an `int`.  Colour channels are converted in exact
  arithmetic.
-/

set_option autoImplicit false

namespace NamelessRaytracer

/-! ## Vectors (`glm::dvec3`) -/

/-- The vector type `glm::dvec3`, over the scalar type `K`. -/
@[ext]
structure DVec3 (K : Type) where
  x : K
  y : K
  z : K

namespace DVec3

variable {K : Type} [Field K]

/-- The vector `{0.0, 0.0, 0.0}`. -/
def zero : DVec3 K := ⟨0, 0, 0⟩

/-- Componentwise `operator+` of glm. -/
def add (a b : DVec3 K) : DVec3 K := ⟨a.x + b.x, a.y + b.y, a.z + b.z⟩

/-- Componentwise `operator-` of glm. -/
def sub (a b : DVec3 K) : DVec3 K := ⟨a.x - b.x, a.y - b.y, a.z - b.z⟩

/-- The product `v * k` of a vector and a scalar. -/
def scale (v : DVec3 K) (k : K) : DVec3 K := ⟨v.x * k, v.y * k, v.z * k⟩

instance : Add (DVec3 K) := ⟨add⟩

instance : Sub (DVec3 K) := ⟨sub⟩

instance : HMul (DVec3 K) K (DVec3 K) := ⟨scale⟩

/-- The function `glm::dot`: the sum of the componentwise products. -/
def dot (a b : DVec3 K) : K := a.x * b.x + a.y * b.y + a.z * b.z

/-- The function `glm::cross`, with the component formulas of glm. -/
def cross (a b : DVec3 K) : DVec3 K :=
  ⟨a.y * b.z - b.y * a.z, a.z * b.x - b.z * a.x, a.x * b.y - b.x * a.y⟩

/-- The function `glm::normalize`, which glm computes as `v * inversesqrt(dot(v, v))`;
the square root is the parameter `sqrt`.  (For the zero vector the field convention `1 / 0 = 0`
gives the zero vector, where the floating-point source gives NaN components; that value is
reached only on the "parallel" return of `RayTriangleIntersection`.) -/
def normalize (sqrt : K → K) (v : DVec3 K) : DVec3 K := v * (1 / sqrt (dot v v))

end DVec3

open DVec3

/-! ## Rays and intersections -/

/-- The struct `Ray`: origin `P` and direction `d`. -/
structure Ray (K : Type) where
  Origin : DVec3 K
  Direction : DVec3 K

/-- The struct `IntersectionResult`. -/
@[ext]
structure IntersectionResult (K : Type) where
  IsHit : Bool
  Normal : DVec3 K
  Position : DVec3 K
  Barycentric : DVec3 K

section Kernel

variable {K : Type} [LinearOrderedField K]

/-- The function `RayPlaneIntersection`; the out-parameter `hit` is the second component of
the result. -/
def RayPlaneIntersection (ray : Ray K) (n : DVec3 K) (d : K) : K × Bool :=
  let nd := dot n ray.Direction
  if nd = 0 then
    (0, false)
  else
    let np := dot n ray.Origin
    ((d - np) / nd, true)

/-- The constant `EPSILON = 0.0000001` of `RayTriangleIntersection`. -/
def EPSILON : K := 1 / 10000000

/-- The function `RayTriangleIntersection` (Moller-Trumbore test followed by the
area-projection weights). -/
def RayTriangleIntersection (sqrt : K → K) (ray : Ray K) (A B C : DVec3 K) :
    IntersectionResult K :=
  let baca := cross (B - A) (C - A)
  let normal := normalize sqrt baca
  let edge1 := B - A
  let edge2 := C - A
  let h := cross ray.Direction edge2
  let a := dot edge1 h
  if a > -EPSILON ∧ a < EPSILON then
    ⟨false, normal, zero, zero⟩
  else
    let f := 1 / a
    let s := ray.Origin - A
    let u := f * dot s h
    if u < 0 ∨ u > 1 then
      ⟨false, normal, zero, zero⟩
    else
      let q := cross s edge1
      let v := f * dot ray.Direction q
      if v < 0 ∨ u + v > 1 then
        ⟨false, normal, zero, zero⟩
      else
        let t := f * dot edge2 q
        if t > EPSILON then
          let Q := ray.Origin + ray.Direction * t
          let ba := cross (B - A) (Q - A)
          let cb := cross (C - B) (Q - B)
          let ac := cross (A - C) (Q - C)
          let denominator := dot baca normal
          ⟨true, normal, Q,
            ⟨dot cb normal / denominator, dot ac normal / denominator,
              dot ba normal / denominator⟩⟩
        else
          ⟨false, normal, zero, zero⟩

/-- The component `v[i]` of a vector (`operator[]` of glm). -/
def DVec3.get (v : DVec3 K) (i : Fin 3) : K :=
  match i with
  | 0 => v.x
  | 1 => v.y
  | 2 => v.z

/-- The local `a` of `RayTriangleIntersection`: `dot(edge1, cross(Direction, edge2))`. -/
def mtA (ray : Ray K) (A B C : DVec3 K) : K :=
  dot (B - A) (cross ray.Direction (C - A))

/-- The local `u` of `RayTriangleIntersection`: `f * dot(s, h)`. -/
def mtU (ray : Ray K) (A B C : DVec3 K) : K :=
  1 / mtA ray A B C * dot (ray.Origin - A) (cross ray.Direction (C - A))

/-- The local `v` of `RayTriangleIntersection`: `f * dot(Direction, q)`. -/
def mtV (ray : Ray K) (A B C : DVec3 K) : K :=
  1 / mtA ray A B C * dot ray.Direction (cross (ray.Origin - A) (B - A))

/-- The local `t` of `RayTriangleIntersection`: `f * dot(edge2, q)`. -/
def mtT (ray : Ray K) (A B C : DVec3 K) : K :=
  1 / mtA ray A B C * dot (C - A) (cross (ray.Origin - A) (B - A))

/-- The path condition of the `return { true, ... }` of `RayTriangleIntersection`: none of
the three early returns is taken and `t > EPSILON`. -/
def mtAccept (ray : Ray K) (A B C : DVec3 K) : Prop :=
  ¬ (mtA ray A B C > -EPSILON ∧ mtA ray A B C < EPSILON) ∧
  ¬ (mtU ray A B C < 0 ∨ mtU ray A B C > 1) ∧
  ¬ (mtV ray A B C < 0 ∨ mtU ray A B C + mtV ray A B C > 1) ∧
  mtT ray A B C > EPSILON

end Kernel

/-! ## The parsed asset (`tinygltf::Model`) -/

/-- One byte (`unsigned char`) of a buffer. -/
abbrev Byte := Fin 256

/-- The fields of `tinygltf::Accessor` that the loader reads. -/
structure Accessor where
  bufferView : Int
  componentType : Int
  count : Nat
  type : Int
  deriving DecidableEq

/-- The fields of `tinygltf::BufferView` that the loader reads. -/
structure BufferView where
  buffer : Int
  byteOffset : Nat
  byteLength : Nat
  deriving DecidableEq

/-- The struct `tinygltf::Buffer`: its `data` bytes. -/
structure Buffer where
  data : List Byte
  deriving DecidableEq

/-- The fields of `tinygltf::Primitive` that the loader reads; `attributes` is the
`std::map<std::string, int>` as its list of entries. -/
structure Primitive where
  attributes : List (String × Int)
  material : Int
  indices : Int
  mode : Int
  deriving DecidableEq

/-- The fields of `tinygltf::Mesh` that the loader reads. -/
structure Mesh where
  name : String
  primitives : List Primitive
  deriving DecidableEq

/-- The fields of `tinygltf::Model` that the loader reads. -/
structure Model where
  accessors : List Accessor
  bufferViews : List BufferView
  buffers : List Buffer
  meshes : List Mesh
  deriving DecidableEq

/-- Modelled from the spec: the constant `TINYGLTF_MODE_POINTS` of `tiny_gltf.h` (the header
is not under `src/`); the value is that of the glTF 2.0 enumeration. -/
def TINYGLTF_MODE_POINTS : Int := 0
/-- Modelled from the spec: the constant `TINYGLTF_MODE_LINE` of `tiny_gltf.h`. -/
def TINYGLTF_MODE_LINE : Int := 1
/-- Modelled from the spec: the constant `TINYGLTF_MODE_LINE_LOOP` of `tiny_gltf.h`. -/
def TINYGLTF_MODE_LINE_LOOP : Int := 2
/-- Modelled from the spec: the constant `TINYGLTF_MODE_LINE_STRIP` of `tiny_gltf.h`. -/
def TINYGLTF_MODE_LINE_STRIP : Int := 3
/-- Modelled from the spec: the constant `TINYGLTF_MODE_TRIANGLES` of `tiny_gltf.h`, the
"triangle list" drawing mode. -/
def TINYGLTF_MODE_TRIANGLES : Int := 4
/-- Modelled from the spec: the constant `TINYGLTF_MODE_TRIANGLE_STRIP` of `tiny_gltf.h`. -/
def TINYGLTF_MODE_TRIANGLE_STRIP : Int := 5
/-- Modelled from the spec: the constant `TINYGLTF_MODE_TRIANGLE_FAN` of `tiny_gltf.h`. -/
def TINYGLTF_MODE_TRIANGLE_FAN : Int := 6

/-- Modelled from the spec: the constant `TINYGLTF_TYPE_VEC2` of `tiny_gltf.h`. -/
def TINYGLTF_TYPE_VEC2 : Int := 2
/-- Modelled from the spec: the constant `TINYGLTF_TYPE_VEC3` of `tiny_gltf.h`, the
3-component vector type. -/
def TINYGLTF_TYPE_VEC3 : Int := 3
/-- Modelled from the spec: the constant `TINYGLTF_TYPE_VEC4` of `tiny_gltf.h`, the
4-component vector type. -/
def TINYGLTF_TYPE_VEC4 : Int := 4
/-- Modelled from the spec: the constant `TINYGLTF_TYPE_MAT2` of `tiny_gltf.h`. -/
def TINYGLTF_TYPE_MAT2 : Int := 34
/-- Modelled from the spec: the constant `TINYGLTF_TYPE_MAT3` of `tiny_gltf.h`. -/
def TINYGLTF_TYPE_MAT3 : Int := 35
/-- Modelled from the spec: the constant `TINYGLTF_TYPE_MAT4` of `tiny_gltf.h`. -/
def TINYGLTF_TYPE_MAT4 : Int := 36
/-- Modelled from the spec: the constant `TINYGLTF_TYPE_SCALAR` of `tiny_gltf.h`. -/
def TINYGLTF_TYPE_SCALAR : Int := 65

/-- Modelled from the spec: the constant `TINYGLTF_COMPONENT_TYPE_BYTE` of `tiny_gltf.h`. -/
def TINYGLTF_COMPONENT_TYPE_BYTE : Int := 5120
/-- Modelled from the spec: the constant `TINYGLTF_COMPONENT_TYPE_UNSIGNED_BYTE` of
`tiny_gltf.h`. -/
def TINYGLTF_COMPONENT_TYPE_UNSIGNED_BYTE : Int := 5121
/-- Modelled from the spec: the constant `TINYGLTF_COMPONENT_TYPE_SHORT` of `tiny_gltf.h`. -/
def TINYGLTF_COMPONENT_TYPE_SHORT : Int := 5122
/-- Modelled from the spec: the constant `TINYGLTF_COMPONENT_TYPE_UNSIGNED_SHORT` of
`tiny_gltf.h`, the 16-bit unsigned integer component type. -/
def TINYGLTF_COMPONENT_TYPE_UNSIGNED_SHORT : Int := 5123
/-- Modelled from the spec: the constant `TINYGLTF_COMPONENT_TYPE_INT` of `tiny_gltf.h`. -/
def TINYGLTF_COMPONENT_TYPE_INT : Int := 5124
/-- Modelled from the spec: the constant `TINYGLTF_COMPONENT_TYPE_UNSIGNED_INT` of
`tiny_gltf.h`. -/
def TINYGLTF_COMPONENT_TYPE_UNSIGNED_INT : Int := 5125
/-- Modelled from the spec: the constant `TINYGLTF_COMPONENT_TYPE_FLOAT` of `tiny_gltf.h`,
the 32-bit floating-point component type. -/
def TINYGLTF_COMPONENT_TYPE_FLOAT : Int := 5126
/-- Modelled from the spec: the constant `TINYGLTF_COMPONENT_TYPE_DOUBLE` of
`tiny_gltf.h`. -/
def TINYGLTF_COMPONENT_TYPE_DOUBLE : Int := 5130

/-- The element `v[i]` of a `std::vector` for an `int` index; an index outside the vector is
undefined behaviour in the source and `none` here. -/
def vecAt {α : Type} (v : List α) (i : Int) : Option α :=
  if 0 ≤ i then v[i.toNat]? else none

/-- The call `attributes.find(key)` on the attribute map: the mapped accessor index, or
`none` for `end()`. -/
def mapFind (m : List (String × Int)) (key : String) : Option Int := m.lookup key

/-- The expression `attributes[key]` on the attribute map: the mapped value, and the
value-initialised `0` when the key is absent. -/
def mapIndex (m : List (String × Int)) (key : String) : Int := (mapFind m key).getD 0

/-- The function `GLTFTypeName`. -/
def GLTFTypeName (gltfType : Int) : String :=
  if gltfType = TINYGLTF_TYPE_SCALAR then "SCALAR"
  else if gltfType = TINYGLTF_TYPE_VEC2 then "VEC2"
  else if gltfType = TINYGLTF_TYPE_VEC3 then "VEC3"
  else if gltfType = TINYGLTF_TYPE_VEC4 then "VEC4"
  else if gltfType = TINYGLTF_TYPE_MAT2 then "MAT2"
  else if gltfType = TINYGLTF_TYPE_MAT3 then "MAT3"
  else if gltfType = TINYGLTF_TYPE_MAT4 then "MAT4"
  else "UNKNOWN"

/-- The function `GLTFComponentTypeName`. -/
def GLTFComponentTypeName (gltfComponentType : Int) : String :=
  if gltfComponentType = TINYGLTF_COMPONENT_TYPE_BYTE then "BYTE"
  else if gltfComponentType = TINYGLTF_COMPONENT_TYPE_DOUBLE then "DOUBLE"
  else if gltfComponentType = TINYGLTF_COMPONENT_TYPE_FLOAT then "FLOAT"
  else if gltfComponentType = TINYGLTF_COMPONENT_TYPE_INT then "INT"
  else if gltfComponentType = TINYGLTF_COMPONENT_TYPE_SHORT then "SHORT"
  else if gltfComponentType = TINYGLTF_COMPONENT_TYPE_UNSIGNED_BYTE then "UNSIGNED_BYTE"
  else if gltfComponentType = TINYGLTF_COMPONENT_TYPE_UNSIGNED_INT then "UNSIGNED_INT"
  else if gltfComponentType = TINYGLTF_COMPONENT_TYPE_UNSIGNED_SHORT then "UNSIGNED_SHORT"
  else "UNKNOWN"

/-- The function `GLTFModeName`. -/
def GLTFModeName (gltfMode : Int) : String :=
  if gltfMode = TINYGLTF_MODE_POINTS then "POINTS"
  else if gltfMode = TINYGLTF_MODE_LINE then "LINES"
  else if gltfMode = TINYGLTF_MODE_LINE_LOOP then "LINE_LOOP"
  else if gltfMode = TINYGLTF_MODE_LINE_STRIP then "LINE_STRIP"
  else if gltfMode = TINYGLTF_MODE_TRIANGLES then "TRIANGLES"
  else if gltfMode = TINYGLTF_MODE_TRIANGLE_STRIP then "TRIANGLE_STRIP"
  else if gltfMode = TINYGLTF_MODE_TRIANGLE_FAN then "TRIANGLE_FAN"
  else "UNKNOWN"

/-- The function `VerifyPrimitiveAttribute`.  The result is the returned `isValid` together
with the lines written to `std::cout`; it is `none` when the attribute names an accessor
index outside `model.accessors`. -/
def VerifyPrimitiveAttribute (model : Model) (primitive : Primitive) (attributeName : String)
    (requiredType requiredComponentType : Int) (meshName attributeDescription : String) :
    Option (Bool × List String) :=
  match mapFind primitive.attributes attributeName with
  | some index =>
    match vecAt model.accessors index with
    | none => none
    | some accessor =>
      let s1 : Bool × List String :=
        if accessor.type ≠ requiredType then
          (false, ["ERROR: [" ++ meshName ++ "] Primitive found with " ++ attributeDescription
            ++ " type of '" ++ GLTFTypeName accessor.type ++ "' instead of '"
            ++ GLTFTypeName requiredType ++ "'!\n"])
        else (true, [])
      let s2 : Bool × List String :=
        if accessor.componentType ≠ requiredComponentType then
          (false, s1.2 ++ ["ERROR: [" ++ meshName ++ "] Primitive found with "
            ++ attributeDescription ++ " component type of '"
            ++ GLTFComponentTypeName accessor.componentType ++ "' instead of '"
            ++ GLTFComponentTypeName requiredComponentType ++ "'!\n"])
        else s1
      some s2
  | none =>
    some (false, ["ERROR: [" ++ meshName ++ "] Primitive found without "
      ++ attributeDescription ++ " data!\n"])

/-- The function `VerifyPrimitive`.  The result is the returned `isValid` together with the
lines written to `std::cout`, in order; `isValid &= e` evaluates `e` whatever `isValid`
is. -/
def VerifyPrimitive (model : Model) (mesh : Mesh) (primitive : Primitive) :
    Option (Bool × List String) := do
  let s0 : Bool × List String :=
    if primitive.mode ≠ TINYGLTF_MODE_TRIANGLES then
      (false, ["ERROR: [" ++ mesh.name ++ "] Primitive found with mode '"
        ++ GLTFModeName primitive.mode
        ++ "' which is not supported! (Only 'TRIANGLES' is supported.)\n"])
    else (true, [])
  let s1 : Bool × List String :=
    if primitive.material ≠ -1 then
      (s0.1, s0.2 ++ ["WARNING: [" ++ mesh.name ++ "] Primitive found with material "
        ++ "specified. Materials will be ignored because they are not supported.\n"])
    else s0
  let position ← VerifyPrimitiveAttribute model primitive "POSITION"
    TINYGLTF_TYPE_VEC3 TINYGLTF_COMPONENT_TYPE_FLOAT mesh.name "vertex position"
  let s2 : Bool × List String := (s1.1 && position.1, s1.2 ++ position.2)
  let normal ← VerifyPrimitiveAttribute model primitive "NORMAL"
    TINYGLTF_TYPE_VEC3 TINYGLTF_COMPONENT_TYPE_FLOAT mesh.name "vertex normal"
  let s3 : Bool × List String := (s2.1 && normal.1, s2.2 ++ normal.2)
  let color ← VerifyPrimitiveAttribute model primitive "COLOR_0"
    TINYGLTF_TYPE_VEC4 TINYGLTF_COMPONENT_TYPE_UNSIGNED_SHORT mesh.name "vertex color"
  let s4 : Bool × List String := (s3.1 && color.1, s3.2 ++ color.2)
  let s5 : Bool × List String :=
    if primitive.indices = -1 then
      (false, s4.2 ++ ["Error: [" ++ mesh.name ++ "] Primitive found with no indices!\n"])
    else s4
  pure s5

/-! ## The triangle registry and `LoadModel` -/

/-- The vector type `glm::uvec3`; each component is a 32-bit unsigned integer. -/
structure UVec3 where
  x : Nat
  y : Nat
  z : Nat
  deriving DecidableEq

/-- The vector type `glm::vec4` of a converted colour; the quotient `c / 65535.0f` is kept
as the exact rational. -/
structure Vec4 where
  x : ℚ
  y : ℚ
  z : ℚ
  w : ℚ
  deriving DecidableEq

/-- The struct `TriangleRegistry`.  `Positions`, `Normals` and `Colors` are the contents of
the three consecutive regions of `Buffer`, in the order in which `LoadModel` writes them:
the bytes copied behind the pointer `Positions`, the bytes copied behind `Normals` (which
starts where the position bytes end), and the colours stored behind `Colors` (which starts
where the normal bytes end). -/
structure TriangleRegistry where
  Positions : List Byte
  Normals : List Byte
  Colors : List Vec4
  VertexCount : Nat
  Triangles : List UVec3
  deriving DecidableEq

/-- The value-initialised `TriangleRegistry registry{}`. -/
def TriangleRegistry.empty : TriangleRegistry := ⟨[], [], [], 0, []⟩

/-- The primitives of all meshes in the order of the nested loops
`for (mesh : model.meshes) for (primitive : mesh.primitives)`, each with its mesh. -/
def allPrimitives : List Mesh → List (Mesh × Primitive)
  | [] => []
  | mesh :: rest => mesh.primitives.map (fun primitive => (mesh, primitive)) ++ allPrimitives rest

/-- The verification loop of `LoadModel` from the state `(isValid, vertexCount)` and the
lines written so far.  `vertexCount` is a `size_t`: the sum `vertexCount += count` is taken
modulo `2 ^ 64`. -/
def verifyLoop (model : Model) :
    List (Mesh × Primitive) → Bool × Nat × List String → Option (Bool × Nat × List String)
  | [], state => some state
  | (mesh, primitive) :: rest, (isValid, vertexCount, out) => do
    let r ← VerifyPrimitive model mesh primitive
    if isValid && r.1 then
      let accessor ← vecAt model.accessors (mapIndex primitive.attributes "POSITION")
      verifyLoop model rest (true, (vertexCount + accessor.count) % 2 ^ 64, out ++ r.2)
    else
      verifyLoop model rest (false, vertexCount, out ++ r.2)

/-- The source range of a `memcpy`: `len` bytes of `data` from offset `off`; `none` when the
range leaves the buffer. -/
def readBytes (data : List Byte) (off len : Nat) : Option (List Byte) :=
  if off + len ≤ data.length then some ((data.drop off).take len) else none

/-- The loops "Copy all of the vertex positions" and "Copy all of the vertex normals" of
`LoadModel` (the same body for the attribute `POSITION` and for `NORMAL`): every primitive
appends the `byteLength` bytes of its buffer view to the bytes copied so far. -/
def copyAttributeLoop (model : Model) (attributeName : String) :
    List (Mesh × Primitive) → List Byte → Option (List Byte)
  | [], copied => some copied
  | (_, primitive) :: rest, copied => do
    let accessor ← vecAt model.accessors (mapIndex primitive.attributes attributeName)
    let bufferView ← vecAt model.bufferViews accessor.bufferView
    let buffer ← vecAt model.buffers bufferView.buffer
    let bytes ← readBytes buffer.data bufferView.byteOffset bufferView.byteLength
    copyAttributeLoop model attributeName rest (copied ++ bytes)

/-- The element `source[k]` of a `uint16_t*` that points at offset `off` of `data`
(little-endian, any alignment); `none` when it lies outside the buffer. -/
def readU16 (data : List Byte) (off k : Nat) : Option Nat := do
  let lo ← data[off + 2 * k]?
  let hi ← data[off + 2 * k + 1]?
  pure (lo.val + 256 * hi.val)

/-- The conversion loop `for (int32_t i = 0; i < accessor.count; i++)` of the colours of one
primitive, from index `i` for `n` more rounds. -/
def convertColors (data : List Byte) (off : Nat) : Nat → Nat → Option (List Vec4)
  | _, 0 => some []
  | i, n + 1 => do
    let index := i * 4
    let r ← readU16 data off index
    let g ← readU16 data off (index + 1)
    let b ← readU16 data off (index + 2)
    let a ← readU16 data off (index + 3)
    let rest ← convertColors data off (i + 1) n
    pure (⟨(r : ℚ) / 65535, (g : ℚ) / 65535, (b : ℚ) / 65535, (a : ℚ) / 65535⟩ :: rest)

/-- The loop "Copy all of the vertex colors" of `LoadModel`; `none` also when the `int32_t`
index `i * 4 + 3` would overflow. -/
def copyColorsLoop (model : Model) :
    List (Mesh × Primitive) → List Vec4 → Option (List Vec4)
  | [], copied => some copied
  | (_, primitive) :: rest, copied => do
    let accessor ← vecAt model.accessors (mapIndex primitive.attributes "COLOR_0")
    let bufferView ← vecAt model.bufferViews accessor.bufferView
    let buffer ← vecAt model.buffers bufferView.buffer
    if 4 * accessor.count ≤ 2 ^ 31 then
      let colors ← convertColors buffer.data bufferView.byteOffset 0 accessor.count
      copyColorsLoop model rest (copied ++ colors)
    else none

/-- The loop `for (int32_t i = 0; i < accessor.count / 3; i++)` over the index triples of
one primitive, from triple `i` for `n` more rounds; the sums are `uint32_t` sums. -/
def readTriangles (data : List Byte) (off vertexOffset : Nat) : Nat → Nat → Option (List UVec3)
  | _, 0 => some []
  | i, n + 1 => do
    let index := i * 3
    let i0 ← readU16 data off index
    let i1 ← readU16 data off (index + 1)
    let i2 ← readU16 data off (index + 2)
    let rest ← readTriangles data off vertexOffset (i + 1) n
    pure (⟨(i0 + vertexOffset) % 2 ^ 32, (i1 + vertexOffset) % 2 ^ 32,
      (i2 + vertexOffset) % 2 ^ 32⟩ :: rest)

/-- The last loop of `LoadModel`, which fills `registry.Triangles`; `vertexOffset` is a
`uint32_t`.  `none` also when the `int32_t` index `i * 3 + 2` would overflow. -/
def trianglesLoop (model : Model) :
    List (Mesh × Primitive) → Nat → List UVec3 → Option (List UVec3)
  | [], _, triangles => some triangles
  | (_, primitive) :: rest, vertexOffset, triangles => do
    let accessor ← vecAt model.accessors primitive.indices
    let bufferView ← vecAt model.bufferViews accessor.bufferView
    let buffer ← vecAt model.buffers bufferView.buffer
    if 3 * (accessor.count / 3) ≤ 2 ^ 31 then
      let added ← readTriangles buffer.data bufferView.byteOffset vertexOffset 0
        (accessor.count / 3)
      let position ← vecAt model.accessors (mapIndex primitive.attributes "POSITION")
      trianglesLoop model rest ((vertexOffset + position.count % 2 ^ 32) % 2 ^ 32)
        (triangles ++ added)
    else none

/-- The method `TriangleRegistry::Allocate`: the number of floats of
`new float[vertexCount * 10]`; the product is taken in `size_t`, modulo `2 ^ 64`. -/
def allocatedFloats (vertexCount : Nat) : Nat := vertexCount * 10 % 2 ^ 64

/-- The function `LoadModel`, after the call of the tinygltf loader: `res` is the loader's
return value and `model` the asset it parsed.  The result is the returned registry together
with the lines of the verification written to `std::cout`; it is `none` when the source
reads outside a vector or buffer, when the array of `Allocate` would need more bytes than a
`size_t` holds (the allocation throws), or when the copies write more than the floats (of
four bytes) that `Allocate` reserved. -/
def LoadModel (res : Bool) (model : Model) : Option (TriangleRegistry × List String) :=
  if res then do
    let v ← verifyLoop model (allPrimitives model.meshes) (true, 0, [])
    if v.1 then
      let vertexCount := v.2.1
      let positions ← copyAttributeLoop model "POSITION" (allPrimitives model.meshes) []
      let normals ← copyAttributeLoop model "NORMAL" (allPrimitives model.meshes) []
      let colors ← copyColorsLoop model (allPrimitives model.meshes) []
      if allocatedFloats vertexCount * 4 < 2 ^ 64 ∧
          positions.length + normals.length + 16 * colors.length
            ≤ allocatedFloats vertexCount * 4 then
        let triangles ← trianglesLoop model (allPrimitives model.meshes) 0 []
        pure (⟨positions, normals, colors, vertexCount, triangles⟩, v.2.2)
      else none
    else
      pure (TriangleRegistry.empty, v.2.2)
  else
    pure (TriangleRegistry.empty, [])

/-! ## Specification-side definitions and example assets -/

/-- The attribute requirement of the validation contract: the primitive has the attribute,
and the accessor it names has the required type and component type. -/
def attributeOk (model : Model) (primitive : Primitive) (attributeName : String)
    (requiredType requiredComponentType : Int) : Prop :=
  ∃ index accessor, mapFind primitive.attributes attributeName = some index ∧
    vecAt model.accessors index = some accessor ∧
    accessor.type = requiredType ∧ accessor.componentType = requiredComponentType

/-- Every primitive of the list passes `VerifyPrimitive`. -/
def allPass (model : Model) (primitives : List (Mesh × Primitive)) : Prop :=
  ∀ mp ∈ primitives, (VerifyPrimitive model mp.1 mp.2).map Prod.fst = some true

/-- The `count` of the accessor named by the primitive's `POSITION` attribute (`0` when the
primitive has no such attribute or accessor). -/
def positionCount (model : Model) (primitive : Primitive) : Nat :=
  match mapFind primitive.attributes "POSITION" with
  | some index =>
    match vecAt model.accessors index with
    | some accessor => accessor.count
    | none => 0
  | none => 0

/-- The sum of the `POSITION` accessor counts of the primitives of the list. -/
def totalPositionCount (model : Model) (primitives : List (Mesh × Primitive)) : Nat :=
  (primitives.map (fun mp => positionCount model mp.2)).sum

/-- The 16-bit value stored little-endian at element `k` behind offset `off` (bytes outside
the buffer count as `0`). -/
def storedU16 (data : List Byte) (off k : Nat) : Nat :=
  (data.getD (off + 2 * k) 0).val + 256 * (data.getD (off + 2 * k + 1) 0).val

/-- The triangle that round `i` of the index loop appends. -/
def triangleAt (data : List Byte) (off vertexOffset i : Nat) : UVec3 :=
  ⟨storedU16 data off (i * 3) + vertexOffset, storedU16 data off (i * 3 + 1) + vertexOffset,
    storedU16 data off (i * 3 + 2) + vertexOffset⟩

/-- Reduction of the three components to 32 bits. -/
def UVec3.wrap (t : UVec3) : UVec3 := ⟨t.x % 2 ^ 32, t.y % 2 ^ 32, t.z % 2 ^ 32⟩

/-- The accessor, buffer view and buffer that the loops of `LoadModel` reach from an accessor
index (`none` when one of the three indices is outside its vector). -/
def viewOf (model : Model) (accessorIndex : Int) : Option (Accessor × BufferView × Buffer) := do
  let accessor ← vecAt model.accessors accessorIndex
  let bufferView ← vecAt model.bufferViews accessor.bufferView
  let buffer ← vecAt model.buffers bufferView.buffer
  pure (accessor, bufferView, buffer)

/-- The consecutive index triples of one primitive, each index increased by `offset`. -/
def primitiveTriangles (model : Model) (primitive : Primitive) (offset : Nat) : List UVec3 :=
  match viewOf model primitive.indices with
  | some (accessor, bufferView, buffer) =>
    (List.range (accessor.count / 3)).map
      (fun i => triangleAt buffer.data bufferView.byteOffset offset i)
  | none => []

/-- The concatenation, in mesh-then-primitive order, of the index triples of the primitives,
where the indices of a primitive are increased by `offset` plus the sum of the `POSITION`
accessor counts of the primitives before it. -/
def flattenedTriangles (model : Model) : List (Mesh × Primitive) → Nat → List UVec3
  | [], _ => []
  | (_, primitive) :: rest, offset =>
    primitiveTriangles model primitive offset
      ++ flattenedTriangles model rest (offset + positionCount model primitive)

/-- The `byteLength` of the buffer view reached from an accessor index (`0` when there is
none). -/
def viewLength (model : Model) (accessorIndex : Int) : Nat :=
  match viewOf model accessorIndex with
  | some (_, bufferView, _) => bufferView.byteLength
  | none => 0

/-- The `count` of the accessor at an index (`0` when there is none). -/
def accessorCount (model : Model) (accessorIndex : Int) : Nat :=
  match vecAt model.accessors accessorIndex with
  | some accessor => accessor.count
  | none => 0

/-- Every read that the copy loops of `LoadModel` make for this primitive stays inside its
vector or buffer, and the `int32_t` loop indices do not overflow. -/
def primitiveInBounds (model : Model) (primitive : Primitive) : Prop :=
  (∃ a v b, viewOf model (mapIndex primitive.attributes "POSITION") = some (a, v, b) ∧
    v.byteOffset + v.byteLength ≤ b.data.length) ∧
  (∃ a v b, viewOf model (mapIndex primitive.attributes "NORMAL") = some (a, v, b) ∧
    v.byteOffset + v.byteLength ≤ b.data.length) ∧
  (∃ a v b, viewOf model (mapIndex primitive.attributes "COLOR_0") = some (a, v, b) ∧
    v.byteOffset + 8 * a.count ≤ b.data.length ∧ 4 * a.count ≤ 2 ^ 31) ∧
  (∃ a v b, viewOf model primitive.indices = some (a, v, b) ∧
    v.byteOffset + 2 * (3 * (a.count / 3)) ≤ b.data.length ∧ 3 * (a.count / 3) ≤ 2 ^ 31)

/-- The number of bytes that the three copy loops write into `Buffer`. -/
def writtenBytes (model : Model) (primitives : List (Mesh × Primitive)) : Nat :=
  (primitives.map (fun mp => viewLength model (mapIndex mp.2.attributes "POSITION"))).sum
  + (primitives.map (fun mp => viewLength model (mapIndex mp.2.attributes "NORMAL"))).sum
  + 16 * (primitives.map
      (fun mp => accessorCount model (mapIndex mp.2.attributes "COLOR_0"))).sum

/-- Every copy of `LoadModel` stays inside the buffers it reads and inside the floats that
`Allocate` reserved for the vertex count, and the size of that array fits a `size_t`. -/
def copiesInBounds (model : Model) : Prop :=
  (∀ mp ∈ allPrimitives model.meshes, primitiveInBounds model mp.2) ∧
  allocatedFloats (totalPositionCount model (allPrimitives model.meshes) % 2 ^ 64) * 4
    < 2 ^ 64 ∧
  writtenBytes model (allPrimitives model.meshes)
    ≤ allocatedFloats (totalPositionCount model (allPrimitives model.meshes) % 2 ^ 64) * 4

/-- Every stored index of every primitive is below the primitive's `POSITION` count. -/
def indicesInRange (model : Model) (primitives : List (Mesh × Primitive)) : Prop :=
  ∀ mp ∈ primitives, ∀ t ∈ primitiveTriangles model mp.2 0,
    t.x < positionCount model mp.2 ∧ t.y < positionCount model mp.2 ∧
      t.z < positionCount model mp.2

/-- Element `k` of an array of `size`-byte elements stored in `bytes`. -/
def elementBytes (bytes : List Byte) (size k : Nat) : List Byte :=
  (bytes.drop (size * k)).take size

/-- A primitive in mode `TRIANGLES`, without material, whose `POSITION`, `NORMAL`, `COLOR_0`
and index accessors are `base`, `base + 1`, `base + 2` and `base + 3`. -/
def examplePrimitive (base : Int) : Primitive :=
  ⟨[("COLOR_0", base + 2), ("NORMAL", base + 1), ("POSITION", base)], -1, base + 3,
    TINYGLTF_MODE_TRIANGLES⟩

/-- The bytes `0, 0, 1, 0, 2, 0`: the 16-bit indices `0, 1, 2`. -/
def indices012 : List Byte := [0, 0, 1, 0, 2, 0]

/-- The buffer of `exampleModel`: 128 zero bytes of the first primitive's vertex data, its
indices `0, 1, 2`, 96 zero bytes of the second primitive's vertex data, its indices
`0, 1, 2`. -/
def exampleBuffer : Buffer :=
  ⟨List.replicate 128 0 ++ indices012 ++ List.replicate 96 0 ++ indices012⟩

/-- An asset of one mesh with two primitives of 4 and 3 vertices, each with the local
indices `{0, 1, 2}`; every buffer view holds exactly the bytes of its accessor.  (An accessor
is written `⟨bufferView, componentType, count, type⟩` with 5126 = `FLOAT`,
5123 = `UNSIGNED_SHORT`, 3 = `VEC3`, 4 = `VEC4`, 65 = `SCALAR`; a buffer view is
`⟨buffer, byteOffset, byteLength⟩`.) -/
def exampleModel : Model :=
  { accessors := [⟨0, 5126, 4, 3⟩, ⟨1, 5126, 4, 3⟩, ⟨2, 5123, 4, 4⟩, ⟨3, 5123, 3, 65⟩,
                  ⟨4, 5126, 3, 3⟩, ⟨5, 5126, 3, 3⟩, ⟨6, 5123, 3, 4⟩, ⟨7, 5123, 3, 65⟩],
    bufferViews := [⟨0, 0, 48⟩, ⟨0, 48, 48⟩, ⟨0, 96, 32⟩, ⟨0, 128, 6⟩,
                    ⟨0, 134, 36⟩, ⟨0, 170, 36⟩, ⟨0, 206, 24⟩, ⟨0, 230, 6⟩],
    buffers := [exampleBuffer],
    meshes := [⟨"mesh", [examplePrimitive 0, examplePrimitive 4]⟩] }

/-- An asset whose only primitive has no `NORMAL` attribute. -/
def missingNormalModel : Model :=
  { accessors := [⟨0, 5126, 3, 3⟩, ⟨1, 5123, 3, 4⟩, ⟨2, 5123, 3, 65⟩],
    bufferViews := [⟨0, 0, 36⟩, ⟨0, 36, 24⟩, ⟨0, 60, 6⟩],
    buffers := [⟨List.replicate 60 0 ++ indices012⟩],
    meshes := [⟨"mesh", [⟨[("COLOR_0", 1), ("POSITION", 0)], -1, 2, TINYGLTF_MODE_TRIANGLES⟩]⟩] }

/-- An asset of one primitive with 3 vertices whose stored indices are `0, 1, 5`. -/
def badIndexModel : Model :=
  { accessors := [⟨0, 5126, 3, 3⟩, ⟨1, 5126, 3, 3⟩, ⟨2, 5123, 3, 4⟩, ⟨3, 5123, 3, 65⟩],
    bufferViews := [⟨0, 0, 36⟩, ⟨0, 36, 36⟩, ⟨0, 72, 24⟩, ⟨0, 96, 6⟩],
    buffers := [⟨List.replicate 96 0 ++ [0, 0, 1, 0, 5, 0]⟩],
    meshes := [⟨"mesh", [examplePrimitive 0]⟩] }

/-- An asset of two primitives: the `POSITION` accessor of the first has the count `2 ^ 32`
(its buffer views are empty), the second has 3 vertices and the local indices
`{0, 1, 2}`. -/
def hugeModel : Model :=
  { accessors := [⟨0, 5126, 4294967296, 3⟩, ⟨0, 5126, 4294967296, 3⟩, ⟨0, 5123, 0, 4⟩,
                  ⟨0, 5123, 0, 65⟩,
                  ⟨1, 5126, 3, 3⟩, ⟨2, 5126, 3, 3⟩, ⟨3, 5123, 3, 4⟩, ⟨4, 5123, 3, 65⟩],
    bufferViews := [⟨0, 0, 0⟩, ⟨0, 0, 36⟩, ⟨0, 36, 36⟩, ⟨0, 72, 24⟩, ⟨0, 96, 6⟩],
    buffers := [⟨List.replicate 96 0 ++ indices012⟩],
    meshes := [⟨"mesh", [examplePrimitive 0, examplePrimitive 4]⟩] }

/-- An asset of two primitives that share their accessors: the `POSITION` and `NORMAL`
accessors have the count `2 ^ 63` and the `COLOR_0` accessor the count `0` (the buffer view
of the vertex data is empty); the stored indices are `0, 1, 5`. -/
def wrapModel : Model :=
  { accessors := [⟨0, 5126, 9223372036854775808, 3⟩, ⟨0, 5126, 9223372036854775808, 3⟩,
                  ⟨0, 5123, 0, 4⟩, ⟨1, 5123, 3, 65⟩],
    bufferViews := [⟨0, 0, 0⟩, ⟨0, 0, 6⟩],
    buffers := [⟨[0, 0, 1, 0, 5, 0]⟩],
    meshes := [⟨"mesh", [examplePrimitive 0, examplePrimitive 0]⟩] }

/-- The `i`-th element (twelve bytes) of the buffer view of the accessor that the attribute
`attributeName` of the primitive names. -/
def primitiveElement (model : Model) (primitive : Primitive) (attributeName : String)
    (i : Nat) : Option (List Byte) :=
  match viewOf model (mapIndex primitive.attributes attributeName) with
  | some (_, bufferView, buffer) => readBytes buffer.data (bufferView.byteOffset + 12 * i) 12
  | none => none

/-- The colour bytes of one vertex whose red channel is the 16-bit value `r` (below 256) and
whose other channels are `0`. -/
def redBytes (r : Byte) : List Byte := [r, 0, 0, 0, 0, 0, 0, 0]

/-- The buffer of `layoutModel`: per primitive the positions, normals, colours and indices of
its 3 vertices.  The position bytes of the first primitive are `1, 2, 3` (followed by twelve
unused bytes `4`), those of the second `21, 22, 23`; the normal bytes are `11, 12, 13` and
`31, 32, 33`; the red channels are `1, 2, 3` and `5, 6, 7`. -/
def layoutBuffer : Buffer :=
  ⟨List.replicate 12 1 ++ List.replicate 12 2 ++ List.replicate 12 3 ++ List.replicate 12 4
    ++ List.replicate 12 11 ++ List.replicate 12 12 ++ List.replicate 12 13
    ++ redBytes 1 ++ redBytes 2 ++ redBytes 3 ++ indices012
    ++ List.replicate 12 21 ++ List.replicate 12 22 ++ List.replicate 12 23
    ++ List.replicate 12 31 ++ List.replicate 12 32 ++ List.replicate 12 33
    ++ redBytes 5 ++ redBytes 6 ++ redBytes 7 ++ indices012⟩

/-- An asset of two primitives of 3 vertices each in which every buffer view holds exactly
the bytes of its accessor. -/
def layoutModel : Model :=
  { accessors := [⟨0, 5126, 3, 3⟩, ⟨1, 5126, 3, 3⟩, ⟨2, 5123, 3, 4⟩, ⟨3, 5123, 3, 65⟩,
                  ⟨4, 5126, 3, 3⟩, ⟨5, 5126, 3, 3⟩, ⟨6, 5123, 3, 4⟩, ⟨7, 5123, 3, 65⟩],
    bufferViews := [⟨0, 0, 36⟩, ⟨0, 48, 36⟩, ⟨0, 84, 24⟩, ⟨0, 108, 6⟩,
                    ⟨0, 114, 36⟩, ⟨0, 150, 36⟩, ⟨0, 186, 24⟩, ⟨0, 210, 6⟩],
    buffers := [layoutBuffer],
    meshes := [⟨"mesh", [examplePrimitive 0, examplePrimitive 4]⟩] }

/-- The asset `layoutModel` with the buffer view of the first `POSITION` accessor extended
from 36 to 48 bytes, one vertex more than the 3 that the accessor counts. -/
def paddedViewModel : Model :=
  { layoutModel with
    bufferViews := [⟨0, 0, 48⟩, ⟨0, 48, 36⟩, ⟨0, 84, 24⟩, ⟨0, 108, 6⟩,
                    ⟨0, 114, 36⟩, ⟨0, 150, 36⟩, ⟨0, 186, 24⟩, ⟨0, 210, 6⟩] }

/-! ## Camera -/

section CameraDefs

variable {K : Type} [LinearOrderedField K]

/-- The product `k * v` of a scalar and a vector. -/
def DVec3.lscale (k : K) (v : DVec3 K) : DVec3 K := ⟨k * v.x, k * v.y, k * v.z⟩

/-- The quotient `v / k` of a vector and a scalar. -/
def DVec3.sdiv (v : DVec3 K) (k : K) : DVec3 K := ⟨v.x / k, v.y / k, v.z / k⟩

instance : HMul K (DVec3 K) (DVec3 K) := ⟨DVec3.lscale⟩

instance : HDiv (DVec3 K) K (DVec3 K) := ⟨DVec3.sdiv⟩

/-- The function `glm::length`: the square root of `dot(v, v)`. -/
def DVec3.length (sqrt : K → K) (v : DVec3 K) : K := sqrt (dot v v)

/-- The struct `Camera`. -/
structure Camera (K : Type) where
  Origin : DVec3 K
  UpperLeftCorner : DVec3 K
  Horizontal : DVec3 K
  Vertical : DVec3 K
  U : DVec3 K
  V : DVec3 K
  W : DVec3 K
  LensRadius : K

/-- The function `glm::radians`: degrees times `pi / 180`; the constant `pi` is a parameter
of the embedding. -/
def radians (pi : K) (degrees : K) : K := degrees * (pi / 180)

/-- The constructor `Camera::Camera` of the struct `Camera`; the square root of `glm::normalize`, `std::tan` and the
constant `pi` of `glm::radians` are parameters of the embedding. -/
def Camera.new (sqrt tan : K → K) (pi : K) (lookFrom lookAt vup : DVec3 K)
    (vfov aspectRatio aperture focusDist : K) : Camera K :=
  let theta := radians pi vfov
  let h := tan (theta / 2)
  let viewportHeight := 2 * h
  let viewportWidth := aspectRatio * viewportHeight
  let W := normalize sqrt (lookFrom - lookAt)
  let U := normalize sqrt (cross vup W)
  let V := cross W U
  let Origin := lookFrom
  let Horizontal := (focusDist * viewportWidth) * U
  let Vertical := (focusDist * viewportHeight) * V
  let UpperLeftCorner := Origin - Horizontal / (2 : K) + Vertical / (2 : K) - focusDist * W
  { Origin := Origin, UpperLeftCorner := UpperLeftCorner, Horizontal := Horizontal,
    Vertical := Vertical, U := U, V := V, W := W, LensRadius := aperture / 2 }

/-- The function `RandomDouble(min, max)`, applied to the value `u` that `RandomDouble()`
draws from `[0, 1)`. -/
def RandomDouble (min max u : K) : K := min + (max - min) * u

/-- The rejection loop of `Camera::GetRay` ("random in unit disk"): the random source is the
stream `rng` of the values of `RandomDouble()`, read from position `pos`; every round draws
two values.  The loop runs for at most `fuel` rounds; the result is the accepted point and
the position of the stream after it. -/
def randomInUnitDisk (rng : Nat → K) : Nat → Nat → Option (DVec3 K × Nat)
  | 0, _ => none
  | fuel + 1, pos =>
    let p : DVec3 K := ⟨RandomDouble (-1) 1 (rng pos), RandomDouble (-1) 1 (rng (pos + 1)), 0⟩
    if p.x * p.x + p.y * p.y + p.z * p.z ≥ 1 then
      randomInUnitDisk rng fuel (pos + 2)
    else
      some (p, pos + 2)

/-- The body of `Camera::GetRay` after the rejection loop has accepted the point `p`. -/
def Camera.rayThrough (cam : Camera K) (s t : K) (p : DVec3 K) : Ray K :=
  let rd := cam.LensRadius * p
  let offset := cam.U * rd.x + cam.V * rd.y
  ⟨cam.Origin + offset,
    cam.UpperLeftCorner + s * cam.Horizontal - t * cam.Vertical - cam.Origin - offset⟩

/-- The function `Camera::GetRay`, with the random stream `rng` read from position `pos` and
at most `fuel` rounds of the rejection loop; the result is the ray and the new position of
the stream. -/
def Camera.GetRay (cam : Camera K) (s t : K) (rng : Nat → K) (fuel pos : Nat) :
    Option (Ray K × Nat) :=
  match randomInUnitDisk rng fuel pos with
  | some (p, pos') => some (cam.rayThrough s t p, pos')
  | none => none

/-- Round `k` of the rejection loop that starts at position `pos` of the stream draws a point
inside the unit disk. -/
def acceptsAt (rng : Nat → K) (pos k : Nat) : Prop :=
  RandomDouble (-1) 1 (rng (pos + 2 * k)) * RandomDouble (-1) 1 (rng (pos + 2 * k))
    + RandomDouble (-1) 1 (rng (pos + 2 * k + 1)) * RandomDouble (-1) 1 (rng (pos + 2 * k + 1))
    + 0 * 0 < 1

/-! ## The sampling loop of `main` -/

/-- The coordinate `u` (and likewise `v`) that the sampling loop passes to `GetRay`:
`(static_cast<double>(x) + RandomDouble()) / static_cast<double>(width - 1)`, with `jitter`
the value of `RandomDouble()`. -/
def pixelCoordinate (x width : Int) (jitter : K) : K :=
  ((x : K) + jitter) / ((width - 1 : Int) : K)

/-- The squared distance `distExp` of the nearest-hit scan: the squared length of
`result.Position - cam.Origin`. -/
def distExp (position camOrigin : DVec3 K) : K :=
  let diff := position - camOrigin
  diff.x * diff.x + diff.y * diff.y + diff.z * diff.z

/-- The interpolated normal of the shading step: the normalised sum of the three vertex
normals weighted by the barycentric weights of the hit. -/
def shadingNormal (sqrt : K → K) (n0 n1 n2 barycentric : DVec3 K) : DVec3 K :=
  normalize sqrt (n0 * barycentric.x + n1 * barycentric.y + n2 * barycentric.z)

/-- The term `lightFactor` of the shading step, for the normalised normal `normal`:
`dot(normalize(light - position), normal) / 2 + 0.5`. -/
def lightFactor (sqrt : K → K) (light position normal : DVec3 K) : K :=
  dot (normalize sqrt (light - position)) normal / 2 + 1 / 2

end CameraDefs

/-! ## Findings of the validation -/

/-- An error report of the validation: a line that starts with `ERROR:` or with `Error:`
(a line that starts with `WARNING:` is no error). -/
def isErrorLine (line : String) : Bool :=
  line.data.take 6 == "ERROR:".data || line.data.take 6 == "Error:".data

/-- The finding of the check "mode needs to be TRIANGLES" of `VerifyPrimitive`, taken alone. -/
def modeFindings (mesh : Mesh) (primitive : Primitive) : List String :=
  if primitive.mode ≠ TINYGLTF_MODE_TRIANGLES then
    ["ERROR: [" ++ mesh.name ++ "] Primitive found with mode '"
      ++ GLTFModeName primitive.mode
      ++ "' which is not supported! (Only 'TRIANGLES' is supported.)\n"]
  else []

/-- The finding of the material check of `VerifyPrimitive`, taken alone: a warning. -/
def materialFindings (mesh : Mesh) (primitive : Primitive) : List String :=
  if primitive.material ≠ -1 then
    ["WARNING: [" ++ mesh.name ++ "] Primitive found with material "
      ++ "specified. Materials will be ignored because they are not supported.\n"]
  else []

/-- The findings of the checks of one attribute, each taken alone: the attribute is missing,
or its accessor has the wrong type, the wrong component type, or both. -/
def attributeFindings (model : Model) (primitive : Primitive) (attributeName : String)
    (requiredType requiredComponentType : Int) (meshName attributeDescription : String) :
    List String :=
  match mapFind primitive.attributes attributeName with
  | none =>
    ["ERROR: [" ++ meshName ++ "] Primitive found without " ++ attributeDescription
      ++ " data!\n"]
  | some index =>
    match vecAt model.accessors index with
    | none => []
    | some accessor =>
      (if accessor.type ≠ requiredType then
        ["ERROR: [" ++ meshName ++ "] Primitive found with " ++ attributeDescription
          ++ " type of '" ++ GLTFTypeName accessor.type ++ "' instead of '"
          ++ GLTFTypeName requiredType ++ "'!\n"]
      else []) ++
      (if accessor.componentType ≠ requiredComponentType then
        ["ERROR: [" ++ meshName ++ "] Primitive found with "
          ++ attributeDescription ++ " component type of '"
          ++ GLTFComponentTypeName accessor.componentType ++ "' instead of '"
          ++ GLTFComponentTypeName requiredComponentType ++ "'!\n"]
      else [])

/-- The finding of the check "indices need to be present" of `VerifyPrimitive`, taken
alone. -/
def indicesFindings (mesh : Mesh) (primitive : Primitive) : List String :=
  if primitive.indices = -1 then
    ["Error: [" ++ mesh.name ++ "] Primitive found with no indices!\n"]
  else []

/-- The findings of all checks of one primitive, in the order of the checks. -/
def primitiveFindings (model : Model) (mesh : Mesh) (primitive : Primitive) : List String :=
  modeFindings mesh primitive ++ materialFindings mesh primitive
    ++ attributeFindings model primitive "POSITION"
      TINYGLTF_TYPE_VEC3 TINYGLTF_COMPONENT_TYPE_FLOAT mesh.name "vertex position"
    ++ attributeFindings model primitive "NORMAL"
      TINYGLTF_TYPE_VEC3 TINYGLTF_COMPONENT_TYPE_FLOAT mesh.name "vertex normal"
    ++ attributeFindings model primitive "COLOR_0"
      TINYGLTF_TYPE_VEC4 TINYGLTF_COMPONENT_TYPE_UNSIGNED_SHORT mesh.name "vertex color"
    ++ indicesFindings mesh primitive

/-- The findings of the primitives of a list, concatenated in the order of the list. -/
def findingsOf (model : Model) (primitives : List (Mesh × Primitive)) : List String :=
  primitives.flatMap (fun mp => primitiveFindings model mp.1 mp.2)

/-- The findings of all checks of all primitives of all meshes of the asset. -/
def assetFindings (model : Model) : List String :=
  findingsOf model (allPrimitives model.meshes)

/-- The attributes `POSITION`, `NORMAL` and `COLOR_0` of the primitive, where present, name
accessors of the model. -/
def accessorsInRange (model : Model) (primitive : Primitive) : Prop :=
  ∀ attributeName ∈ ["POSITION", "NORMAL", "COLOR_0"],
    ∀ index ∈ mapFind primitive.attributes attributeName,
      (vecAt model.accessors index).isSome = true

instance (model : Model) (primitive : Primitive) :
    Decidable (accessorsInRange model primitive) := by
  unfold accessorsInRange
  infer_instance

/-- An asset with two primitives that both fail: the first has no `NORMAL` attribute and a
material, the second has no indices and the mode `LINE` (named `LINES` in the reports). -/
def twoFailuresModel : Model :=
  { exampleModel with
    meshes := [⟨"first", [⟨[("COLOR_0", 2), ("POSITION", 0)], 0, 3, TINYGLTF_MODE_TRIANGLES⟩]⟩,
               ⟨"second", [⟨[("COLOR_0", 6), ("NORMAL", 5), ("POSITION", 4)], -1, -1,
                  TINYGLTF_MODE_LINE⟩]⟩] }

/-! ## The nearest-hit scan of the sampling loop -/

section ScanDefs

variable {K : Type} [LinearOrderedField K]

/-- The four variables `hasHit`, `closestDistance`, `closestHit` and `closestIndices` of the
nearest-hit scan. -/
structure ScanState (K : Type) where
  hasHit : Bool
  closestDistance : K
  closestHit : IntersectionResult K
  closestIndices : UVec3

/-- The values of the four variables before the loop: `hasHit = false`,
`closestDistance = 0.0`, and the value-initialised `closestHit{}` and `closestIndices{}`. -/
def ScanState.initial : ScanState K :=
  ⟨false, 0, ⟨false, zero, zero, zero⟩, ⟨0, 0, 0⟩⟩

/-- The call of `RayTriangleIntersection` in the loop body: the three corners are
`registry.Positions[indices.x]`, `[indices.y]` and `[indices.z]`, here read from the list
`positions` of the vertex positions; an index outside the array is undefined behaviour in the
source and `none` here. -/
def triangleResult (sqrt : K → K) (ray : Ray K) (positions : List (DVec3 K))
    (indices : UVec3) : Option (IntersectionResult K) := do
  let a ← positions[indices.x]?
  let b ← positions[indices.y]?
  let c ← positions[indices.z]?
  pure (RayTriangleIntersection sqrt ray a b c)

/-- The body of the loop `for (glm::uvec3& indices : registry.Triangles)`. -/
def scanStep (sqrt : K → K) (camOrigin : DVec3 K) (ray : Ray K) (positions : List (DVec3 K))
    (state : ScanState K) (indices : UVec3) : Option (ScanState K) := do
  let result ← triangleResult sqrt ray positions indices
  if result.IsHit then
    if state.hasHit = false ∨ distExp result.Position camOrigin < state.closestDistance then
      pure ⟨true, distExp result.Position camOrigin, result, indices⟩
    else pure state
  else pure state

/-- The loop `for (glm::uvec3& indices : registry.Triangles)` from the state `state`. -/
def nearestHitScan (sqrt : K → K) (camOrigin : DVec3 K) (ray : Ray K)
    (positions : List (DVec3 K)) : List UVec3 → ScanState K → Option (ScanState K)
  | [], state => some state
  | indices :: rest, state => do
    let next ← scanStep sqrt camOrigin ray positions state indices
    nearestHitScan sqrt camOrigin ray positions rest next

/-- Every index of every triangle of the list is an index of the array of positions. -/
def trianglesInRange (positions : List (DVec3 K)) (triangles : List UVec3) : Prop :=
  ∀ indices ∈ triangles, indices.x < positions.length ∧ indices.y < positions.length ∧
    indices.z < positions.length

/-- The state holds the hit of triangle `i` of the list, and that hit is the first one in the
order of the list whose squared distance from `camOrigin` is minimal among the triangles of
the list that are hit. -/
def isFirstNearest (sqrt : K → K) (camOrigin : DVec3 K) (ray : Ray K)
    (positions : List (DVec3 K)) (triangles : List UVec3) (i : Nat) (state : ScanState K) :
    Prop :=
  ∃ indices result, triangles[i]? = some indices ∧
    triangleResult sqrt ray positions indices = some result ∧ result.IsHit = true ∧
    state.closestHit = result ∧ state.closestIndices = indices ∧
    state.closestDistance = distExp result.Position camOrigin ∧
    ∀ j indicesJ resultJ, triangles[j]? = some indicesJ →
      triangleResult sqrt ray positions indicesJ = some resultJ → resultJ.IsHit = true →
      state.closestDistance ≤ distExp resultJ.Position camOrigin ∧
      (j < i → state.closestDistance < distExp resultJ.Position camOrigin)

end ScanDefs

/-! ## Images -/

section ImageDefs

variable {K : Type} [LinearOrderedField K]

/-- The function `std::clamp(v, lo, hi)`. -/
def clamp (v lo hi : K) : K := if v < lo then lo else if hi < v then hi else v

variable [FloorRing K]

/-- The conversion `static_cast<int>` of a floating-point value: truncation toward zero. -/
def truncate (v : K) : Int := if 0 ≤ v then ⌊v⌋ else ⌈v⌉

/-- The channel value `static_cast<int>(256 * std::clamp(c, 0.0f, 0.999f))` of
`PPMImage::WriteImage`, in exact arithmetic. -/
def ppmChannel (c : K) : Int := truncate (256 * clamp c 0 (999 / 1000))

/-- The channel value `static_cast<uint8_t>(std::clamp(c, 0.0f, 0.999f) * 255.0f)` of
`PNGImage::SetPixel`, in exact arithmetic. -/
def pngChannel (c : K) : Byte := Fin.ofNat ((truncate (clamp c 0 (999 / 1000) * 255)).toNat)

/-- The class `PPMImage`; `m_Buffer` is the array of `glm::vec3` behind the pointer, with the
colour components in `K`. -/
structure PPMImage (K : Type) where
  m_Buffer : List (DVec3 K)
  Width : Int
  Height : Int

/-- The state that the constructor `PPMImage(width, height)` establishes: an array of
`width * height` colours, a size that fits the `int32_t` in which it is computed. -/
def PPMImage.allocated (img : PPMImage K) : Prop :=
  0 ≤ img.Width ∧ 0 ≤ img.Height ∧ img.Width * img.Height < 2 ^ 31 ∧
    img.m_Buffer.length = (img.Width * img.Height).toNat

/-- The method `PPMImage::GetPixel`; `none` when the read leaves the array. -/
def PPMImage.GetPixel (img : PPMImage K) (x y : Int) : Option (DVec3 K) :=
  if 0 ≤ x ∧ x < img.Width ∧ 0 ≤ y ∧ y < img.Height then
    vecAt img.m_Buffer (x + y * img.Width)
  else some zero

/-- The method `PPMImage::SetPixel`; `none` when the write leaves the array. -/
def PPMImage.SetPixel (img : PPMImage K) (x y : Int) (color : DVec3 K) :
    Option (PPMImage K) :=
  if 0 ≤ x ∧ x < img.Width ∧ 0 ≤ y ∧ y < img.Height then
    if 0 ≤ x + y * img.Width ∧ (x + y * img.Width).toNat < img.m_Buffer.length then
      some { img with m_Buffer := img.m_Buffer.set (x + y * img.Width).toNat color }
    else none
  else some img

/-- The text that the body of the inner loop of `PPMImage::WriteImage` writes for the colour
`color`: the three channel values, separated by a space and ended by a newline. -/
def PPMImage.pixelText (color : DVec3 K) : String :=
  toString (ppmChannel color.x) ++ " " ++ toString (ppmChannel color.y) ++ " "
    ++ toString (ppmChannel color.z) ++ "\n"

/-- The inner loop `for (int32_t x = Width - 1; x >= 0; x--)` of `PPMImage::WriteImage` in
row `y`, from the column `x` on: the text it writes, or `none` when a read leaves the
array. -/
def PPMImage.writeRow (img : PPMImage K) (y : Int) (x : Int) : Option String :=
  if 0 ≤ x then do
    let color ← vecAt img.m_Buffer (x + y * img.Width)
    let rest ← img.writeRow y (x - 1)
    pure (PPMImage.pixelText color ++ rest)
  else some ""
termination_by (x + 1).toNat
decreasing_by omega

/-- The outer loop `for (int32_t y = 0; y < Height; y++)` of `PPMImage::WriteImage`, from the
row `y` on. -/
def PPMImage.writeRows (img : PPMImage K) (y : Int) : Option String :=
  if y < img.Height then do
    let row ← img.writeRow y (img.Width - 1)
    let rest ← img.writeRows (y + 1)
    pure (row ++ rest)
  else some ""
termination_by (img.Height - y).toNat
decreasing_by omega

/-- The method `PPMImage::WriteImage`: the text written to the file, which is empty when the
file could not be opened (`isOpen = false`); `none` when a read leaves the array. -/
def PPMImage.WriteImage (img : PPMImage K) (isOpen : Bool) : Option String :=
  if isOpen then do
    let body ← img.writeRows 0
    pure ("P3\n" ++ toString img.Width ++ " " ++ toString img.Height ++ "\n255\n" ++ body)
  else some ""

/-- The class `PNGImage`; `m_Buffer` is the array of `uint8_t` behind the pointer. -/
structure PNGImage where
  m_Buffer : List Byte
  Width : Int
  Height : Int

/-- The state that the constructor `PNGImage(width, height)` establishes: an array of
`width * height * 3` bytes, a size that fits the `int32_t` in which it is computed. -/
def PNGImage.allocated (img : PNGImage) : Prop :=
  0 ≤ img.Width ∧ 0 ≤ img.Height ∧ img.Width * img.Height * 3 < 2 ^ 31 ∧
    img.m_Buffer.length = (img.Width * img.Height * 3).toNat

/-- The assignment `m_Buffer[i] = value`; `none` when `i` is outside the array. -/
def writeByte (buffer : List Byte) (i : Int) (value : Byte) : Option (List Byte) :=
  if 0 ≤ i ∧ i.toNat < buffer.length then some (buffer.set i.toNat value) else none

/-- The method `PNGImage::SetPixel`; `none` when a write leaves the array. -/
def PNGImage.SetPixel (img : PNGImage) (x y : Int) (color : DVec3 K) : Option PNGImage :=
  if 0 ≤ x ∧ x < img.Width ∧ 0 ≤ y ∧ y < img.Height then do
    let i := (x + y * img.Width) * 3
    let b0 ← writeByte img.m_Buffer i (pngChannel color.x)
    let b1 ← writeByte b0 (i + 1) (pngChannel color.y)
    let b2 ← writeByte b1 (i + 2) (pngChannel color.z)
    pure { img with m_Buffer := b2 }
  else some img

/-- The method `PNGImage::GetPixel`; `none` when a read leaves the array. -/
def PNGImage.GetPixel (img : PNGImage) (x y : Int) : Option (DVec3 K) :=
  if 0 ≤ x ∧ x < img.Width ∧ 0 ≤ y ∧ y < img.Height then do
    let i := (x + y * img.Width) * 3
    let r ← vecAt img.m_Buffer i
    let g ← vecAt img.m_Buffer (i + 1)
    let b ← vecAt img.m_Buffer (i + 2)
    pure ⟨(r.val : K) / 255, (g.val : K) / 255, (b.val : K) / 255⟩
  else some zero

end ImageDefs

/-! ### Specification-side definitions for the image writers -/

section ImageSpec

variable {K : Type} [LinearOrderedField K] [FloorRing K]

/-- The concatenation of a list of texts. -/
def concatText : List String → String
  | [] => ""
  | text :: rest => text ++ concatText rest

/-- The colour stored for the pixel `(x, y)`: element `x + y * Width` of the array (the zero
colour outside the array). -/
def PPMImage.pixel (img : PPMImage K) (x y : Int) : DVec3 K :=
  (vecAt img.m_Buffer (x + y * img.Width)).getD zero

/-- The pixels of a `width x height` picture in the order stated for the text writer: the
rows from `y = 0` to `height - 1`, and within each row the columns from `x = width - 1` down
to `x = 0`. -/
def pixelOrder (width height : Int) : List (Int × Int) :=
  (List.range height.toNat).flatMap
    (fun (y : Nat) => (List.range width.toNat).reverse.map
      (fun (x : Nat) => ((x : Int), (y : Int))))

/-- The header of the text raster: the lines `P3`, `<width> <height>` and `255`. -/
def ppmHeaderLines (width height : Int) : List String :=
  ["P3", toString width ++ " " ++ toString height, "255"]

/-- The line of one pixel: its three channel values separated by single spaces. -/
def pixelLine (color : DVec3 K) : String :=
  toString (ppmChannel color.x) ++ " " ++ toString (ppmChannel color.y) ++ " "
    ++ toString (ppmChannel color.z)

/-- The lines of a list of characters: the runs of characters that a newline ends, and the
run after the last newline when it is not empty; `current` holds the characters of the line
being read, last character first. -/
def linesAux : List Char → List Char → List String
  | [], current => if current = [] then [] else [String.mk current.reverse]
  | c :: rest, current =>
    if c = '\n' then String.mk current.reverse :: linesAux rest []
    else linesAux rest (c :: current)

/-- The lines of a text. -/
def linesOf (text : String) : List String := linesAux text.data []

/-- The picture of width `2` and height `1` with a red left and a blue right pixel. -/
def redBlueImage : PPMImage ℚ := ⟨[⟨1, 0, 0⟩, ⟨0, 0, 1⟩], 2, 1⟩

/-- A binary picture of width `2` and height `1` whose six bytes are `0`. -/
def blankPNG : PNGImage := ⟨List.replicate 6 0, 2, 1⟩

end ImageSpec

/-! ## The function `RayEquation` -/

section RayEquationDefs

variable {K : Type} [LinearOrderedField K]

/-- The function `RayEquation`.  The source takes the parameter `t` and does not use it: the
body is `return ray.Origin + ray.Direction;`. -/
def RayEquation (ray : Ray K) (_t : K) : DVec3 K :=
  ray.Origin + ray.Direction

/-- The point of the ray at the parameter `t`: `Origin + t * Direction`. -/
def rayPoint (ray : Ray K) (t : K) : DVec3 K :=
  ray.Origin + t * ray.Direction

end RayEquationDefs

/-! ## Theorems: geometry kernel -/


section KernelLemmas

variable {K : Type} [LinearOrderedField K]

@[simp]
theorem DVec3.add_x (a b : DVec3 K) : (a + b).x = a.x + b.x := rfl
@[simp]
theorem DVec3.add_y (a b : DVec3 K) : (a + b).y = a.y + b.y := rfl
@[simp]
theorem DVec3.add_z (a b : DVec3 K) : (a + b).z = a.z + b.z := rfl
@[simp]
theorem DVec3.sub_x (a b : DVec3 K) : (a - b).x = a.x - b.x := rfl
@[simp]
theorem DVec3.sub_y (a b : DVec3 K) : (a - b).y = a.y - b.y := rfl
@[simp]
theorem DVec3.sub_z (a b : DVec3 K) : (a - b).z = a.z - b.z := rfl
@[simp]
theorem DVec3.scale_x (a : DVec3 K) (k : K) : (a * k).x = a.x * k := rfl
@[simp]
theorem DVec3.scale_y (a : DVec3 K) (k : K) : (a * k).y = a.y * k := rfl
@[simp]
theorem DVec3.scale_z (a : DVec3 K) (k : K) : (a * k).z = a.z * k := rfl


theorem EPSILON_pos : (0 : K) < EPSILON := by
  unfold EPSILON; positivity

theorem mtA_ne_zero_of_accept {ray : Ray K} {A B C : DVec3 K}
    (h : ¬ (mtA ray A B C > -EPSILON ∧ mtA ray A B C < EPSILON)) : mtA ray A B C ≠ 0 := by
  intro h0
  apply h
  rw [h0]
  have := EPSILON_pos (K := K)
  constructor <;> linarith

/-- The determinant `a` is minus the component of the direction along the plane normal
`cross (B - A) (C - A)`. -/
theorem mtA_eq_neg_dot (ray : Ray K) (A B C : DVec3 K) :
    mtA ray A B C = - dot ray.Direction (cross (B - A) (C - A)) := by
  simp only [mtA, dot, cross, DVec3.sub_x, DVec3.sub_y, DVec3.sub_z]
  ring

theorem dot_self_pos_of_mtA_ne_zero {ray : Ray K} {A B C : DVec3 K}
    (h : mtA ray A B C ≠ 0) :
    0 < dot (cross (B - A) (C - A)) (cross (B - A) (C - A)) := by
  rw [mtA_eq_neg_dot] at h
  set N := cross (B - A) (C - A) with hN
  have hnn : 0 ≤ dot N N := by
    simp only [dot]; nlinarith [mul_self_nonneg N.x, mul_self_nonneg N.y, mul_self_nonneg N.z]
  rcases hnn.lt_or_eq with hlt | heq
  · exact hlt
  · exfalso
    apply h
    simp only [dot] at heq
    have hx : N.x = 0 := by nlinarith [mul_self_nonneg N.x, mul_self_nonneg N.y, mul_self_nonneg N.z]
    have hy : N.y = 0 := by nlinarith [mul_self_nonneg N.x, mul_self_nonneg N.y, mul_self_nonneg N.z]
    have hz : N.z = 0 := by nlinarith [mul_self_nonneg N.x, mul_self_nonneg N.y, mul_self_nonneg N.z]
    simp [dot, hx, hy, hz]

/-- Cramer's rule: when `a` is non-zero, the point of the ray at parameter `t` is the point
`A + edge1 * u + edge2 * v` of the triangle's plane. -/
theorem mt_point (ray : Ray K) (A B C : DVec3 K) (h : mtA ray A B C ≠ 0) :
    ray.Origin + ray.Direction * mtT ray A B C
      = A + (B - A) * mtU ray A B C + (C - A) * mtV ray A B C := by
  have h' := h
  simp only [mtA, dot, cross, DVec3.sub_x, DVec3.sub_y, DVec3.sub_z] at h'
  ext <;>
  · simp only [mtT, mtU, mtV, mtA, dot, cross, DVec3.sub_x, DVec3.sub_y, DVec3.sub_z,
      DVec3.add_x, DVec3.add_y, DVec3.add_z, DVec3.scale_x, DVec3.scale_y, DVec3.scale_z]
    field_simp
    ring

theorem dot_scale (X N : DVec3 K) (k : K) : dot X (N * k) = dot X N * k := by
  simp only [dot, DVec3.scale_x, DVec3.scale_y, DVec3.scale_z]; ring

/-- The area-projection weights of a point given in the affine frame of the triangle. -/
theorem weights_of_affine (sqrt : K → K) (A B C Q : DVec3 K) (u v : K)
    (hQ : Q = A + (B - A) * u + (C - A) * v)
    (hN : dot (cross (B - A) (C - A)) (cross (B - A) (C - A)) ≠ 0)
    (hs : sqrt (dot (cross (B - A) (C - A)) (cross (B - A) (C - A))) ≠ 0) :
    dot (cross (C - B) (Q - B)) (normalize sqrt (cross (B - A) (C - A)))
        / dot (cross (B - A) (C - A)) (normalize sqrt (cross (B - A) (C - A))) = 1 - u - v ∧
    dot (cross (A - C) (Q - C)) (normalize sqrt (cross (B - A) (C - A)))
        / dot (cross (B - A) (C - A)) (normalize sqrt (cross (B - A) (C - A))) = u ∧
    dot (cross (B - A) (Q - A)) (normalize sqrt (cross (B - A) (C - A)))
        / dot (cross (B - A) (C - A)) (normalize sqrt (cross (B - A) (C - A))) = v := by
  have hk : (1 / sqrt (dot (cross (B - A) (C - A)) (cross (B - A) (C - A)))) ≠ 0 :=
    one_div_ne_zero hs
  have e1 : dot (cross (C - B) (Q - B)) (cross (B - A) (C - A))
      = (1 - u - v) * dot (cross (B - A) (C - A)) (cross (B - A) (C - A)) := by
    subst hQ
    simp only [dot, cross, DVec3.sub_x, DVec3.sub_y, DVec3.sub_z,
      DVec3.add_x, DVec3.add_y, DVec3.add_z, DVec3.scale_x, DVec3.scale_y, DVec3.scale_z]
    ring
  have e2 : dot (cross (A - C) (Q - C)) (cross (B - A) (C - A))
      = u * dot (cross (B - A) (C - A)) (cross (B - A) (C - A)) := by
    subst hQ
    simp only [dot, cross, DVec3.sub_x, DVec3.sub_y, DVec3.sub_z,
      DVec3.add_x, DVec3.add_y, DVec3.add_z, DVec3.scale_x, DVec3.scale_y, DVec3.scale_z]
    ring
  have e3 : dot (cross (B - A) (Q - A)) (cross (B - A) (C - A))
      = v * dot (cross (B - A) (C - A)) (cross (B - A) (C - A)) := by
    subst hQ
    simp only [dot, cross, DVec3.sub_x, DVec3.sub_y, DVec3.sub_z,
      DVec3.add_x, DVec3.add_y, DVec3.add_z, DVec3.scale_x, DVec3.scale_y, DVec3.scale_z]
    ring
  unfold DVec3.normalize
  simp only [dot_scale, e1, e2, e3]
  refine ⟨?_, ?_, ?_⟩ <;> field_simp

theorem RTI_of_accept (sqrt : K → K) (hs : ∀ x : K, 0 < x → sqrt x ≠ 0)
    (ray : Ray K) (A B C : DVec3 K) (h : mtAccept ray A B C) :
    RayTriangleIntersection sqrt ray A B C =
      ⟨true, normalize sqrt (cross (B - A) (C - A)),
        ray.Origin + ray.Direction * mtT ray A B C,
        ⟨1 - mtU ray A B C - mtV ray A B C, mtU ray A B C, mtV ray A B C⟩⟩ := by
  obtain ⟨h1, h2, h3, h4⟩ := h
  have ha := mtA_ne_zero_of_accept h1
  have hN := dot_self_pos_of_mtA_ne_zero ha
  have hw := weights_of_affine sqrt A B C _ _ _ (mt_point ray A B C ha) hN.ne' (hs _ hN)
  simp only [mtA, mtU, mtV, mtT] at h1 h2 h3 h4 hw
  simp only [RayTriangleIntersection, if_neg h1, if_neg h2, if_neg h3, if_pos h4, mtT, mtU, mtV, mtA]
  rw [hw.1, hw.2.1, hw.2.2]

theorem RTI_of_not_accept (sqrt : K → K)
    (ray : Ray K) (A B C : DVec3 K) (h : ¬ mtAccept ray A B C) :
    RayTriangleIntersection sqrt ray A B C =
      ⟨false, normalize sqrt (cross (B - A) (C - A)), zero, zero⟩ := by
  simp only [mtAccept, mtA, mtU, mtV, mtT] at h
  simp only [RayTriangleIntersection]
  split_ifs with h1 h2 h3 h4
  · rfl
  · rfl
  · rfl
  · exact absurd ⟨h1, h2, h3, h4⟩ h
  · rfl

theorem RTI_isHit_iff (sqrt : K → K) (hs : ∀ x : K, 0 < x → sqrt x ≠ 0)
    (ray : Ray K) (A B C : DVec3 K) :
    (RayTriangleIntersection sqrt ray A B C).IsHit = true ↔ mtAccept ray A B C := by
  constructor
  · intro h
    by_contra hc
    rw [RTI_of_not_accept sqrt ray A B C hc] at h
    simp at h
  · intro h
    rw [RTI_of_accept sqrt hs ray A B C h]


theorem mtA_swap (ray : Ray K) (A B C : DVec3 K) : mtA ray B A C = - mtA ray A B C := by
  simp only [mtA, dot, cross, DVec3.sub_x, DVec3.sub_y, DVec3.sub_z]
  ring

theorem mtA_rot (ray : Ray K) (A B C : DVec3 K) : mtA ray B C A = mtA ray A B C := by
  simp only [mtA, dot, cross, DVec3.sub_x, DVec3.sub_y, DVec3.sub_z]
  ring

theorem mt_swap (ray : Ray K) (A B C : DVec3 K) (h : mtA ray A B C ≠ 0) :
    mtU ray B A C = 1 - mtU ray A B C - mtV ray A B C ∧
    mtV ray B A C = mtV ray A B C ∧
    mtT ray B A C = mtT ray A B C := by
  have h2 : mtA ray B A C ≠ 0 := by rw [mtA_swap]; exact neg_ne_zero.2 h
  simp only [mtA, dot, cross, DVec3.sub_x, DVec3.sub_y, DVec3.sub_z] at h h2
  refine ⟨?_, ?_, ?_⟩ <;>
  · simp only [mtT, mtU, mtV, mtA, dot, cross, DVec3.sub_x, DVec3.sub_y, DVec3.sub_z]
    field_simp
    ring

theorem mt_rot (ray : Ray K) (A B C : DVec3 K) (h : mtA ray A B C ≠ 0) :
    mtU ray B C A = mtV ray A B C ∧
    mtV ray B C A = 1 - mtU ray A B C - mtV ray A B C ∧
    mtT ray B C A = mtT ray A B C := by
  have h2 : mtA ray B C A ≠ 0 := by rw [mtA_rot]; exact h
  simp only [mtA, dot, cross, DVec3.sub_x, DVec3.sub_y, DVec3.sub_z] at h h2
  refine ⟨?_, ?_, ?_⟩ <;>
  · simp only [mtT, mtU, mtV, mtA, dot, cross, DVec3.sub_x, DVec3.sub_y, DVec3.sub_z]
    field_simp
    ring

theorem mtAccept_swap (ray : Ray K) (A B C : DVec3 K) :
    mtAccept ray B A C ↔ mtAccept ray A B C := by
  by_cases ha : mtA ray A B C = 0
  · have ha2 : mtA ray B A C = 0 := by rw [mtA_swap, ha, neg_zero]
    have e := EPSILON_pos (K := K)
    constructor <;> rintro ⟨h1, -⟩ <;> exfalso <;> apply h1
    · rw [ha2]; constructor <;> linarith
    · rw [ha]; constructor <;> linarith
  · obtain ⟨hu, hv, ht⟩ := mt_swap ray A B C ha
    simp only [mtAccept, hu, hv, ht, mtA_swap ray A B C, not_and_or, not_or, not_lt, gt_iff_lt]
    constructor
    · rintro ⟨h1, ⟨h2, h3⟩, ⟨h4, h5⟩, h6⟩
      refine ⟨?_, ⟨by linarith, by linarith⟩, ⟨by linarith, by linarith⟩, h6⟩
      rcases h1 with h1 | h1
      · right; linarith
      · left; linarith
    · rintro ⟨h1, ⟨h2, h3⟩, ⟨h4, h5⟩, h6⟩
      refine ⟨?_, ⟨by linarith, by linarith⟩, ⟨by linarith, by linarith⟩, h6⟩
      rcases h1 with h1 | h1
      · right; linarith
      · left; linarith

theorem mtAccept_rot (ray : Ray K) (A B C : DVec3 K) :
    mtAccept ray B C A ↔ mtAccept ray A B C := by
  by_cases ha : mtA ray A B C = 0
  · have ha2 : mtA ray B C A = 0 := by rw [mtA_rot, ha]
    have e := EPSILON_pos (K := K)
    constructor <;> rintro ⟨h1, -⟩ <;> exfalso <;> apply h1
    · rw [ha2]; constructor <;> linarith
    · rw [ha]; constructor <;> linarith
  · obtain ⟨hu, hv, ht⟩ := mt_rot ray A B C ha
    simp only [mtAccept, hu, hv, ht, mtA_rot ray A B C, not_and_or, not_or, not_lt, gt_iff_lt]
    constructor
    · rintro ⟨h1, ⟨h2, h3⟩, ⟨h4, h5⟩, h6⟩
      exact ⟨h1, ⟨by linarith, by linarith⟩, ⟨by linarith, by linarith⟩, h6⟩
    · rintro ⟨h1, ⟨h2, h3⟩, ⟨h4, h5⟩, h6⟩
      exact ⟨h1, ⟨by linarith, by linarith⟩, ⟨by linarith, by linarith⟩, h6⟩

/-- Exchanging the first two vertices. -/
theorem RTI_swap (sqrt : K → K) (hs : ∀ x : K, 0 < x → sqrt x ≠ 0)
    (ray : Ray K) (A B C : DVec3 K) :
    (RayTriangleIntersection sqrt ray B A C).IsHit
        = (RayTriangleIntersection sqrt ray A B C).IsHit ∧
    (RayTriangleIntersection sqrt ray B A C).Position
        = (RayTriangleIntersection sqrt ray A B C).Position ∧
    (RayTriangleIntersection sqrt ray B A C).Barycentric
        = ⟨(RayTriangleIntersection sqrt ray A B C).Barycentric.y,
           (RayTriangleIntersection sqrt ray A B C).Barycentric.x,
           (RayTriangleIntersection sqrt ray A B C).Barycentric.z⟩ := by
  by_cases h : mtAccept ray A B C
  · have h2 := (mtAccept_swap ray A B C).2 h
    obtain ⟨hu, hv, ht⟩ := mt_swap ray A B C (mtA_ne_zero_of_accept h.1)
    rw [RTI_of_accept sqrt hs ray A B C h, RTI_of_accept sqrt hs ray B A C h2]
    simp only [hu, hv, ht, true_and]
    congr 1
    ring
  · have h2 := fun hc => h ((mtAccept_swap ray A B C).1 hc)
    rw [RTI_of_not_accept sqrt ray A B C h, RTI_of_not_accept sqrt ray B A C h2]
    simp [zero]

/-- Rotating the vertices. -/
theorem RTI_rot (sqrt : K → K) (hs : ∀ x : K, 0 < x → sqrt x ≠ 0)
    (ray : Ray K) (A B C : DVec3 K) :
    (RayTriangleIntersection sqrt ray B C A).IsHit
        = (RayTriangleIntersection sqrt ray A B C).IsHit ∧
    (RayTriangleIntersection sqrt ray B C A).Position
        = (RayTriangleIntersection sqrt ray A B C).Position ∧
    (RayTriangleIntersection sqrt ray B C A).Barycentric
        = ⟨(RayTriangleIntersection sqrt ray A B C).Barycentric.y,
           (RayTriangleIntersection sqrt ray A B C).Barycentric.z,
           (RayTriangleIntersection sqrt ray A B C).Barycentric.x⟩ := by
  by_cases h : mtAccept ray A B C
  · have h2 := (mtAccept_rot ray A B C).2 h
    obtain ⟨hu, hv, ht⟩ := mt_rot ray A B C (mtA_ne_zero_of_accept h.1)
    rw [RTI_of_accept sqrt hs ray A B C h, RTI_of_accept sqrt hs ray B C A h2]
    simp only [hu, hv, ht, true_and]
    congr 1
    ring
  · have h2 := fun hc => h ((mtAccept_rot ray A B C).1 hc)
    rw [RTI_of_not_accept sqrt ray A B C h, RTI_of_not_accept sqrt ray B C A h2]
    simp [zero]


end KernelLemmas

theorem sqrt_ne_zero_of_pos : ∀ x : ℝ, 0 < x → Real.sqrt x ≠ 0 :=
  fun _ hx => (Real.sqrt_pos.2 hx).ne'

theorem unit_triangle_hit :
    RayTriangleIntersection Real.sqrt ⟨⟨1 / 4, 1 / 4, 1⟩, ⟨0, 0, -1⟩⟩
        ⟨0, 0, 0⟩ ⟨1, 0, 0⟩ ⟨0, 1, 0⟩
      = ⟨true, ⟨0, 0, 1⟩, ⟨1 / 4, 1 / 4, 0⟩, ⟨1 / 2, 1 / 4, 1 / 4⟩⟩ := by
  have hacc : mtAccept (⟨⟨1 / 4, 1 / 4, 1⟩, ⟨0, 0, -1⟩⟩ : Ray ℝ)
      ⟨0, 0, 0⟩ ⟨1, 0, 0⟩ ⟨0, 1, 0⟩ := by
    simp only [mtAccept, mtA, mtU, mtV, mtT, dot, cross, EPSILON, DVec3.sub_x, DVec3.sub_y,
      DVec3.sub_z]
    norm_num
  rw [RTI_of_accept Real.sqrt sqrt_ne_zero_of_pos _ _ _ _ hacc]
  simp only [mtA, mtU, mtV, mtT, dot, cross, DVec3.normalize, DVec3.sub_x, DVec3.sub_y,
    DVec3.sub_z]
  have e : ∀ (a b : DVec3 ℝ), a + b = ⟨a.x + b.x, a.y + b.y, a.z + b.z⟩ := fun _ _ => rfl
  have e2 : ∀ (a : DVec3 ℝ) (k : ℝ), a * k = ⟨a.x * k, a.y * k, a.z * k⟩ := fun _ _ => rfl
  simp only [e, e2]
  norm_num

/-- C1: on every hit, over the reals, the returned `Position` is the combination
`A * Barycentric.x + B * Barycentric.y + C * Barycentric.z`: the three weights belong to
`A`, `B`, `C` in that order. -/
theorem RayTriangleIntersection_position_weighted (ray : Ray ℝ) (A B C : DVec3 ℝ)
    (h : (RayTriangleIntersection Real.sqrt ray A B C).IsHit = true) :
    (RayTriangleIntersection Real.sqrt ray A B C).Position
      = A * (RayTriangleIntersection Real.sqrt ray A B C).Barycentric.x
        + B * (RayTriangleIntersection Real.sqrt ray A B C).Barycentric.y
        + C * (RayTriangleIntersection Real.sqrt ray A B C).Barycentric.z := by
  have hacc := (RTI_isHit_iff Real.sqrt sqrt_ne_zero_of_pos ray A B C).1 h
  rw [RTI_of_accept Real.sqrt sqrt_ne_zero_of_pos ray A B C hacc]
  simp only
  rw [mt_point ray A B C (mtA_ne_zero_of_accept hacc.1)]
  ext <;>
  · simp only [DVec3.sub_x, DVec3.sub_y, DVec3.sub_z, DVec3.add_x, DVec3.add_y, DVec3.add_z,
      DVec3.scale_x, DVec3.scale_y, DVec3.scale_z]
    ring

/-- Witness for C1: the unit triangle `A=(0,0,0)`, `B=(1,0,0)`, `C=(0,1,0)` and the ray from
`(1/4,1/4,1)` along `(0,0,-1)`: a hit at `(1/4,1/4,0)` with weights `(1/2,1/4,1/4)`. -/
theorem RayTriangleIntersection_position_weighted_witness :
    (RayTriangleIntersection Real.sqrt ⟨⟨1 / 4, 1 / 4, 1⟩, ⟨0, 0, -1⟩⟩
        ⟨0, 0, 0⟩ ⟨1, 0, 0⟩ ⟨0, 1, 0⟩).IsHit = true ∧
    (RayTriangleIntersection Real.sqrt ⟨⟨1 / 4, 1 / 4, 1⟩, ⟨0, 0, -1⟩⟩
        ⟨0, 0, 0⟩ ⟨1, 0, 0⟩ ⟨0, 1, 0⟩).Position = ⟨1 / 4, 1 / 4, 0⟩ ∧
    (RayTriangleIntersection Real.sqrt ⟨⟨1 / 4, 1 / 4, 1⟩, ⟨0, 0, -1⟩⟩
        ⟨0, 0, 0⟩ ⟨1, 0, 0⟩ ⟨0, 1, 0⟩).Barycentric = ⟨1 / 2, 1 / 4, 1 / 4⟩ ∧
    (RayTriangleIntersection Real.sqrt ⟨⟨1 / 4, 1 / 4, 1⟩, ⟨0, 0, -1⟩⟩
        ⟨0, 0, 0⟩ ⟨1, 0, 0⟩ ⟨0, 1, 0⟩).Position
      = (⟨0, 0, 0⟩ : DVec3 ℝ) * (RayTriangleIntersection Real.sqrt
            ⟨⟨1 / 4, 1 / 4, 1⟩, ⟨0, 0, -1⟩⟩ ⟨0, 0, 0⟩ ⟨1, 0, 0⟩ ⟨0, 1, 0⟩).Barycentric.x
        + (⟨1, 0, 0⟩ : DVec3 ℝ) * (RayTriangleIntersection Real.sqrt
            ⟨⟨1 / 4, 1 / 4, 1⟩, ⟨0, 0, -1⟩⟩ ⟨0, 0, 0⟩ ⟨1, 0, 0⟩ ⟨0, 1, 0⟩).Barycentric.y
        + (⟨0, 1, 0⟩ : DVec3 ℝ) * (RayTriangleIntersection Real.sqrt
            ⟨⟨1 / 4, 1 / 4, 1⟩, ⟨0, 0, -1⟩⟩ ⟨0, 0, 0⟩ ⟨1, 0, 0⟩ ⟨0, 1, 0⟩).Barycentric.z :=
  ⟨by rw [unit_triangle_hit], by rw [unit_triangle_hit], by rw [unit_triangle_hit],
    RayTriangleIntersection_position_weighted _ _ _ _ (by rw [unit_triangle_hit])⟩

/-- C2: on every hit, over the reals, the three components of `Barycentric` sum to exactly
`1`, and the denominator `dot(baca, normal)` is non-zero. -/
theorem RayTriangleIntersection_weights_sum (ray : Ray ℝ) (A B C : DVec3 ℝ)
    (h : (RayTriangleIntersection Real.sqrt ray A B C).IsHit = true) :
    (RayTriangleIntersection Real.sqrt ray A B C).Barycentric.x
      + (RayTriangleIntersection Real.sqrt ray A B C).Barycentric.y
      + (RayTriangleIntersection Real.sqrt ray A B C).Barycentric.z = 1 ∧
    dot (cross (B - A) (C - A)) (normalize Real.sqrt (cross (B - A) (C - A))) ≠ 0 := by
  have hacc := (RTI_isHit_iff Real.sqrt sqrt_ne_zero_of_pos ray A B C).1 h
  have hN := dot_self_pos_of_mtA_ne_zero (mtA_ne_zero_of_accept hacc.1)
  constructor
  · rw [RTI_of_accept Real.sqrt sqrt_ne_zero_of_pos ray A B C hacc]
    simp only
    ring
  · unfold DVec3.normalize
    rw [dot_scale]
    exact mul_ne_zero hN.ne' (one_div_ne_zero (sqrt_ne_zero_of_pos _ hN))

/-- Witness for C2: the hit of the unit triangle by the ray from `(1/4,1/4,1)` along
`(0,0,-1)`. -/
theorem RayTriangleIntersection_weights_sum_witness :
    (RayTriangleIntersection Real.sqrt ⟨⟨1 / 4, 1 / 4, 1⟩, ⟨0, 0, -1⟩⟩
        ⟨0, 0, 0⟩ ⟨1, 0, 0⟩ ⟨0, 1, 0⟩).IsHit = true ∧
    (RayTriangleIntersection Real.sqrt ⟨⟨1 / 4, 1 / 4, 1⟩, ⟨0, 0, -1⟩⟩
        ⟨0, 0, 0⟩ ⟨1, 0, 0⟩ ⟨0, 1, 0⟩).Barycentric.x
      + (RayTriangleIntersection Real.sqrt ⟨⟨1 / 4, 1 / 4, 1⟩, ⟨0, 0, -1⟩⟩
        ⟨0, 0, 0⟩ ⟨1, 0, 0⟩ ⟨0, 1, 0⟩).Barycentric.y
      + (RayTriangleIntersection Real.sqrt ⟨⟨1 / 4, 1 / 4, 1⟩, ⟨0, 0, -1⟩⟩
        ⟨0, 0, 0⟩ ⟨1, 0, 0⟩ ⟨0, 1, 0⟩).Barycentric.z = 1 :=
  ⟨by rw [unit_triangle_hit],
    (RayTriangleIntersection_weights_sum _ _ _ _ (by rw [unit_triangle_hit])).1⟩

/-- C3: on every hit, over the reals, there is a ray parameter `t > 1e-7` with
`Position = Origin + Direction * t`, and `Position` lies in the plane of the triangle. -/
theorem RayTriangleIntersection_hit_in_front (ray : Ray ℝ) (A B C : DVec3 ℝ)
    (h : (RayTriangleIntersection Real.sqrt ray A B C).IsHit = true) :
    ∃ t : ℝ, t > 1 / 10000000 ∧
      (RayTriangleIntersection Real.sqrt ray A B C).Position
        = ray.Origin + ray.Direction * t ∧
      dot ((RayTriangleIntersection Real.sqrt ray A B C).Position - A)
        (cross (B - A) (C - A)) = 0 := by
  have hacc := (RTI_isHit_iff Real.sqrt sqrt_ne_zero_of_pos ray A B C).1 h
  refine ⟨mtT ray A B C, hacc.2.2.2, ?_, ?_⟩
  · rw [RTI_of_accept Real.sqrt sqrt_ne_zero_of_pos ray A B C hacc]
  · rw [RTI_of_accept Real.sqrt sqrt_ne_zero_of_pos ray A B C hacc]
    simp only
    rw [mt_point ray A B C (mtA_ne_zero_of_accept hacc.1)]
    simp only [dot, cross, DVec3.sub_x, DVec3.sub_y, DVec3.sub_z, DVec3.add_x, DVec3.add_y,
      DVec3.add_z, DVec3.scale_x, DVec3.scale_y, DVec3.scale_z]
    ring

/-- Witness for C3: the hit of the unit triangle by the ray from `(1/4,1/4,1)` along
`(0,0,-1)`. -/
theorem RayTriangleIntersection_hit_in_front_witness :
    (RayTriangleIntersection Real.sqrt ⟨⟨1 / 4, 1 / 4, 1⟩, ⟨0, 0, -1⟩⟩
        ⟨0, 0, 0⟩ ⟨1, 0, 0⟩ ⟨0, 1, 0⟩).IsHit = true ∧
    ∃ t : ℝ, t > 1 / 10000000 ∧
      (RayTriangleIntersection Real.sqrt ⟨⟨1 / 4, 1 / 4, 1⟩, ⟨0, 0, -1⟩⟩
          ⟨0, 0, 0⟩ ⟨1, 0, 0⟩ ⟨0, 1, 0⟩).Position
        = (⟨1 / 4, 1 / 4, 1⟩ : DVec3 ℝ) + (⟨0, 0, -1⟩ : DVec3 ℝ) * t ∧
      dot ((RayTriangleIntersection Real.sqrt ⟨⟨1 / 4, 1 / 4, 1⟩, ⟨0, 0, -1⟩⟩
          ⟨0, 0, 0⟩ ⟨1, 0, 0⟩ ⟨0, 1, 0⟩).Position - ⟨0, 0, 0⟩)
        (cross ((⟨1, 0, 0⟩ : DVec3 ℝ) - ⟨0, 0, 0⟩) (⟨0, 1, 0⟩ - ⟨0, 0, 0⟩)) = 0 :=
  ⟨by rw [unit_triangle_hit],
    RayTriangleIntersection_hit_in_front _ _ _ _ (by rw [unit_triangle_hit])⟩

theorem RTI_orders (ray : Ray ℝ) (T : Fin 3 → DVec3 ℝ) (i j k : Fin 3)
    (hij : i ≠ j) (hik : i ≠ k) (hjk : j ≠ k) :
    (RayTriangleIntersection Real.sqrt ray (T i) (T j) (T k)).IsHit
        = (RayTriangleIntersection Real.sqrt ray (T 0) (T 1) (T 2)).IsHit ∧
    (RayTriangleIntersection Real.sqrt ray (T i) (T j) (T k)).Position
        = (RayTriangleIntersection Real.sqrt ray (T 0) (T 1) (T 2)).Position ∧
    (RayTriangleIntersection Real.sqrt ray (T i) (T j) (T k)).Barycentric
        = ⟨(RayTriangleIntersection Real.sqrt ray (T 0) (T 1) (T 2)).Barycentric.get i,
           (RayTriangleIntersection Real.sqrt ray (T 0) (T 1) (T 2)).Barycentric.get j,
           (RayTriangleIntersection Real.sqrt ray (T 0) (T 1) (T 2)).Barycentric.get k⟩ := by
  have hs := sqrt_ne_zero_of_pos
  have s1 := RTI_swap Real.sqrt hs ray (T 0) (T 1) (T 2)
  have r1 := RTI_rot Real.sqrt hs ray (T 0) (T 1) (T 2)
  have r2 := RTI_rot Real.sqrt hs ray (T 1) (T 2) (T 0)
  have s2 := RTI_swap Real.sqrt hs ray (T 2) (T 0) (T 1)
  have s3 := RTI_swap Real.sqrt hs ray (T 1) (T 2) (T 0)
  have c : ∀ i : Fin 3, i = 0 ∨ i = 1 ∨ i = 2 := by decide
  rcases c i with rfl | rfl | rfl <;> rcases c j with rfl | rfl | rfl <;>
    rcases c k with rfl | rfl | rfl <;>
    first
    | exact absurd rfl hij
    | exact absurd rfl hik
    | exact absurd rfl hjk
    | exact ⟨rfl, rfl, rfl⟩
    | exact s1
    | exact r1
    | exact ⟨r2.1.trans r1.1, r2.2.1.trans r1.2.1, by rw [r2.2.2, r1.2.2]; rfl⟩
    | exact ⟨s2.1.trans (r2.1.trans r1.1), s2.2.1.trans (r2.2.1.trans r1.2.1),
        by rw [s2.2.2, r2.2.2, r1.2.2]; rfl⟩
    | exact ⟨s3.1.trans r1.1, s3.2.1.trans r1.2.1, by rw [s3.2.2, r1.2.2]; rfl⟩

/-- C4: for every permutation `p` of the three vertices, over the reals,
`RayTriangleIntersection` on the permuted vertices returns the same `IsHit` and the same
`Position`, and its `Barycentric` components are those of the original call permuted in the
same way (component `i` is the weight of vertex `p i`); so a hit stays a hit when the
winding is reversed. -/
theorem RayTriangleIntersection_permutation (ray : Ray ℝ) (T : Fin 3 → DVec3 ℝ)
    (p : Equiv.Perm (Fin 3)) :
    (RayTriangleIntersection Real.sqrt ray (T (p 0)) (T (p 1)) (T (p 2))).IsHit
        = (RayTriangleIntersection Real.sqrt ray (T 0) (T 1) (T 2)).IsHit ∧
    (RayTriangleIntersection Real.sqrt ray (T (p 0)) (T (p 1)) (T (p 2))).Position
        = (RayTriangleIntersection Real.sqrt ray (T 0) (T 1) (T 2)).Position ∧
    ∀ i : Fin 3,
      (RayTriangleIntersection Real.sqrt ray (T (p 0)) (T (p 1)) (T (p 2))).Barycentric.get i
        = (RayTriangleIntersection Real.sqrt ray (T 0) (T 1) (T 2)).Barycentric.get (p i) := by
  have h := RTI_orders ray T (p 0) (p 1) (p 2)
    (fun e => absurd (p.injective e) (by decide))
    (fun e => absurd (p.injective e) (by decide))
    (fun e => absurd (p.injective e) (by decide))
  refine ⟨h.1, h.2.1, ?_⟩
  intro i
  rw [h.2.2]
  have c : ∀ i : Fin 3, i = 0 ∨ i = 1 ∨ i = 2 := by decide
  rcases c i with rfl | rfl | rfl <;> rfl


/-- C5: `RayPlaneIntersection` reports `hit = false` and returns `0` when `dot(n, Direction)`
is zero; otherwise it reports `hit = true` and returns `t = (d - n.O) / (n.D)`, and the point
`Origin + Direction * t` lies on the plane `dot(n, point) = d`. -/
theorem RayPlaneIntersection_spec {K : Type} [LinearOrderedField K]
    (ray : Ray K) (n : DVec3 K) (d : K) :
    (dot n ray.Direction = 0 → RayPlaneIntersection ray n d = (0, false)) ∧
    (dot n ray.Direction ≠ 0 →
      RayPlaneIntersection ray n d
          = ((d - dot n ray.Origin) / dot n ray.Direction, true) ∧
        dot n (ray.Origin + ray.Direction * (RayPlaneIntersection ray n d).1) = d) := by
  constructor
  · intro h
    simp [RayPlaneIntersection, h]
  · intro h
    have hres : RayPlaneIntersection ray n d
        = ((d - dot n ray.Origin) / dot n ray.Direction, true) := by
      simp [RayPlaneIntersection, h]
    refine ⟨hres, ?_⟩
    rw [hres]
    simp only [dot, DVec3.add_x, DVec3.add_y, DVec3.add_z, DVec3.scale_x, DVec3.scale_y,
      DVec3.scale_z] at h ⊢
    field_simp
    ring

/-- Witness for C5 on the rationals: a ray parallel to the plane `z = 5`, and a ray hitting
it at `t = 2`. -/
theorem RayPlaneIntersection_spec_witness :
    RayPlaneIntersection (⟨⟨0, 0, 1⟩, ⟨1, 0, 0⟩⟩ : Ray ℚ) ⟨0, 0, 1⟩ 5 = (0, false) ∧
    RayPlaneIntersection (⟨⟨0, 0, 1⟩, ⟨0, 0, 2⟩⟩ : Ray ℚ) ⟨0, 0, 1⟩ 5 = ((5 - 1) / 2, true) := by
  refine ⟨(RayPlaneIntersection_spec (⟨⟨0, 0, 1⟩, ⟨1, 0, 0⟩⟩ : Ray ℚ) ⟨0, 0, 1⟩ 5).1
      (by norm_num [dot]), ?_⟩
  have h := ((RayPlaneIntersection_spec (⟨⟨0, 0, 1⟩, ⟨0, 0, 2⟩⟩ : Ray ℚ) ⟨0, 0, 1⟩ 5).2
      (by norm_num [dot])).1
  rw [h]
  norm_num [dot]

/-! ## Theorems: asset validation and `LoadModel` -/

theorem VerifyPrimitiveAttribute_true_iff (model : Model) (primitive : Primitive)
    (attributeName : String) (requiredType requiredComponentType : Int)
    (meshName attributeDescription : String) :
    (∃ out, VerifyPrimitiveAttribute model primitive attributeName requiredType
        requiredComponentType meshName attributeDescription = some (true, out)) ↔
      attributeOk model primitive attributeName requiredType requiredComponentType := by
  unfold VerifyPrimitiveAttribute attributeOk
  cases hfind : mapFind primitive.attributes attributeName with
  | none => simp
  | some index =>
    cases hacc : vecAt model.accessors index with
    | none => simp [hacc]
    | some accessor =>
      by_cases h1 : accessor.type = requiredType <;>
        by_cases h2 : accessor.componentType = requiredComponentType <;>
        simp [hacc, h1, h2]

theorem VerifyPrimitiveAttribute_isSome (model : Model) (primitive : Primitive)
    (attributeName : String) (requiredType requiredComponentType : Int)
    (meshName attributeDescription : String)
    (h : ∀ index, mapFind primitive.attributes attributeName = some index →
      (vecAt model.accessors index).isSome = true) :
    ∃ r, VerifyPrimitiveAttribute model primitive attributeName requiredType
        requiredComponentType meshName attributeDescription = some r := by
  unfold VerifyPrimitiveAttribute
  cases hfind : mapFind primitive.attributes attributeName with
  | none => simp
  | some index =>
    have := h index hfind
    cases hacc : vecAt model.accessors index with
    | none => simp [hacc] at this
    | some accessor => simp [hacc]

theorem VerifyPrimitive_eq (model : Model) (mesh : Mesh) (primitive : Primitive) (b : Bool) (out : List String)
   (h : VerifyPrimitive model mesh primitive = some (b, out)) :
   ∃ p n c, VerifyPrimitiveAttribute model primitive "POSITION"
        TINYGLTF_TYPE_VEC3 TINYGLTF_COMPONENT_TYPE_FLOAT mesh.name "vertex position" = some p ∧
      VerifyPrimitiveAttribute model primitive "NORMAL"
        TINYGLTF_TYPE_VEC3 TINYGLTF_COMPONENT_TYPE_FLOAT mesh.name "vertex normal" = some n ∧
      VerifyPrimitiveAttribute model primitive "COLOR_0"
        TINYGLTF_TYPE_VEC4 TINYGLTF_COMPONENT_TYPE_UNSIGNED_SHORT mesh.name "vertex color" = some c ∧
      b = (decide (primitive.mode = TINYGLTF_MODE_TRIANGLES) && p.1 && n.1 && c.1 && decide (primitive.indices ≠ -1)) := by
  unfold VerifyPrimitive at h
  simp only [Option.bind_eq_bind, Option.pure_def, Option.bind_eq_some] at h
  obtain ⟨p, hp, n, hn, c, hc, h⟩ := h
  refine ⟨p, n, c, hp, hn, hc, ?_⟩
  simp only [Option.some.injEq] at h
  by_cases hm : primitive.mode = TINYGLTF_MODE_TRIANGLES <;>
    by_cases hmat : primitive.material = -1 <;>
    by_cases hi : primitive.indices = -1 <;>
    simp [hm, hmat, hi] at h ⊢ <;> simp [← h.1]

theorem VerifyPrimitive_of (model : Model) (mesh : Mesh) (primitive : Primitive)
    (p n c : Bool × List String)
    (hp : VerifyPrimitiveAttribute model primitive "POSITION"
        TINYGLTF_TYPE_VEC3 TINYGLTF_COMPONENT_TYPE_FLOAT mesh.name "vertex position" = some p)
    (hn : VerifyPrimitiveAttribute model primitive "NORMAL"
        TINYGLTF_TYPE_VEC3 TINYGLTF_COMPONENT_TYPE_FLOAT mesh.name "vertex normal" = some n)
    (hc : VerifyPrimitiveAttribute model primitive "COLOR_0"
        TINYGLTF_TYPE_VEC4 TINYGLTF_COMPONENT_TYPE_UNSIGNED_SHORT mesh.name "vertex color"
          = some c) :
    ∃ out, VerifyPrimitive model mesh primitive
      = some (decide (primitive.mode = TINYGLTF_MODE_TRIANGLES) && p.1 && n.1 && c.1
          && decide (primitive.indices ≠ -1), out) := by
  unfold VerifyPrimitive
  simp only [Option.bind_eq_bind, Option.pure_def, hp, hn, hc, Option.some_bind]
  by_cases hm : primitive.mode = TINYGLTF_MODE_TRIANGLES <;>
    by_cases hmat : primitive.material = -1 <;>
    by_cases hi : primitive.indices = -1 <;>
    simp [hm, hmat, hi]

theorem VerifyPrimitiveAttribute_material (model : Model) (primitive : Primitive)
    (material : Int) (attributeName : String) (requiredType requiredComponentType : Int)
    (meshName attributeDescription : String) :
    VerifyPrimitiveAttribute model { primitive with material := material } attributeName
        requiredType requiredComponentType meshName attributeDescription
      = VerifyPrimitiveAttribute model primitive attributeName
        requiredType requiredComponentType meshName attributeDescription := rfl

/-- C6: `VerifyPrimitive` returns `true` exactly when the mode is `TRIANGLES`, the
attributes `POSITION` and `NORMAL` have `VEC3`/`FLOAT` accessors, `COLOR_0` has a
`VEC4`/`UNSIGNED_SHORT` accessor and `indices` is not `-1`; the returned flag does not depend
on the `material` field; and the function returns whenever the attributes name accessors of
the model. -/
theorem VerifyPrimitive_true_iff (model : Model) (mesh : Mesh) (primitive : Primitive) :
    ((∃ out, VerifyPrimitive model mesh primitive = some (true, out)) ↔
      primitive.mode = TINYGLTF_MODE_TRIANGLES ∧
      attributeOk model primitive "POSITION" TINYGLTF_TYPE_VEC3 TINYGLTF_COMPONENT_TYPE_FLOAT ∧
      attributeOk model primitive "NORMAL" TINYGLTF_TYPE_VEC3 TINYGLTF_COMPONENT_TYPE_FLOAT ∧
      attributeOk model primitive "COLOR_0" TINYGLTF_TYPE_VEC4
        TINYGLTF_COMPONENT_TYPE_UNSIGNED_SHORT ∧
      primitive.indices ≠ -1) ∧
    (∀ material : Int,
      (VerifyPrimitive model mesh { primitive with material := material }).map Prod.fst
        = (VerifyPrimitive model mesh primitive).map Prod.fst) ∧
    ((∀ name index, mapFind primitive.attributes name = some index →
        (vecAt model.accessors index).isSome = true) →
      ∃ b out, VerifyPrimitive model mesh primitive = some (b, out)) := by
  refine ⟨⟨?_, ?_⟩, ?_, ?_⟩
  · rintro ⟨out, h⟩
    obtain ⟨p, n, c, hp, hn, hc, hb⟩ := VerifyPrimitive_eq model mesh primitive true out h
    have hb' := hb.symm
    simp only [Bool.and_eq_true, decide_eq_true_eq] at hb'
    obtain ⟨⟨⟨⟨hm, h1⟩, h2⟩, h3⟩, hi⟩ := hb'
    refine ⟨hm, ?_, ?_, ?_, hi⟩
    · exact (VerifyPrimitiveAttribute_true_iff _ _ _ _ _ _ _).1 ⟨p.2, by rw [hp, ← h1]⟩
    · exact (VerifyPrimitiveAttribute_true_iff _ _ _ _ _ _ _).1 ⟨n.2, by rw [hn, ← h2]⟩
    · exact (VerifyPrimitiveAttribute_true_iff _ _ _ _ _ _ _).1 ⟨c.2, by rw [hc, ← h3]⟩
  · rintro ⟨hm, h1, h2, h3, hi⟩
    obtain ⟨o1, hp⟩ := (VerifyPrimitiveAttribute_true_iff model primitive "POSITION"
      TINYGLTF_TYPE_VEC3 TINYGLTF_COMPONENT_TYPE_FLOAT mesh.name "vertex position").2 h1
    obtain ⟨o2, hn⟩ := (VerifyPrimitiveAttribute_true_iff model primitive "NORMAL"
      TINYGLTF_TYPE_VEC3 TINYGLTF_COMPONENT_TYPE_FLOAT mesh.name "vertex normal").2 h2
    obtain ⟨o3, hc⟩ := (VerifyPrimitiveAttribute_true_iff model primitive "COLOR_0"
      TINYGLTF_TYPE_VEC4 TINYGLTF_COMPONENT_TYPE_UNSIGNED_SHORT mesh.name "vertex color").2 h3
    obtain ⟨out, h⟩ := VerifyPrimitive_of model mesh primitive _ _ _ hp hn hc
    refine ⟨out, ?_⟩
    rw [h]
    simp [hm, hi]
  · intro material
    cases hp : VerifyPrimitiveAttribute model primitive "POSITION"
        TINYGLTF_TYPE_VEC3 TINYGLTF_COMPONENT_TYPE_FLOAT mesh.name "vertex position" with
    | none => simp [VerifyPrimitive, VerifyPrimitiveAttribute_material, hp]
    | some p =>
      cases hn : VerifyPrimitiveAttribute model primitive "NORMAL"
          TINYGLTF_TYPE_VEC3 TINYGLTF_COMPONENT_TYPE_FLOAT mesh.name "vertex normal" with
      | none => simp [VerifyPrimitive, VerifyPrimitiveAttribute_material, hp, hn]
      | some n =>
        cases hc : VerifyPrimitiveAttribute model primitive "COLOR_0"
            TINYGLTF_TYPE_VEC4 TINYGLTF_COMPONENT_TYPE_UNSIGNED_SHORT mesh.name
            "vertex color" with
        | none => simp [VerifyPrimitive, VerifyPrimitiveAttribute_material, hp, hn, hc]
        | some c =>
          obtain ⟨o1, e1⟩ := VerifyPrimitive_of model mesh primitive p n c hp hn hc
          obtain ⟨o2, e2⟩ := VerifyPrimitive_of model mesh { primitive with material := material }
            p n c (by rw [VerifyPrimitiveAttribute_material]; exact hp)
            (by rw [VerifyPrimitiveAttribute_material]; exact hn)
            (by rw [VerifyPrimitiveAttribute_material]; exact hc)
          rw [e1, e2]
          rfl
  · intro h
    obtain ⟨p, hp⟩ := VerifyPrimitiveAttribute_isSome model primitive "POSITION"
      TINYGLTF_TYPE_VEC3 TINYGLTF_COMPONENT_TYPE_FLOAT mesh.name "vertex position" (h _)
    obtain ⟨n, hn⟩ := VerifyPrimitiveAttribute_isSome model primitive "NORMAL"
      TINYGLTF_TYPE_VEC3 TINYGLTF_COMPONENT_TYPE_FLOAT mesh.name "vertex normal" (h _)
    obtain ⟨c, hc⟩ := VerifyPrimitiveAttribute_isSome model primitive "COLOR_0"
      TINYGLTF_TYPE_VEC4 TINYGLTF_COMPONENT_TYPE_UNSIGNED_SHORT mesh.name "vertex color" (h _)
    obtain ⟨out, e⟩ := VerifyPrimitive_of model mesh primitive p n c hp hn hc
    exact ⟨_, out, e⟩

set_option maxRecDepth 100000 in
/-- Witness for C6: the first primitive of the example asset passes, with and without a
material, and the primitive without `NORMAL` fails. -/
theorem VerifyPrimitive_true_iff_witness :
    (∃ out, VerifyPrimitive exampleModel ⟨"mesh", []⟩ (examplePrimitive 0) = some (true, out)) ∧
    (VerifyPrimitive exampleModel ⟨"mesh", []⟩
        { examplePrimitive 0 with material := 7 }).map Prod.fst = some true ∧
    (VerifyPrimitive missingNormalModel ⟨"mesh", []⟩
        ⟨[("COLOR_0", 1), ("POSITION", 0)], -1, 2, TINYGLTF_MODE_TRIANGLES⟩).map Prod.fst
      = some false := by
  refine ⟨?_, ?_, by decide⟩
  · exact (VerifyPrimitive_true_iff exampleModel ⟨"mesh", []⟩ (examplePrimitive 0)).1.2
      ⟨rfl, ⟨0, ⟨0, 5126, 4, 3⟩, by decide, by decide, rfl, rfl⟩,
        ⟨1, ⟨1, 5126, 4, 3⟩, by decide, by decide, rfl, rfl⟩,
        ⟨2, ⟨2, 5123, 4, 4⟩, by decide, by decide, rfl, rfl⟩, by decide⟩
  · rw [(VerifyPrimitive_true_iff exampleModel ⟨"mesh", []⟩ (examplePrimitive 0)).2.1 7]
    decide

/-- A primitive that passes has a `POSITION` accessor, which is the one that the loops reach
through `attributes["POSITION"]`. -/
theorem position_of_pass (model : Model) (mesh : Mesh) (primitive : Primitive)
    (h : (VerifyPrimitive model mesh primitive).map Prod.fst = some true) :
    ∃ accessor, vecAt model.accessors (mapIndex primitive.attributes "POSITION") = some accessor ∧
      positionCount model primitive = accessor.count := by
  rw [Option.map_eq_some'] at h
  obtain ⟨⟨b, out⟩, h, hb⟩ := h
  simp only at hb
  subst hb
  obtain ⟨p, n, c, hp, hn, hc, hb⟩ := VerifyPrimitive_eq model mesh primitive true out h
  have hb' := hb.symm
  simp only [Bool.and_eq_true, decide_eq_true_eq] at hb'
  obtain ⟨⟨⟨⟨hm, h1⟩, h2⟩, h3⟩, hi⟩ := hb'
  obtain ⟨index, accessor, hf, ha, -, -⟩ :=
    (VerifyPrimitiveAttribute_true_iff _ _ _ _ _ _ _).1 ⟨p.2, by rw [hp, ← h1]⟩
  refine ⟨accessor, ?_, ?_⟩
  · simp [mapIndex, hf, ha]
  · simp [positionCount, hf, ha]

theorem verifyLoop_of_allPass (model : Model) (primitives : List (Mesh × Primitive))
    (h : allPass model primitives) (vertexCount : Nat) (hlt : vertexCount < 2 ^ 64)
    (out : List String) :
    ∃ out', verifyLoop model primitives (true, vertexCount, out)
      = some (true, (vertexCount + totalPositionCount model primitives) % 2 ^ 64, out') := by
  induction primitives generalizing vertexCount out with
  | nil =>
    refine ⟨out, ?_⟩
    simp only [verifyLoop, totalPositionCount, List.map_nil, List.sum_nil, Nat.add_zero]
    rw [Nat.mod_eq_of_lt hlt]
  | cons mp rest ih =>
    obtain ⟨mesh, primitive⟩ := mp
    have hmp := h (mesh, primitive) (List.mem_cons_self _ _)
    obtain ⟨accessor, hacc, hcount⟩ := position_of_pass model mesh primitive hmp
    rw [Option.map_eq_some'] at hmp
    obtain ⟨⟨b, o⟩, hv, hb⟩ := hmp
    simp only at hb
    subst hb
    obtain ⟨out', ih'⟩ := ih (fun mp hm => h mp (List.mem_cons_of_mem _ hm))
      ((vertexCount + accessor.count) % 2 ^ 64) (Nat.mod_lt _ (by decide)) (out ++ o)
    refine ⟨out', ?_⟩
    simp only [verifyLoop, hv, Option.bind_eq_bind, Option.some_bind, Bool.and_self, if_true,
      hacc, ih', totalPositionCount, List.map_cons, List.sum_cons, hcount]
    simp [totalPositionCount, Nat.add_assoc]

theorem verifyLoop_false (model : Model) (primitives : List (Mesh × Primitive))
    (vertexCount : Nat) (out : List String) (r : Bool × Nat × List String)
    (h : verifyLoop model primitives (false, vertexCount, out) = some r) : r.1 = false := by
  induction primitives generalizing out with
  | nil =>
    simp only [verifyLoop, Option.some.injEq] at h
    rw [← h]
  | cons mp rest ih =>
    obtain ⟨mesh, primitive⟩ := mp
    simp only [verifyLoop, Option.bind_eq_bind, Option.bind_eq_some, Bool.false_and] at h
    obtain ⟨v, -, h⟩ := h
    exact ih _ (by simpa using h)

theorem verifyLoop_of_fail (model : Model) (primitives : List (Mesh × Primitive))
    (hfail : ∃ mp ∈ primitives, (VerifyPrimitive model mp.1 mp.2).map Prod.fst = some false)
    (state : Bool × Nat × List String) (r : Bool × Nat × List String)
    (h : verifyLoop model primitives state = some r) : r.1 = false := by
  induction primitives generalizing state with
  | nil => simp at hfail
  | cons mp rest ih =>
    obtain ⟨mesh, primitive⟩ := mp
    obtain ⟨isValid, vertexCount, out⟩ := state
    simp only [verifyLoop, Option.bind_eq_bind, Option.bind_eq_some] at h
    obtain ⟨v, hv, h⟩ := h
    obtain ⟨mp, hmem, hf⟩ := hfail
    rcases List.mem_cons.1 hmem with rfl | hmem
    · simp only [hv, Option.map_some', Option.some.injEq] at hf
      simp only [hf, Bool.and_false, Bool.false_eq_true, if_false] at h
      exact verifyLoop_false model rest _ _ r h
    · split at h
      · simp only [Option.bind_eq_some] at h
        obtain ⟨a, -, h⟩ := h
        exact ih ⟨mp, hmem, hf⟩ _ h
      · exact ih ⟨mp, hmem, hf⟩ _ h

theorem verifyLoop_isSome (model : Model) (primitives : List (Mesh × Primitive))
    (hdef : ∀ mp ∈ primitives, (VerifyPrimitive model mp.1 mp.2).isSome = true)
    (state : Bool × Nat × List String) :
    ∃ r, verifyLoop model primitives state = some r := by
  induction primitives generalizing state with
  | nil => exact ⟨state, rfl⟩
  | cons mp rest ih =>
    obtain ⟨mesh, primitive⟩ := mp
    obtain ⟨isValid, vertexCount, out⟩ := state
    have hmp := hdef (mesh, primitive) (List.mem_cons_self _ _)
    rw [Option.isSome_iff_exists] at hmp
    obtain ⟨⟨b, o⟩, hv⟩ := hmp
    have ih' := fun st => ih (fun mp hm => hdef mp (List.mem_cons_of_mem _ hm)) st
    simp only [verifyLoop, Option.bind_eq_bind, hv, Option.some_bind]
    split
    · rename_i hc
      simp only [Bool.and_eq_true] at hc
      obtain ⟨accessor, hacc, -⟩ := position_of_pass model mesh primitive
        (by rw [hv]; simp [hc.2])
      simp only [hacc, Option.some_bind]
      exact ih' _
    · exact ih' _

theorem readU16_eq (data : List Byte) (off k x : Nat) (h : readU16 data off k = some x) :
    x = storedU16 data off k := by
  simp only [readU16, Option.bind_eq_bind, Option.pure_def, Option.bind_eq_some,
    Option.some.injEq] at h
  obtain ⟨lo, hlo, hi, hhi, rfl⟩ := h
  simp [storedU16, List.getD_eq_getElem?_getD, hlo, hhi]

theorem readU16_some (data : List Byte) (off k : Nat) (h : off + 2 * k + 1 < data.length) :
    readU16 data off k = some (storedU16 data off k) := by
  have h0 : off + 2 * k < data.length := by omega
  simp [readU16, storedU16, List.getD_eq_getElem?_getD, List.getElem?_eq_getElem h,
    List.getElem?_eq_getElem h0]

theorem storedU16_lt (data : List Byte) (off k : Nat) : storedU16 data off k < 65536 := by
  unfold storedU16
  have h1 := (data.getD (off + 2 * k) 0).isLt
  have h2 := (data.getD (off + 2 * k + 1) 0).isLt
  omega

theorem readTriangles_eq (data : List Byte) (off vertexOffset : Nat) (n i : Nat)
    (ts : List UVec3) (h : readTriangles data off vertexOffset i n = some ts) :
    ts = (List.range' i n).map (fun j => (triangleAt data off vertexOffset j).wrap) := by
  induction n generalizing i ts with
  | zero =>
    simp only [readTriangles, Option.some.injEq] at h
    simp [← h]
  | succ n ih =>
    simp only [readTriangles, Option.bind_eq_bind, Option.pure_def, Option.bind_eq_some,
      Option.some.injEq] at h
    obtain ⟨i0, h0, i1, h1, i2, h2, rest, hrest, rfl⟩ := h
    rw [ih (i + 1) rest hrest, readU16_eq _ _ _ _ h0, readU16_eq _ _ _ _ h1,
      readU16_eq _ _ _ _ h2]
    simp [List.range'_succ, triangleAt, UVec3.wrap]

theorem readTriangles_some (data : List Byte) (off vertexOffset : Nat) (n i : Nat)
    (h : off + 2 * (3 * (i + n)) ≤ data.length) :
    ∃ ts, readTriangles data off vertexOffset i n = some ts := by
  induction n generalizing i with
  | zero => exact ⟨[], rfl⟩
  | succ n ih =>
    obtain ⟨rest, hrest⟩ := ih (i + 1) (by omega)
    simp only [readTriangles, Option.bind_eq_bind, Option.pure_def]
    rw [readU16_some _ _ _ (by omega), readU16_some _ _ _ (by omega),
      readU16_some _ _ _ (by omega), hrest]
    simp

theorem convertColors_some (data : List Byte) (off : Nat) (n i : Nat)
    (h : off + 8 * (i + n) ≤ data.length) :
    ∃ cs, convertColors data off i n = some cs ∧ cs.length = n := by
  induction n generalizing i with
  | zero => exact ⟨[], rfl, rfl⟩
  | succ n ih =>
    obtain ⟨rest, hrest, hlen⟩ := ih (i + 1) (by omega)
    simp only [convertColors, Option.bind_eq_bind, Option.pure_def]
    rw [readU16_some _ _ _ (by omega), readU16_some _ _ _ (by omega),
      readU16_some _ _ _ (by omega), readU16_some _ _ _ (by omega), hrest]
    simp [hlen]

theorem wrap_triangleAt (data : List Byte) (off o i : Nat) :
    (triangleAt data off (o % 2 ^ 32) i).wrap = (triangleAt data off o i).wrap := by
  simp [triangleAt, UVec3.wrap, Nat.add_mod_mod]

theorem trianglesLoop_eq (model : Model) (primitives : List (Mesh × Primitive))
    (hpass : allPass model primitives) (o : Nat) (triangles r : List UVec3)
    (h : trianglesLoop model primitives (o % 2 ^ 32) triangles = some r) :
    r = triangles ++ (flattenedTriangles model primitives o).map UVec3.wrap := by
  induction primitives generalizing o triangles with
  | nil =>
    simp only [trianglesLoop, Option.some.injEq] at h
    simp [flattenedTriangles, ← h]
  | cons mp rest ih =>
    obtain ⟨mesh, primitive⟩ := mp
    have hmp := hpass (mesh, primitive) (List.mem_cons_self _ _)
    obtain ⟨pacc, hpacc, hcount⟩ := position_of_pass model mesh primitive hmp
    simp only [trianglesLoop, Option.bind_eq_bind, Option.bind_eq_some] at h
    obtain ⟨accessor, ha, bufferView, hv, buffer, hb, h⟩ := h
    split at h
    · simp only [Option.bind_eq_some] at h
      obtain ⟨added, hadded, position, hposition, h⟩ := h
      rw [hpacc] at hposition
      simp only [Option.some.injEq] at hposition
      subst hposition
      rw [← Nat.add_mod] at h
      have := ih (fun mp hm => hpass mp (List.mem_cons_of_mem _ hm)) _ _ h
      rw [this, readTriangles_eq _ _ _ _ _ _ hadded]
      have hview : viewOf model primitive.indices = some (accessor, bufferView, buffer) := by
        simp [viewOf, ha, hv, hb]
      simp only [flattenedTriangles, primitiveTriangles, hview, List.map_append, List.map_map,
        hcount, List.append_assoc, List.range_eq_range']
      congr 2
      apply List.map_congr_left
      intro i _
      exact wrap_triangleAt _ _ _ _
    · simp at h

theorem viewOf_eq_some (model : Model) (i : Int) (a : Accessor) (v : BufferView) (b : Buffer) :
    viewOf model i = some (a, v, b) ↔
      vecAt model.accessors i = some a ∧ vecAt model.bufferViews a.bufferView = some v ∧
        vecAt model.buffers v.buffer = some b := by
  simp only [viewOf, Option.bind_eq_bind, Option.pure_def, Option.bind_eq_some,
    Option.some.injEq, Prod.mk.injEq]
  constructor
  · rintro ⟨a', ha, v', hv, b', hb, rfl, rfl, rfl⟩
    exact ⟨ha, hv, hb⟩
  · rintro ⟨ha, hv, hb⟩
    exact ⟨a, ha, v, hv, b, hb, rfl, rfl, rfl⟩

theorem copyAttributeLoop_some (model : Model) (attributeName : String)
    (primitives : List (Mesh × Primitive))
    (h : ∀ mp ∈ primitives, ∃ a v b,
      viewOf model (mapIndex mp.2.attributes attributeName) = some (a, v, b) ∧
        v.byteOffset + v.byteLength ≤ b.data.length)
    (copied : List Byte) :
    ∃ bytes, copyAttributeLoop model attributeName primitives copied = some (copied ++ bytes) ∧
      bytes.length
        = (primitives.map
            (fun mp => viewLength model (mapIndex mp.2.attributes attributeName))).sum := by
  induction primitives generalizing copied with
  | nil => exact ⟨[], by simp [copyAttributeLoop], rfl⟩
  | cons mp rest ih =>
    obtain ⟨mesh, primitive⟩ := mp
    obtain ⟨a, v, b, hview, hbound⟩ := h (mesh, primitive) (List.mem_cons_self _ _)
    obtain ⟨ha, hv, hb⟩ := (viewOf_eq_some _ _ _ _ _).1 hview
    have hread : readBytes b.data v.byteOffset v.byteLength
        = some ((b.data.drop v.byteOffset).take v.byteLength) := by
      simp [readBytes, hbound]
    obtain ⟨bytes, hrest, hlen⟩ := ih (fun mp hm => h mp (List.mem_cons_of_mem _ hm))
      (copied ++ (b.data.drop v.byteOffset).take v.byteLength)
    refine ⟨(b.data.drop v.byteOffset).take v.byteLength ++ bytes, ?_, ?_⟩
    · simp only at ha
      simp only [copyAttributeLoop, Option.bind_eq_bind, ha, hv, hb, hread, Option.some_bind,
        hrest, List.append_assoc]
    · simp only [List.length_append, hlen, List.map_cons, List.sum_cons, viewLength, hview,
        List.length_take, List.length_drop]
      omega

theorem copyColorsLoop_some (model : Model) (primitives : List (Mesh × Primitive))
    (h : ∀ mp ∈ primitives, ∃ a v b,
      viewOf model (mapIndex mp.2.attributes "COLOR_0") = some (a, v, b) ∧
        v.byteOffset + 8 * a.count ≤ b.data.length ∧ 4 * a.count ≤ 2 ^ 31)
    (copied : List Vec4) :
    ∃ colors, copyColorsLoop model primitives copied = some (copied ++ colors) ∧
      colors.length
        = (primitives.map
            (fun mp => accessorCount model (mapIndex mp.2.attributes "COLOR_0"))).sum := by
  induction primitives generalizing copied with
  | nil => exact ⟨[], by simp [copyColorsLoop], rfl⟩
  | cons mp rest ih =>
    obtain ⟨mesh, primitive⟩ := mp
    obtain ⟨a, v, b, hview, hbound, hint⟩ := h (mesh, primitive) (List.mem_cons_self _ _)
    obtain ⟨ha, hv, hb⟩ := (viewOf_eq_some _ _ _ _ _).1 hview
    obtain ⟨cs, hcs, hcslen⟩ := convertColors_some b.data v.byteOffset a.count 0 (by omega)
    obtain ⟨colors, hrest, hlen⟩ := ih (fun mp hm => h mp (List.mem_cons_of_mem _ hm))
      (copied ++ cs)
    refine ⟨cs ++ colors, ?_, ?_⟩
    · simp only at ha
      simp only [copyColorsLoop, Option.bind_eq_bind, ha, hv, hb, Option.some_bind, hint,
        if_true, hcs, hrest, List.append_assoc]
    · simp only at ha
      simp only [List.length_append, hlen, hcslen, List.map_cons, List.sum_cons, accessorCount,
        ha]

theorem trianglesLoop_some (model : Model) (primitives : List (Mesh × Primitive))
    (hpass : allPass model primitives)
    (h : ∀ mp ∈ primitives, ∃ a v b, viewOf model mp.2.indices = some (a, v, b) ∧
      v.byteOffset + 2 * (3 * (a.count / 3)) ≤ b.data.length ∧ 3 * (a.count / 3) ≤ 2 ^ 31)
    (vertexOffset : Nat) (triangles : List UVec3) :
    ∃ r, trianglesLoop model primitives vertexOffset triangles = some r := by
  induction primitives generalizing vertexOffset triangles with
  | nil => exact ⟨triangles, rfl⟩
  | cons mp rest ih =>
    obtain ⟨mesh, primitive⟩ := mp
    obtain ⟨pacc, hpacc, -⟩ := position_of_pass model mesh primitive
      (hpass (mesh, primitive) (List.mem_cons_self _ _))
    obtain ⟨a, v, b, hview, hbound, hint⟩ := h (mesh, primitive) (List.mem_cons_self _ _)
    obtain ⟨ha, hv, hb⟩ := (viewOf_eq_some _ _ _ _ _).1 hview
    obtain ⟨added, hadded⟩ := readTriangles_some b.data v.byteOffset vertexOffset
      (a.count / 3) 0 (by omega)
    obtain ⟨r, hr⟩ := ih (fun mp hm => hpass mp (List.mem_cons_of_mem _ hm))
      (fun mp hm => h mp (List.mem_cons_of_mem _ hm))
      ((vertexOffset + pacc.count % 2 ^ 32) % 2 ^ 32) (triangles ++ added)
    refine ⟨r, ?_⟩
    simp only at ha
    simp only [trianglesLoop, Option.bind_eq_bind, ha, hv, hb, Option.some_bind, hint, if_true,
      hadded, hpacc, hr]

/-- What `LoadModel` returns for a loaded asset all of whose primitives pass. -/
theorem LoadModel_of_allPass (model : Model)
    (hpass : allPass model (allPrimitives model.meshes))
    (registry : TriangleRegistry) (out : List String)
    (h : LoadModel true model = some (registry, out)) :
    registry.VertexCount = totalPositionCount model (allPrimitives model.meshes) % 2 ^ 64 ∧
    registry.Triangles
      = (flattenedTriangles model (allPrimitives model.meshes) 0).map UVec3.wrap ∧
    copyAttributeLoop model "POSITION" (allPrimitives model.meshes) []
      = some registry.Positions ∧
    copyAttributeLoop model "NORMAL" (allPrimitives model.meshes) [] = some registry.Normals ∧
    copyColorsLoop model (allPrimitives model.meshes) [] = some registry.Colors := by
  obtain ⟨out', hv⟩ := verifyLoop_of_allPass model _ hpass 0 (by decide) []
  simp only [LoadModel, if_true, Option.bind_eq_bind, hv, Option.some_bind,
    Option.bind_eq_some] at h
  obtain ⟨positions, hp, normals, hn, colors, hc, h⟩ := h
  split at h
  · simp only [Option.bind_eq_some, Option.pure_def, Option.some.injEq, Prod.mk.injEq] at h
    obtain ⟨triangles, ht, rfl, -⟩ := h
    have ht' := trianglesLoop_eq model _ hpass 0 [] triangles (by simpa using ht)
    simp only [List.nil_append] at ht'
    exact ⟨by simp, ht', hp, hn, hc⟩
  · simp at h

theorem LoadModel_isSome (model : Model)
    (hpass : allPass model (allPrimitives model.meshes)) (hb : copiesInBounds model) :
    ∃ registry out, LoadModel true model = some (registry, out) := by
  obtain ⟨out', hv⟩ := verifyLoop_of_allPass model _ hpass 0 (by decide) []
  obtain ⟨hprim, hsize, hfit⟩ := hb
  obtain ⟨positions, hp, hplen⟩ := copyAttributeLoop_some model "POSITION" _
    (fun mp hm => (hprim mp hm).1) []
  obtain ⟨normals, hn, hnlen⟩ := copyAttributeLoop_some model "NORMAL" _
    (fun mp hm => (hprim mp hm).2.1) []
  obtain ⟨colors, hc, hclen⟩ := copyColorsLoop_some model _
    (fun mp hm => (hprim mp hm).2.2.1) []
  obtain ⟨triangles, ht⟩ := trianglesLoop_some model _ hpass
    (fun mp hm => (hprim mp hm).2.2.2) 0 []
  have hcap : allocatedFloats
        ((0 + totalPositionCount model (allPrimitives model.meshes)) % 2 ^ 64) * 4 < 2 ^ 64 ∧
      positions.length + normals.length + 16 * colors.length
        ≤ allocatedFloats
          ((0 + totalPositionCount model (allPrimitives model.meshes)) % 2 ^ 64) * 4 := by
    rw [hplen, hnlen, hclen, Nat.zero_add]
    exact ⟨hsize, hfit⟩
  refine ⟨⟨positions, normals, colors,
    (0 + totalPositionCount model (allPrimitives model.meshes)) % 2 ^ 64, triangles⟩,
    out', ?_⟩
  simp only [LoadModel, if_true, Option.bind_eq_bind, hv, Option.some_bind, hp, hn, hc,
    List.nil_append, hcap, ht, Option.pure_def]
  rfl

theorem mem_primitiveTriangles (model : Model) (primitive : Primitive) (o : Nat) (t : UVec3)
    (h : t ∈ primitiveTriangles model primitive o) :
    ∃ s ∈ primitiveTriangles model primitive 0,
      s.x < 65536 ∧ s.y < 65536 ∧ s.z < 65536 ∧
      t.x = s.x + o ∧ t.y = s.y + o ∧ t.z = s.z + o := by
  unfold primitiveTriangles at h ⊢
  cases hview : viewOf model primitive.indices with
  | none => simp [hview] at h
  | some avb =>
    obtain ⟨a, v, b⟩ := avb
    simp only [hview, List.mem_map, List.mem_range] at h ⊢
    obtain ⟨i, hi, rfl⟩ := h
    refine ⟨triangleAt b.data v.byteOffset 0 i, ⟨i, hi, rfl⟩, ?_⟩
    simp [triangleAt, storedU16_lt]

theorem flattenedTriangles_lt (model : Model) (primitives : List (Mesh × Primitive))
    (h : indicesInRange model primitives) (o : Nat) :
    ∀ t ∈ flattenedTriangles model primitives o,
      t.x < o + totalPositionCount model primitives ∧
      t.y < o + totalPositionCount model primitives ∧
      t.z < o + totalPositionCount model primitives := by
  induction primitives generalizing o with
  | nil => simp [flattenedTriangles]
  | cons mp rest ih =>
    obtain ⟨mesh, primitive⟩ := mp
    intro t ht
    simp only [flattenedTriangles, List.mem_append] at ht
    simp only [totalPositionCount, List.map_cons, List.sum_cons]
    rcases ht with ht | ht
    · obtain ⟨s, hs, -, -, -, hx, hy, hz⟩ := mem_primitiveTriangles model primitive o t ht
      have := h (mesh, primitive) (List.mem_cons_self _ _) s hs
      simp only at this
      omega
    · have := ih (fun mp hm => h mp (List.mem_cons_of_mem _ hm)) _ t ht
      simp only [totalPositionCount] at this
      omega

theorem flattenedTriangles_bound (model : Model) (primitives : List (Mesh × Primitive))
    (o : Nat) :
    ∀ t ∈ flattenedTriangles model primitives o,
      t.x < o + totalPositionCount model primitives + 65536 ∧
      t.y < o + totalPositionCount model primitives + 65536 ∧
      t.z < o + totalPositionCount model primitives + 65536 := by
  induction primitives generalizing o with
  | nil => simp [flattenedTriangles]
  | cons mp rest ih =>
    obtain ⟨mesh, primitive⟩ := mp
    intro t ht
    simp only [flattenedTriangles, List.mem_append] at ht
    simp only [totalPositionCount, List.map_cons, List.sum_cons]
    rcases ht with ht | ht
    · obtain ⟨s, -, h1, h2, h3, hx, hy, hz⟩ := mem_primitiveTriangles model primitive o t ht
      omega
    · have := ih _ t ht
      simp only [totalPositionCount] at this
      omega

theorem wrap_le (t : UVec3) : t.wrap.x ≤ t.x ∧ t.wrap.y ≤ t.y ∧ t.wrap.z ≤ t.z :=
  ⟨Nat.mod_le _ _, Nat.mod_le _ _, Nat.mod_le _ _⟩

theorem wrap_eq_self (t : UVec3) (hx : t.x < 2 ^ 32) (hy : t.y < 2 ^ 32) (hz : t.z < 2 ^ 32) :
    t.wrap = t := by
  cases t
  simp only [UVec3.wrap, UVec3.mk.injEq]
  exact ⟨Nat.mod_eq_of_lt hx, Nat.mod_eq_of_lt hy, Nat.mod_eq_of_lt hz⟩

set_option maxRecDepth 100000 in
theorem allPass_exampleModel : allPass exampleModel (allPrimitives exampleModel.meshes) := by
  unfold allPass
  decide

set_option maxRecDepth 100000 in
theorem copiesInBounds_exampleModel : copiesInBounds exampleModel := by
  have h0 : primitiveInBounds exampleModel (examplePrimitive 0) :=
    ⟨⟨⟨0, 5126, 4, 3⟩, ⟨0, 0, 48⟩, exampleBuffer, rfl,
        by decide⟩,
      ⟨⟨1, 5126, 4, 3⟩, ⟨0, 48, 48⟩, exampleBuffer, rfl,
        by decide⟩,
      ⟨⟨2, 5123, 4, 4⟩, ⟨0, 96, 32⟩, exampleBuffer, rfl,
        by decide, by decide⟩,
      ⟨⟨3, 5123, 3, 65⟩, ⟨0, 128, 6⟩, exampleBuffer, rfl,
        by decide, by decide⟩⟩
  have h4 : primitiveInBounds exampleModel (examplePrimitive 4) :=
    ⟨⟨⟨4, 5126, 3, 3⟩, ⟨0, 134, 36⟩, exampleBuffer, rfl,
        by decide⟩,
      ⟨⟨5, 5126, 3, 3⟩, ⟨0, 170, 36⟩, exampleBuffer, rfl,
        by decide⟩,
      ⟨⟨6, 5123, 3, 4⟩, ⟨0, 206, 24⟩, exampleBuffer, rfl,
        by decide, by decide⟩,
      ⟨⟨7, 5123, 3, 65⟩, ⟨0, 230, 6⟩, exampleBuffer, rfl,
        by decide, by decide⟩⟩
  refine ⟨?_, by decide⟩
  intro mp hmp
  have : mp = (⟨"mesh", [examplePrimitive 0, examplePrimitive 4]⟩, examplePrimitive 0) ∨
      mp = (⟨"mesh", [examplePrimitive 0, examplePrimitive 4]⟩, examplePrimitive 4) := by
    simpa [exampleModel, allPrimitives] using hmp
  rcases this with rfl | rfl
  · exact h0
  · exact h4

/-- C7 (amended): the registry returned by `LoadModel` is the empty registry
(`VertexCount = 0`, no triangles) when the file failed to load or when some primitive fails
`VerifyPrimitive`; when all primitives pass, its `VertexCount` is the sum of the `POSITION`
accessor counts of all primitives taken modulo `2 ^ 64`, which is the sum itself when the sum
is below `2 ^ 64`, and the registry is returned whenever the copies stay in bounds. -/
theorem LoadModel_vertexCount (res : Bool) (model : Model) :
    (res = false → LoadModel res model = some (TriangleRegistry.empty, [])) ∧
    ((∀ mp ∈ allPrimitives model.meshes, (VerifyPrimitive model mp.1 mp.2).isSome = true) →
      (∃ mp ∈ allPrimitives model.meshes,
        (VerifyPrimitive model mp.1 mp.2).map Prod.fst = some false) →
      ∃ out, LoadModel res model = some (TriangleRegistry.empty, out)) ∧
    (res = true → allPass model (allPrimitives model.meshes) →
      (∀ registry out, LoadModel res model = some (registry, out) →
        registry.VertexCount
          = totalPositionCount model (allPrimitives model.meshes) % 2 ^ 64) ∧
      (totalPositionCount model (allPrimitives model.meshes) < 2 ^ 64 →
        ∀ registry out, LoadModel res model = some (registry, out) →
          registry.VertexCount = totalPositionCount model (allPrimitives model.meshes)) ∧
      (copiesInBounds model → ∃ registry out, LoadModel res model = some (registry, out))) ∧
    TriangleRegistry.empty.VertexCount = 0 ∧ TriangleRegistry.empty.Triangles = [] := by
  refine ⟨?_, ?_, ?_, rfl, rfl⟩
  · rintro rfl
    rfl
  · intro hdef hfail
    cases res with
    | false => exact ⟨[], rfl⟩
    | true =>
      obtain ⟨r, hr⟩ := verifyLoop_isSome model _ hdef (true, 0, [])
      have hfalse := verifyLoop_of_fail model _ hfail _ r hr
      refine ⟨r.2.2, ?_⟩
      simp [LoadModel, hr, hfalse]
  · rintro rfl hpass
    refine ⟨fun registry out h => (LoadModel_of_allPass model hpass registry out h).1,
      fun hlt registry out h => ?_, fun hb => LoadModel_isSome model hpass hb⟩
    rw [(LoadModel_of_allPass model hpass registry out h).1, Nat.mod_eq_of_lt hlt]

set_option maxRecDepth 100000 in
/-- Witness for C7 (amended): the asset whose primitive lacks `NORMAL` yields the empty
registry, and the asset with primitives of 4 and 3 vertices yields `VertexCount = 7`. -/
theorem LoadModel_vertexCount_witness :
    (∃ out, LoadModel true missingNormalModel = some (TriangleRegistry.empty, out)) ∧
    (∃ registry out, LoadModel true exampleModel = some (registry, out) ∧
      registry.VertexCount = 7) := by
  constructor
  · exact (LoadModel_vertexCount true missingNormalModel).2.1 (by decide) (by decide)
  · have h := (LoadModel_vertexCount true exampleModel).2.2.1 rfl allPass_exampleModel
    obtain ⟨registry, out, hr⟩ := h.2.2 copiesInBounds_exampleModel
    refine ⟨registry, out, hr, ?_⟩
    rw [h.2.1 (by decide) registry out hr]
    decide

set_option maxRecDepth 100000 in
/-- Counterexample to C7 as stated: both primitives of `wrapModel` pass and the sum of their
`POSITION` counts is `2 ^ 63 + 2 ^ 63 = 2 ^ 64`, but the `size_t` sum wraps and the returned
registry has `VertexCount = 0`. -/
theorem LoadModel_vertexCount_counterexample :
    allPass wrapModel (allPrimitives wrapModel.meshes) ∧
    totalPositionCount wrapModel (allPrimitives wrapModel.meshes) = 18446744073709551616 ∧
    (LoadModel true wrapModel).map (fun r => r.1.VertexCount) = some 0 ∧
    ¬ (∀ registry out, LoadModel true wrapModel = some (registry, out) →
        registry.VertexCount
          = totalPositionCount wrapModel (allPrimitives wrapModel.meshes)) := by
  have hm : (LoadModel true wrapModel).map (fun r => r.1.VertexCount) = some 0 := by decide
  have ht : totalPositionCount wrapModel (allPrimitives wrapModel.meshes)
      = 18446744073709551616 := by decide
  refine ⟨?_, ht, hm, ?_⟩
  · unfold allPass
    decide
  · intro hall
    rw [Option.map_eq_some'] at hm
    obtain ⟨⟨registry, out⟩, hr, he⟩ := hm
    have := hall registry out hr
    rw [ht] at this
    simp only at he
    rw [he] at this
    exact absurd this (by decide)

set_option maxRecDepth 100000 in
/-- Counterexample to C8 as stated: when the first primitive has `2 ^ 32` vertices, the
indices `{0, 1, 2}` of the second primitive stay `{0, 1, 2}` instead of being increased by
`2 ^ 32`. -/
theorem LoadModel_triangles_counterexample :
    allPass hugeModel (allPrimitives hugeModel.meshes) ∧
    (LoadModel true hugeModel).map (fun r => r.1.Triangles) = some [⟨0, 1, 2⟩] ∧
    flattenedTriangles hugeModel (allPrimitives hugeModel.meshes) 0
      = [⟨4294967296, 4294967297, 4294967298⟩] ∧
    (LoadModel true hugeModel).map (fun r => r.1.Triangles)
      ≠ some (flattenedTriangles hugeModel (allPrimitives hugeModel.meshes) 0) := by
  refine ⟨?_, ?_, ?_, ?_⟩
  · unfold allPass
    decide
  · decide
  · decide
  · decide

/-- C8 (amended): for an asset all of whose primitives pass, the `Triangles` list of the
returned registry is the concatenation, in mesh-then-primitive order, of each primitive's
consecutive index triples, every local index increased modulo `2 ^ 32` by the sum of the
`POSITION` accessor counts of the primitives before it; without the reduction when the total
vertex count is at most `2 ^ 32 - 65536`. -/
theorem LoadModel_triangles (model : Model) (registry : TriangleRegistry) (out : List String)
    (hpass : allPass model (allPrimitives model.meshes))
    (h : LoadModel true model = some (registry, out)) :
    registry.Triangles
      = (flattenedTriangles model (allPrimitives model.meshes) 0).map UVec3.wrap ∧
    (totalPositionCount model (allPrimitives model.meshes) + 65536 ≤ 2 ^ 32 →
      registry.Triangles = flattenedTriangles model (allPrimitives model.meshes) 0) := by
  have ht := (LoadModel_of_allPass model hpass registry out h).2.1
  refine ⟨ht, fun hsmall => ?_⟩
  rw [ht]
  conv_rhs => rw [← List.map_id (flattenedTriangles model (allPrimitives model.meshes) 0)]
  apply List.map_congr_left
  intro t hmem
  have hb := flattenedTriangles_bound model _ 0 t hmem
  exact wrap_eq_self t (by omega) (by omega) (by omega)

set_option maxRecDepth 100000 in
/-- Witness for C8: two primitives with 4 and 3 vertices, each with the local indices
`{0, 1, 2}`, give the global triangles `{0, 1, 2}` and `{4, 5, 6}`. -/
theorem LoadModel_triangles_witness :
    ∃ registry out, LoadModel true exampleModel = some (registry, out) ∧
      registry.Triangles = [⟨0, 1, 2⟩, ⟨4, 5, 6⟩] := by
  obtain ⟨registry, out, hr⟩ :=
    LoadModel_isSome exampleModel allPass_exampleModel copiesInBounds_exampleModel
  refine ⟨registry, out, hr, ?_⟩
  rw [(LoadModel_triangles exampleModel registry out allPass_exampleModel hr).2 (by decide)]
  decide

set_option maxRecDepth 100000 in
/-- Counterexample to C9 as stated: a primitive with 3 vertices and the stored indices
`0, 1, 5` passes `VerifyPrimitive`, and the registry has `VertexCount = 3` and the triangle
`{0, 1, 5}`.  Indices below the `POSITION` count do not suffice either: in `wrapModel` the
stored indices `0, 1, 5` are below the count `2 ^ 63` of their primitive, the `size_t` sum of
the two counts wraps, and the registry has `VertexCount = 0` and twice the triangle
`{0, 1, 5}`. -/
theorem LoadModel_index_bound_counterexample :
    allPass badIndexModel (allPrimitives badIndexModel.meshes) ∧
    (LoadModel true badIndexModel).map (fun r => (r.1.VertexCount, r.1.Triangles))
      = some (3, [⟨0, 1, 5⟩]) ∧
    ¬ (∀ registry out, LoadModel true badIndexModel = some (registry, out) →
        ∀ t ∈ registry.Triangles, t.x < registry.VertexCount ∧ t.y < registry.VertexCount ∧
          t.z < registry.VertexCount) ∧
    allPass wrapModel (allPrimitives wrapModel.meshes) ∧
    indicesInRange wrapModel (allPrimitives wrapModel.meshes) ∧
    (LoadModel true wrapModel).map (fun r => (r.1.VertexCount, r.1.Triangles))
      = some (0, [⟨0, 1, 5⟩, ⟨0, 1, 5⟩]) ∧
    ¬ (∀ registry out, LoadModel true wrapModel = some (registry, out) →
        ∀ t ∈ registry.Triangles, t.x < registry.VertexCount ∧ t.y < registry.VertexCount ∧
          t.z < registry.VertexCount) := by
  have hm : (LoadModel true badIndexModel).map (fun r => (r.1.VertexCount, r.1.Triangles))
      = some (3, [⟨0, 1, 5⟩]) := by decide
  have hw : (LoadModel true wrapModel).map (fun r => (r.1.VertexCount, r.1.Triangles))
      = some (0, [⟨0, 1, 5⟩, ⟨0, 1, 5⟩]) := by decide
  refine ⟨?_, hm, ?_, ?_, ?_, hw, ?_⟩
  · unfold allPass
    decide
  · intro hall
    rw [Option.map_eq_some'] at hm
    obtain ⟨⟨registry, out⟩, hr, he⟩ := hm
    simp only [Prod.mk.injEq] at he
    have := hall registry out hr ⟨0, 1, 5⟩ (by rw [he.2]; exact List.mem_singleton.2 rfl)
    rw [he.1] at this
    exact absurd this.2.2 (by decide)
  · unfold allPass
    decide
  · unfold indicesInRange
    decide
  · intro hall
    rw [Option.map_eq_some'] at hw
    obtain ⟨⟨registry, out⟩, hr, he⟩ := hw
    simp only [Prod.mk.injEq] at he
    have := hall registry out hr ⟨0, 1, 5⟩ (by rw [he.2]; exact List.mem_cons_self _ _)
    rw [he.1] at this
    exact absurd this.1 (by decide)

/-- C9 (amended): for an asset all of whose primitives pass, in which every stored index of
every primitive is below that primitive's `POSITION` count and in which the sum of the
`POSITION` counts is below `2 ^ 64`, every component of every triangle of the returned
registry is below the registry's `VertexCount`. -/
theorem LoadModel_index_bound (model : Model) (registry : TriangleRegistry)
    (out : List String) (hpass : allPass model (allPrimitives model.meshes))
    (hrange : indicesInRange model (allPrimitives model.meshes))
    (hsum : totalPositionCount model (allPrimitives model.meshes) < 2 ^ 64)
    (h : LoadModel true model = some (registry, out)) :
    ∀ t ∈ registry.Triangles, t.x < registry.VertexCount ∧ t.y < registry.VertexCount ∧
      t.z < registry.VertexCount := by
  obtain ⟨hcount, htri, -⟩ := LoadModel_of_allPass model hpass registry out h
  intro t ht
  rw [htri, List.mem_map] at ht
  obtain ⟨s, hs, rfl⟩ := ht
  have hlt := flattenedTriangles_lt model _ hrange 0 s hs
  have hle := wrap_le s
  rw [hcount, Nat.mod_eq_of_lt hsum]
  omega

set_option maxRecDepth 100000 in
/-- Witness for C9: the asset with primitives of 4 and 3 vertices and the local indices
`{0, 1, 2}`. -/
theorem LoadModel_index_bound_witness :
    ∃ registry out, LoadModel true exampleModel = some (registry, out) ∧
      ∀ t ∈ registry.Triangles, t.x < registry.VertexCount ∧ t.y < registry.VertexCount ∧
        t.z < registry.VertexCount := by
  obtain ⟨registry, out, hr⟩ :=
    LoadModel_isSome exampleModel allPass_exampleModel copiesInBounds_exampleModel
  exact ⟨registry, out, hr, LoadModel_index_bound exampleModel registry out
    allPass_exampleModel (by unfold indicesInRange; decide) (by decide) hr⟩

set_option maxRecDepth 100000 in
/-- The padded buffer view: in `paddedViewModel` both primitives pass and the second
primitive's vertex offset is 3; its position 0 has the bytes `21`, but the position copy
leaves the twelve surplus bytes `4` of the first view at element `3 + 0`, and the copies
overrun the allocation of `6 * 10` floats, so that `LoadModel` has no defined result. -/
theorem LoadModel_padded_view_overrun :
    allPass paddedViewModel (allPrimitives paddedViewModel.meshes) ∧
    positionCount paddedViewModel (examplePrimitive 0) = 3 ∧
    primitiveElement paddedViewModel (examplePrimitive 4) "POSITION" 0
      = some (List.replicate 12 21) ∧
    (copyAttributeLoop paddedViewModel "POSITION" (allPrimitives paddedViewModel.meshes)
        []).map (fun positions => elementBytes positions 12 (3 + 0))
      = some (List.replicate 12 4) ∧
    LoadModel true paddedViewModel = none := by
  refine ⟨?_, ?_, ?_, ?_, ?_⟩
  · unfold allPass
    decide
  · decide
  · decide
  · decide
  · decide

/-! ## Theorems: camera, sampling loop and shading -/

section CameraLemmas

variable {K : Type} [LinearOrderedField K]

@[simp]
theorem DVec3.lscale_x (k : K) (a : DVec3 K) : (k * a).x = k * a.x := rfl
@[simp]
theorem DVec3.lscale_y (k : K) (a : DVec3 K) : (k * a).y = k * a.y := rfl
@[simp]
theorem DVec3.lscale_z (k : K) (a : DVec3 K) : (k * a).z = k * a.z := rfl
@[simp]
theorem DVec3.sdiv_x (a : DVec3 K) (k : K) : (a / k).x = a.x / k := rfl
@[simp]
theorem DVec3.sdiv_y (a : DVec3 K) (k : K) : (a / k).y = a.y / k := rfl
@[simp]
theorem DVec3.sdiv_z (a : DVec3 K) (k : K) : (a / k).z = a.z / k := rfl

theorem dot_self_nonneg (v : DVec3 K) : 0 ≤ dot v v := by
  simp only [dot]
  nlinarith [mul_self_nonneg v.x, mul_self_nonneg v.y, mul_self_nonneg v.z]

theorem dot_self_pos_of_ne_zero (v : DVec3 K) (h : v ≠ zero) : 0 < dot v v := by
  rcases (dot_self_nonneg v).lt_or_eq with hlt | heq
  · exact hlt
  · exfalso
    apply h
    simp only [dot] at heq
    have hx : v.x = 0 := by
      nlinarith [mul_self_nonneg v.x, mul_self_nonneg v.y, mul_self_nonneg v.z]
    have hy : v.y = 0 := by
      nlinarith [mul_self_nonneg v.x, mul_self_nonneg v.y, mul_self_nonneg v.z]
    have hz : v.z = 0 := by
      nlinarith [mul_self_nonneg v.x, mul_self_nonneg v.y, mul_self_nonneg v.z]
    ext <;> simp [zero, hx, hy, hz]

theorem scale_dot (X N : DVec3 K) (k : K) : dot (X * k) N = dot X N * k := by
  simp only [dot, DVec3.scale_x, DVec3.scale_y, DVec3.scale_z]; ring

/-- A normalised non-zero vector has unit squared length. -/
theorem dot_normalize_self (sqrt : K → K) (v : DVec3 K) (hv : 0 < dot v v)
    (hs : sqrt (dot v v) * sqrt (dot v v) = dot v v) :
    dot (normalize sqrt v) (normalize sqrt v) = 1 := by
  have hne : sqrt (dot v v) ≠ 0 := by
    intro h0
    rw [h0, mul_zero] at hs
    exact hv.ne hs
  unfold DVec3.normalize
  rw [dot_scale, scale_dot]
  field_simp
  nlinarith [hs]

theorem cross_dot_left (a b : DVec3 K) : dot (cross a b) a = 0 := by
  simp only [dot, cross]; ring

theorem cross_dot_right (a b : DVec3 K) : dot (cross a b) b = 0 := by
  simp only [dot, cross]; ring

theorem dot_comm' (a b : DVec3 K) : dot a b = dot b a := by
  simp only [dot]; ring

/-- Lagrange's identity. -/
theorem dot_cross_self (a b : DVec3 K) :
    dot (cross a b) (cross a b) = dot a a * dot b b - dot a b * dot a b := by
  simp only [dot, cross]; ring

theorem cross_scale (a b : DVec3 K) (k : K) : cross a (b * k) = cross a b * k := by
  ext <;> simp only [cross, DVec3.scale_x, DVec3.scale_y, DVec3.scale_z] <;> ring

end CameraLemmas

theorem real_sqrt_mul_self (x : ℝ) (h : 0 < x) : Real.sqrt x * Real.sqrt x = x :=
  Real.mul_self_sqrt h.le

/-- The facts behind the orthonormality of the camera axes. -/
theorem camera_axes (tan : ℝ → ℝ) (pi : ℝ) (lookFrom lookAt vup : DVec3 ℝ)
    (vfov aspectRatio aperture focusDist : ℝ)
    (hvup : cross vup (lookFrom - lookAt) ≠ zero) :
    dot (Camera.new Real.sqrt tan pi lookFrom lookAt vup vfov aspectRatio aperture
        focusDist).U
      (Camera.new Real.sqrt tan pi lookFrom lookAt vup vfov aspectRatio aperture
        focusDist).U = 1 ∧
    dot (Camera.new Real.sqrt tan pi lookFrom lookAt vup vfov aspectRatio aperture
        focusDist).V
      (Camera.new Real.sqrt tan pi lookFrom lookAt vup vfov aspectRatio aperture
        focusDist).V = 1 ∧
    dot (Camera.new Real.sqrt tan pi lookFrom lookAt vup vfov aspectRatio aperture
        focusDist).W
      (Camera.new Real.sqrt tan pi lookFrom lookAt vup vfov aspectRatio aperture
        focusDist).W = 1 ∧
    dot (Camera.new Real.sqrt tan pi lookFrom lookAt vup vfov aspectRatio aperture
        focusDist).U
      (Camera.new Real.sqrt tan pi lookFrom lookAt vup vfov aspectRatio aperture
        focusDist).V = 0 ∧
    dot (Camera.new Real.sqrt tan pi lookFrom lookAt vup vfov aspectRatio aperture
        focusDist).U
      (Camera.new Real.sqrt tan pi lookFrom lookAt vup vfov aspectRatio aperture
        focusDist).W = 0 ∧
    dot (Camera.new Real.sqrt tan pi lookFrom lookAt vup vfov aspectRatio aperture
        focusDist).V
      (Camera.new Real.sqrt tan pi lookFrom lookAt vup vfov aspectRatio aperture
        focusDist).W = 0 := by
  have hd : lookFrom - lookAt ≠ zero := by
    intro h0
    apply hvup
    rw [h0]
    ext <;> simp [cross, zero]
  have hdpos := dot_self_pos_of_ne_zero _ hd
  have hW : dot (normalize Real.sqrt (lookFrom - lookAt))
      (normalize Real.sqrt (lookFrom - lookAt)) = 1 :=
    dot_normalize_self Real.sqrt _ hdpos (real_sqrt_mul_self _ hdpos)
  have hc : cross vup (normalize Real.sqrt (lookFrom - lookAt)) ≠ zero := by
    unfold DVec3.normalize
    rw [cross_scale]
    intro h0
    have hk : (1 / Real.sqrt (dot (lookFrom - lookAt) (lookFrom - lookAt))) ≠ 0 :=
      one_div_ne_zero (sqrt_ne_zero_of_pos _ hdpos)
    apply hvup
    have hx := congrArg DVec3.x h0
    have hy := congrArg DVec3.y h0
    have hz := congrArg DVec3.z h0
    simp only [DVec3.scale_x, DVec3.scale_y, DVec3.scale_z, zero, mul_eq_zero, hk,
      or_false] at hx hy hz
    ext <;> simp [zero, hx, hy, hz]
  have hcpos := dot_self_pos_of_ne_zero _ hc
  have hU : dot (normalize Real.sqrt (cross vup (normalize Real.sqrt (lookFrom - lookAt))))
      (normalize Real.sqrt (cross vup (normalize Real.sqrt (lookFrom - lookAt)))) = 1 :=
    dot_normalize_self Real.sqrt _ hcpos (real_sqrt_mul_self _ hcpos)
  have hUW : dot (normalize Real.sqrt (cross vup (normalize Real.sqrt (lookFrom - lookAt))))
      (normalize Real.sqrt (lookFrom - lookAt)) = 0 := by
    conv_lhs => unfold DVec3.normalize
    rw [scale_dot, ← DVec3.normalize, cross_dot_right, zero_mul]
  simp only [Camera.new]
  refine ⟨hU, ?_, hW, ?_, hUW, ?_⟩
  · rw [dot_cross_self, hW, hU, dot_comm', hUW]
    norm_num
  · rw [dot_comm', cross_dot_right]
  · rw [cross_dot_left]


section SamplingLemmas

variable {K : Type} [LinearOrderedField K]

theorem randomInUnitDisk_of_accepts (rng : Nat → K) (fuel pos k : Nat)
    (hk : k < fuel) (h : acceptsAt rng pos k) :
    ∃ r, randomInUnitDisk rng fuel pos = some r := by
  induction fuel generalizing pos k with
  | zero => omega
  | succ fuel ih =>
    unfold randomInUnitDisk
    simp only
    split
    · rename_i hrej
      cases k with
      | zero =>
        exfalso
        unfold acceptsAt at h
        simp only [Nat.mul_zero, Nat.add_zero] at h
        exact absurd h (not_lt.2 hrej)
      | succ k =>
        apply ih (pos + 2) k (by omega)
        unfold acceptsAt at h ⊢
        have e1 : pos + 2 + 2 * k = pos + 2 * (k + 1) := by ring
        rw [e1]
        exact h
    · exact ⟨_, rfl⟩

theorem GetRay_eq_some (cam : Camera K) (s t : K) (rng : Nat → K) (fuel pos : Nat)
    (ray : Ray K) (pos' : Nat) (h : cam.GetRay s t rng fuel pos = some (ray, pos')) :
    ∃ p, ray = cam.rayThrough s t p := by
  unfold Camera.GetRay at h
  split at h
  · rename_i p q _
    simp only [Option.some.injEq, Prod.mk.injEq] at h
    exact ⟨p, h.1.symm⟩
  · simp at h

theorem rayThrough_target (cam : Camera K) (s t : K) (p : DVec3 K) :
    (cam.rayThrough s t p).Origin + (cam.rayThrough s t p).Direction
      = cam.UpperLeftCorner + s * cam.Horizontal - t * cam.Vertical := by
  simp only [Camera.rayThrough]
  ext <;>
  · simp only [DVec3.add_x, DVec3.add_y, DVec3.add_z, DVec3.sub_x, DVec3.sub_y, DVec3.sub_z]
    ring

/-- The range of one coordinate `(x + jitter) / (width - 1)` of the sampling loop. -/
theorem pixelCoordinate_bounds (x width : Int) (jitter : K)
    (hx0 : 0 ≤ x) (hxw : x < width) (hw : 2 ≤ width) (hj0 : 0 ≤ jitter) (hj1 : jitter < 1) :
    0 ≤ pixelCoordinate x width jitter ∧
    pixelCoordinate x width jitter < (width : K) / ((width - 1 : Int) : K) ∧
    (pixelCoordinate x width jitter ≤ 1 ↔ (x : K) + jitter ≤ ((width - 1 : Int) : K)) ∧
    (x < width - 1 → pixelCoordinate x width jitter < 1) ∧
    (x = width - 1 → 0 < jitter → 1 < pixelCoordinate x width jitter) := by
  have hwpos : (0 : K) < ((width - 1 : Int) : K) := by
    have : (0 : Int) < width - 1 := by omega
    exact_mod_cast this
  have hx0' : (0 : K) ≤ (x : K) := by exact_mod_cast hx0
  have hxw' : (x : K) + 1 ≤ (width : K) := by
    have : x + 1 ≤ width := by omega
    exact_mod_cast this
  have hcast : ((width - 1 : Int) : K) = (width : K) - 1 := by push_cast; ring
  unfold pixelCoordinate
  refine ⟨?_, ?_, ?_, ?_, ?_⟩
  · exact div_nonneg (by linarith) hwpos.le
  · exact div_lt_div_of_pos_right (by linarith) hwpos
  · rw [div_le_one hwpos]
  · intro hlt
    have : (x : K) + 1 ≤ ((width - 1 : Int) : K) := by
      have : x + 1 ≤ width - 1 := by omega
      exact_mod_cast this
    rw [div_lt_one hwpos]
    linarith
  · intro heq hj
    rw [one_lt_div hwpos, heq]
    linarith

/-- The squared distance from `origin` of the point at parameter `t` of a ray that starts at
`origin`. -/
theorem distExp_of_origin (origin direction : DVec3 K) (t : K) :
    distExp (origin + direction * t) origin = t * t * dot direction direction := by
  simp only [distExp, dot, DVec3.add_x, DVec3.add_y, DVec3.add_z, DVec3.sub_x, DVec3.sub_y,
    DVec3.sub_z, DVec3.scale_x, DVec3.scale_y, DVec3.scale_z]
  ring

end SamplingLemmas

section FocusLemmas

variable {K : Type} [LinearOrderedField K]

/-- The point `UpperLeftCorner + s * Horizontal - t * Vertical` of a camera whose `Horizontal`
and `Vertical` are multiples of `U` and `V`, measured along `W`. -/
theorem focus_dot (O U V W : DVec3 K) (a b f s t : K)
    (hUW : dot U W = 0) (hVW : dot V W = 0) (hWW : dot W W = 1) :
    dot (O - (a * U) / (2 : K) + (b * V) / (2 : K) - f * W + s * (a * U) - t * (b * V) - O) W
      = -f := by
  simp only [dot, DVec3.add_x, DVec3.add_y, DVec3.add_z, DVec3.sub_x, DVec3.sub_y, DVec3.sub_z,
    DVec3.lscale_x, DVec3.lscale_y, DVec3.lscale_z, DVec3.sdiv_x, DVec3.sdiv_y, DVec3.sdiv_z]
    at hUW hVW hWW ⊢
  linear_combination (-a / 2 + s * a) * hUW + (b / 2 - t * b) * hVW - f * hWW

/-- Cauchy-Schwarz for two vectors of unit squared length. -/
theorem dot_unit_bounds (a n : DVec3 K) (ha : dot a a = 1) (hn : dot n n = 1) :
    -1 ≤ dot a n ∧ dot a n ≤ 1 := by
  have hL := dot_cross_self a n
  rw [ha, hn] at hL
  have hnn := dot_self_nonneg (cross a n)
  constructor <;> nlinarith

theorem sub_ne_zero_of_ne (a b : DVec3 K) (h : a ≠ b) : a - b ≠ zero := by
  intro h0
  apply h
  have hx := congrArg DVec3.x h0
  have hy := congrArg DVec3.y h0
  have hz := congrArg DVec3.z h0
  simp only [DVec3.sub_x, DVec3.sub_y, DVec3.sub_z, zero] at hx hy hz
  ext
  · linarith
  · linarith
  · linarith

theorem GetRay_isSome_of_accepts (cam : Camera K) (s t : K) (rng : Nat → K) (fuel pos k : Nat)
    (hk : k < fuel) (h : acceptsAt rng pos k) :
    ∃ r, cam.GetRay s t rng fuel pos = some r := by
  obtain ⟨⟨p, q⟩, hr⟩ := randomInUnitDisk_of_accepts rng fuel pos k hk h
  exact ⟨(cam.rayThrough s t p, q), by simp only [Camera.GetRay, hr]⟩

theorem rayThrough_origin_of_lens_zero (cam : Camera K) (s t : K) (p : DVec3 K)
    (h : cam.LensRadius = 0) : (cam.rayThrough s t p).Origin = cam.Origin := by
  simp only [Camera.rayThrough, h]
  ext <;>
  · simp only [DVec3.add_x, DVec3.add_y, DVec3.add_z, DVec3.scale_x, DVec3.scale_y,
      DVec3.scale_z, DVec3.lscale_x, DVec3.lscale_y, DVec3.lscale_z]
    ring

end FocusLemmas

/-- C13: over the reals, for `lookFrom ≠ lookAt` and `vup` not parallel to
`lookFrom - lookAt` (non-zero cross product), the axes `U`, `V`, `W` that the constructor of
`Camera` produces are orthonormal: each has length `1` and they are pairwise perpendicular. -/
theorem Camera_axes_orthonormal (tan : ℝ → ℝ) (pi : ℝ) (lookFrom lookAt vup : DVec3 ℝ)
    (vfov aspectRatio aperture focusDist : ℝ) (cam : Camera ℝ)
    (hcam : cam = Camera.new Real.sqrt tan pi lookFrom lookAt vup vfov aspectRatio aperture
      focusDist)
    (hne : lookFrom ≠ lookAt)
    (hvup : cross vup (lookFrom - lookAt) ≠ zero) :
    DVec3.length Real.sqrt cam.U = 1 ∧ DVec3.length Real.sqrt cam.V = 1 ∧
    DVec3.length Real.sqrt cam.W = 1 ∧
    dot cam.U cam.V = 0 ∧ dot cam.U cam.W = 0 ∧ dot cam.V cam.W = 0 := by
  have _ := hne
  subst hcam
  obtain ⟨hU, hV, hW, hUV, hUW, hVW⟩ :=
    camera_axes tan pi lookFrom lookAt vup vfov aspectRatio aperture focusDist hvup
  refine ⟨?_, ?_, ?_, hUV, hUW, hVW⟩
  · rw [DVec3.length, hU, Real.sqrt_one]
  · rw [DVec3.length, hV, Real.sqrt_one]
  · rw [DVec3.length, hW, Real.sqrt_one]

/-- The up vector `(0,1,0)` is not parallel to the view direction of the example camera. -/
theorem example_vup_not_parallel :
    cross (⟨0, 1, 0⟩ : DVec3 ℝ) ((⟨0, 0, 0⟩ : DVec3 ℝ) - ⟨0, 0, -1⟩) ≠ zero := by
  intro h
  have hx := congrArg DVec3.x h
  simp [cross, zero] at hx

/-- The example camera looks from the origin at `(0,0,-1)`. -/
theorem example_lookFrom_ne : (⟨0, 0, 0⟩ : DVec3 ℝ) ≠ ⟨0, 0, -1⟩ := by
  intro h
  have hz := congrArg DVec3.z h
  norm_num at hz

/-- Witness for C13: the camera at the origin that looks along `-z` with `vup = (0,1,0)`. -/
theorem Camera_axes_orthonormal_witness :
    (⟨0, 0, 0⟩ : DVec3 ℝ) ≠ ⟨0, 0, -1⟩ ∧
    cross (⟨0, 1, 0⟩ : DVec3 ℝ) ((⟨0, 0, 0⟩ : DVec3 ℝ) - ⟨0, 0, -1⟩) ≠ zero ∧
    DVec3.length Real.sqrt (Camera.new Real.sqrt Real.tan Real.pi ⟨0, 0, 0⟩ ⟨0, 0, -1⟩
      ⟨0, 1, 0⟩ 90 1 2 (3 / 5)).U = 1 ∧
    dot (Camera.new Real.sqrt Real.tan Real.pi ⟨0, 0, 0⟩ ⟨0, 0, -1⟩ ⟨0, 1, 0⟩ 90 1 2 (3 / 5)).U
      (Camera.new Real.sqrt Real.tan Real.pi ⟨0, 0, 0⟩ ⟨0, 0, -1⟩ ⟨0, 1, 0⟩ 90 1 2 (3 / 5)).V
      = 0 :=
  ⟨example_lookFrom_ne, example_vup_not_parallel,
    (Camera_axes_orthonormal Real.tan Real.pi ⟨0, 0, 0⟩ ⟨0, 0, -1⟩ ⟨0, 1, 0⟩ 90 1 2 (3 / 5) _ rfl
      example_lookFrom_ne example_vup_not_parallel).1,
    (Camera_axes_orthonormal Real.tan Real.pi ⟨0, 0, 0⟩ ⟨0, 0, -1⟩ ⟨0, 1, 0⟩ 90 1 2 (3 / 5) _ rfl
      example_lookFrom_ne example_vup_not_parallel).2.2.2.1⟩

/-- C12: for a camera built with `lookFrom ≠ lookAt` and `vup` not parallel to the view
direction, the ray that `GetRay` returns for `(s,t)` satisfies
`Origin + Direction = UpperLeftCorner + s * Horizontal - t * Vertical`; this point lies on the
plane at signed distance `-focusDist` along `W` from the camera origin, every other call for
the same `(s,t)`, whatever its random stream, aims at the same point, and `GetRay` returns as
soon as one round of the rejection loop within the fuel draws a point inside the unit disk. -/
theorem GetRay_focus_point (tan : ℝ → ℝ) (pi : ℝ) (lookFrom lookAt vup : DVec3 ℝ)
    (vfov aspectRatio aperture focusDist : ℝ) (cam : Camera ℝ)
    (hcam : cam = Camera.new Real.sqrt tan pi lookFrom lookAt vup vfov aspectRatio aperture
      focusDist)
    (hne : lookFrom ≠ lookAt)
    (hvup : cross vup (lookFrom - lookAt) ≠ zero)
    (s t : ℝ) (rng : Nat → ℝ) (fuel pos : Nat) (ray : Ray ℝ) (pos' : Nat)
    (h : cam.GetRay s t rng fuel pos = some (ray, pos')) :
    ray.Origin + ray.Direction = cam.UpperLeftCorner + s * cam.Horizontal - t * cam.Vertical ∧
    dot (ray.Origin + ray.Direction - cam.Origin) cam.W = -focusDist ∧
    (∀ (rng2 : Nat → ℝ) (fuel2 pos2 : Nat) (ray2 : Ray ℝ) (pos2' : Nat),
      cam.GetRay s t rng2 fuel2 pos2 = some (ray2, pos2') →
      ray2.Origin + ray2.Direction = ray.Origin + ray.Direction) ∧
    (∀ (rng2 : Nat → ℝ) (fuel2 pos2 k : Nat), k < fuel2 → acceptsAt rng2 pos2 k →
      ∃ r, cam.GetRay s t rng2 fuel2 pos2 = some r) := by
  have _ := hne
  obtain ⟨p, hp⟩ := GetRay_eq_some cam s t rng fuel pos ray pos' h
  have htarget : ray.Origin + ray.Direction
      = cam.UpperLeftCorner + s * cam.Horizontal - t * cam.Vertical := by
    rw [hp]; exact rayThrough_target cam s t p
  refine ⟨htarget, ?_, ?_, ?_⟩
  · rw [htarget]
    subst hcam
    obtain ⟨_, _, hW, _, hUW, hVW⟩ :=
      camera_axes tan pi lookFrom lookAt vup vfov aspectRatio aperture focusDist hvup
    exact focus_dot _ _ _ _ _ _ _ _ _ hUW hVW hW
  · intro rng2 fuel2 pos2 ray2 pos2' h2
    obtain ⟨p2, hp2⟩ := GetRay_eq_some cam s t rng2 fuel2 pos2 ray2 pos2' h2
    rw [htarget, hp2]
    exact rayThrough_target cam s t p2
  · intro rng2 fuel2 pos2 k hk hacc
    exact GetRay_isSome_of_accepts cam s t rng2 fuel2 pos2 k hk hacc

/-- The ray of the example camera for `(s,t) = (1/2,1/2)` and the stream `9/10, 1/2, ...`. -/
theorem example_GetRay :
    (Camera.new Real.sqrt Real.tan Real.pi ⟨0, 0, 0⟩ ⟨0, 0, -1⟩ ⟨0, 1, 0⟩ 90 1 2 (3 / 5)).GetRay
        (1 / 2) (1 / 2) (fun n => if n = 0 then 9 / 10 else 1 / 2) 1 0
      = some (⟨⟨4 / 5, 0, 0⟩, ⟨-4 / 5, 0, -3 / 5⟩⟩, 2) := by
  have hp : randomInUnitDisk (fun n => if n = 0 then (9 / 10 : ℝ) else 1 / 2) 1 0
      = some (⟨4 / 5, 0, 0⟩, 2) := by
    simp only [randomInUnitDisk, RandomDouble]
    norm_num
  simp only [Camera.GetRay, hp]
  simp only [Option.some.injEq, Prod.mk.injEq, and_true]
  simp only [Camera.rayThrough, Camera.new, DVec3.normalize, cross, dot, radians]
  have e : ∀ (a b : DVec3 ℝ), a + b = ⟨a.x + b.x, a.y + b.y, a.z + b.z⟩ := fun _ _ => rfl
  have e2 : ∀ (a b : DVec3 ℝ), a - b = ⟨a.x - b.x, a.y - b.y, a.z - b.z⟩ := fun _ _ => rfl
  have e3 : ∀ (a : DVec3 ℝ) (k : ℝ), a * k = ⟨a.x * k, a.y * k, a.z * k⟩ := fun _ _ => rfl
  have e4 : ∀ (k : ℝ) (a : DVec3 ℝ), k * a = ⟨k * a.x, k * a.y, k * a.z⟩ := fun _ _ => rfl
  have e5 : ∀ (a : DVec3 ℝ) (k : ℝ), a / k = ⟨a.x / k, a.y / k, a.z / k⟩ := fun _ _ => rfl
  simp only [e, e2, e3, e4, e5]
  norm_num
  constructor <;> ring

/-- Witness for C12: the camera at the origin that looks along `-z`, aperture `2`, focus
distance `3/5`, `(s,t) = (1/2,1/2)` and the lens sample `(4/5, 0)`. -/
theorem GetRay_focus_point_witness :
    (⟨0, 0, 0⟩ : DVec3 ℝ) ≠ ⟨0, 0, -1⟩ ∧
    cross (⟨0, 1, 0⟩ : DVec3 ℝ) ((⟨0, 0, 0⟩ : DVec3 ℝ) - ⟨0, 0, -1⟩) ≠ zero ∧
    (Camera.new Real.sqrt Real.tan Real.pi ⟨0, 0, 0⟩ ⟨0, 0, -1⟩ ⟨0, 1, 0⟩ 90 1 2 (3 / 5)).GetRay
        (1 / 2) (1 / 2) (fun n => if n = 0 then 9 / 10 else 1 / 2) 1 0
      = some (⟨⟨4 / 5, 0, 0⟩, ⟨-4 / 5, 0, -3 / 5⟩⟩, 2) ∧
    dot ((⟨4 / 5, 0, 0⟩ : DVec3 ℝ) + ⟨-4 / 5, 0, -3 / 5⟩
        - (Camera.new Real.sqrt Real.tan Real.pi ⟨0, 0, 0⟩ ⟨0, 0, -1⟩ ⟨0, 1, 0⟩ 90 1 2
            (3 / 5)).Origin)
      (Camera.new Real.sqrt Real.tan Real.pi ⟨0, 0, 0⟩ ⟨0, 0, -1⟩ ⟨0, 1, 0⟩ 90 1 2 (3 / 5)).W
      = -(3 / 5) :=
  ⟨example_lookFrom_ne, example_vup_not_parallel, example_GetRay,
    (GetRay_focus_point Real.tan Real.pi ⟨0, 0, 0⟩ ⟨0, 0, -1⟩ ⟨0, 1, 0⟩ 90 1 2 (3 / 5) _ rfl
      example_lookFrom_ne example_vup_not_parallel (1 / 2) (1 / 2)
      (fun n => if n = 0 then 9 / 10 else 1 / 2) 1 0 _ 2 example_GetRay).2.1⟩

section Sampling

variable {K : Type} [LinearOrderedField K]

/-- C17 (amended): for every image of at least `2 x 2` pixels, every pixel and every jitter
in `[0,1)`, the coordinates `u` and `v` that the sampling loop passes to `GetRay` are
non-negative and below `width / (width - 1)` and `height / (height - 1)`; they are below `1`
outside the last column and the last row, and exceed `1` in the last column or row as soon as
the jitter is positive. -/
theorem pixelCoordinates_range (x y width height : Int) (jx jy : K)
    (hx0 : 0 ≤ x) (hxw : x < width) (hy0 : 0 ≤ y) (hyh : y < height)
    (hw : 2 ≤ width) (hh : 2 ≤ height)
    (hjx0 : 0 ≤ jx) (hjx1 : jx < 1) (hjy0 : 0 ≤ jy) (hjy1 : jy < 1) :
    (0 ≤ pixelCoordinate x width jx ∧
      pixelCoordinate x width jx < (width : K) / ((width - 1 : Int) : K) ∧
      (x < width - 1 → pixelCoordinate x width jx < 1) ∧
      (x = width - 1 → 0 < jx → 1 < pixelCoordinate x width jx)) ∧
    (0 ≤ pixelCoordinate y height jy ∧
      pixelCoordinate y height jy < (height : K) / ((height - 1 : Int) : K) ∧
      (y < height - 1 → pixelCoordinate y height jy < 1) ∧
      (y = height - 1 → 0 < jy → 1 < pixelCoordinate y height jy)) := by
  obtain ⟨a1, a2, _, a4, a5⟩ := pixelCoordinate_bounds x width jx hx0 hxw hw hjx0 hjx1
  obtain ⟨b1, b2, _, b4, b5⟩ := pixelCoordinate_bounds y height jy hy0 hyh hh hjy0 hjy1
  exact ⟨⟨a1, a2, a4, a5⟩, ⟨b1, b2, b4, b5⟩⟩

/-- Witness for C17 (amended): the `2 x 2` picture, pixel `(1,0)`, jitter `(1/2, 1/4)`. -/
theorem pixelCoordinates_range_witness :
    (0 : Int) ≤ 1 ∧ (1 : Int) < 2 ∧ (0 : Int) ≤ 0 ∧ (0 : Int) < 2 ∧ (2 : Int) ≤ 2 ∧
    (2 : Int) ≤ 2 ∧ (0 : ℚ) ≤ 1 / 2 ∧ (1 / 2 : ℚ) < 1 ∧ (0 : ℚ) ≤ 1 / 4 ∧ (1 / 4 : ℚ) < 1 ∧
    pixelCoordinate 1 2 (1 / 2 : ℚ) < ((2 : Int) : ℚ) / (((2 : Int) - 1 : Int) : ℚ) ∧
    pixelCoordinate 0 2 (1 / 4 : ℚ) < 1 :=
  ⟨by decide, by decide, by decide, by decide, by decide, by decide, by norm_num, by norm_num,
    by norm_num, by norm_num,
    (pixelCoordinates_range 1 0 2 2 (1 / 2 : ℚ) (1 / 4 : ℚ) (by decide) (by decide) (by decide)
      (by decide) (by decide) (by decide) (by norm_num) (by norm_num) (by norm_num)
      (by norm_num)).1.2.1,
    (pixelCoordinates_range 1 0 2 2 (1 / 2 : ℚ) (1 / 4 : ℚ) (by decide) (by decide) (by decide)
      (by decide) (by decide) (by decide) (by norm_num) (by norm_num) (by norm_num)
      (by norm_num)).2.2.2.1 (by decide)⟩

/-- Counterexample for C17: in a picture of width `2`, the pixel `x = 1` with jitter `1/2`
gets the coordinate `(1 + 1/2) / (2 - 1) = 3/2`, which is outside `[0,1]`. -/
theorem pixelCoordinate_counterexample :
    (0 : Int) ≤ 1 ∧ (1 : Int) < 2 ∧ (0 : ℚ) ≤ 1 / 2 ∧ (1 / 2 : ℚ) < 1 ∧
    pixelCoordinate 1 2 (1 / 2 : ℚ) = 3 / 2 ∧ ¬ pixelCoordinate 1 2 (1 / 2 : ℚ) ≤ 1 := by
  have e : pixelCoordinate 1 2 (1 / 2 : ℚ) = 3 / 2 := by
    unfold pixelCoordinate
    norm_num
  refine ⟨by decide, by decide, by norm_num, by norm_num, e, ?_⟩
  rw [e]
  norm_num

/-- C18 (amended): for every camera with `LensRadius = 0`, every ray that `GetRay` returns
starts at the camera `Origin`, and for two points of the ray at parameters `0 ≤ t1 < t2` the
squared distance from the camera `Origin` of the point at `t1` is no larger than that of the
point at `t2` (strictly smaller when `Direction` is non-zero), whatever the length of
`Direction`. -/
theorem nearest_metrics_agree (cam : Camera K) (s t : K) (rng : Nat → K) (fuel pos : Nat)
    (ray : Ray K) (pos' : Nat)
    (h : cam.GetRay s t rng fuel pos = some (ray, pos'))
    (hlens : cam.LensRadius = 0) (t1 t2 : K) (h1 : 0 ≤ t1) (h12 : t1 < t2) :
    ray.Origin = cam.Origin ∧
    distExp (ray.Origin + ray.Direction * t1) cam.Origin
      ≤ distExp (ray.Origin + ray.Direction * t2) cam.Origin ∧
    (ray.Direction ≠ zero →
      distExp (ray.Origin + ray.Direction * t1) cam.Origin
        < distExp (ray.Origin + ray.Direction * t2) cam.Origin) := by
  obtain ⟨p, hp⟩ := GetRay_eq_some cam s t rng fuel pos ray pos' h
  have hO : ray.Origin = cam.Origin := by
    rw [hp]; exact rayThrough_origin_of_lens_zero cam s t p hlens
  refine ⟨hO, ?_, ?_⟩
  · rw [hO, distExp_of_origin, distExp_of_origin]
    have hd := dot_self_nonneg ray.Direction
    have : t1 * t1 ≤ t2 * t2 := by nlinarith
    exact mul_le_mul_of_nonneg_right this hd
  · intro hne
    rw [hO, distExp_of_origin, distExp_of_origin]
    have hd := dot_self_pos_of_ne_zero ray.Direction hne
    have : t1 * t1 < t2 * t2 := by nlinarith
    exact mul_lt_mul_of_pos_right this hd

end Sampling

/-- C19: over the reals, for a light position different from the hit position and a non-zero
interpolated normal, the shading term
`lightFactor = dot(normalize(light - hitPos), normalize(normal)) / 2 + 0.5` lies in `[0,1]`. -/
theorem lightFactor_range (light position n0 n1 n2 barycentric : DVec3 ℝ)
    (hlight : light ≠ position)
    (hn : n0 * barycentric.x + n1 * barycentric.y + n2 * barycentric.z ≠ zero) :
    0 ≤ lightFactor Real.sqrt light position (shadingNormal Real.sqrt n0 n1 n2 barycentric) ∧
    lightFactor Real.sqrt light position (shadingNormal Real.sqrt n0 n1 n2 barycentric) ≤ 1 := by
  have hl := dot_self_pos_of_ne_zero _ (sub_ne_zero_of_ne light position hlight)
  have hnn := dot_self_pos_of_ne_zero _ hn
  have ha := dot_normalize_self Real.sqrt _ hl (real_sqrt_mul_self _ hl)
  have hb := dot_normalize_self Real.sqrt _ hnn (real_sqrt_mul_self _ hnn)
  obtain ⟨h1, h2⟩ := dot_unit_bounds _ _ ha hb
  unfold lightFactor shadingNormal
  constructor <;> linarith

theorem example_light_ne : (⟨0, 0, 1⟩ : DVec3 ℝ) ≠ ⟨0, 0, 0⟩ := by
  intro h
  have hz := congrArg DVec3.z h
  norm_num at hz

theorem example_normal_ne :
    (⟨0, 0, 1⟩ : DVec3 ℝ) * (⟨1 / 2, 1 / 4, 1 / 4⟩ : DVec3 ℝ).x
      + (⟨0, 1, 0⟩ : DVec3 ℝ) * (⟨1 / 2, 1 / 4, 1 / 4⟩ : DVec3 ℝ).y
      + (⟨1, 0, 0⟩ : DVec3 ℝ) * (⟨1 / 2, 1 / 4, 1 / 4⟩ : DVec3 ℝ).z ≠ zero := by
  intro h
  have hz := congrArg DVec3.z h
  simp [zero] at hz

/-- Witness for C19: the light at `(0,0,1)`, a hit at the origin and three axis normals
weighted by `(1/2, 1/4, 1/4)`. -/
theorem lightFactor_range_witness :
    (⟨0, 0, 1⟩ : DVec3 ℝ) ≠ ⟨0, 0, 0⟩ ∧
    (⟨0, 0, 1⟩ : DVec3 ℝ) * (⟨1 / 2, 1 / 4, 1 / 4⟩ : DVec3 ℝ).x
      + (⟨0, 1, 0⟩ : DVec3 ℝ) * (⟨1 / 2, 1 / 4, 1 / 4⟩ : DVec3 ℝ).y
      + (⟨1, 0, 0⟩ : DVec3 ℝ) * (⟨1 / 2, 1 / 4, 1 / 4⟩ : DVec3 ℝ).z ≠ zero ∧
    0 ≤ lightFactor Real.sqrt ⟨0, 0, 1⟩ ⟨0, 0, 0⟩
      (shadingNormal Real.sqrt ⟨0, 0, 1⟩ ⟨0, 1, 0⟩ ⟨1, 0, 0⟩ ⟨1 / 2, 1 / 4, 1 / 4⟩) ∧
    lightFactor Real.sqrt ⟨0, 0, 1⟩ ⟨0, 0, 0⟩
      (shadingNormal Real.sqrt ⟨0, 0, 1⟩ ⟨0, 1, 0⟩ ⟨1, 0, 0⟩ ⟨1 / 2, 1 / 4, 1 / 4⟩) ≤ 1 :=
  ⟨example_light_ne, example_normal_ne,
    lightFactor_range _ _ _ _ _ _ example_light_ne example_normal_ne⟩

/-- C20: over the reals, on every hit the area-projection weights that
`RayTriangleIntersection` returns are the Moller-Trumbore parameters of the acceptance test,
`Barycentric = (1 - u - v, u, v)`; every weight lies in `[0,1]`, and `Position` is the convex
combination `A * (1 - u - v) + B * u + C * v`, a point of the closed triangle. -/
theorem RayTriangleIntersection_barycentric (ray : Ray ℝ) (A B C : DVec3 ℝ)
    (h : (RayTriangleIntersection Real.sqrt ray A B C).IsHit = true) :
    (RayTriangleIntersection Real.sqrt ray A B C).Barycentric
      = ⟨1 - mtU ray A B C - mtV ray A B C, mtU ray A B C, mtV ray A B C⟩ ∧
    (0 ≤ (RayTriangleIntersection Real.sqrt ray A B C).Barycentric.x ∧
      (RayTriangleIntersection Real.sqrt ray A B C).Barycentric.x ≤ 1) ∧
    (0 ≤ (RayTriangleIntersection Real.sqrt ray A B C).Barycentric.y ∧
      (RayTriangleIntersection Real.sqrt ray A B C).Barycentric.y ≤ 1) ∧
    (0 ≤ (RayTriangleIntersection Real.sqrt ray A B C).Barycentric.z ∧
      (RayTriangleIntersection Real.sqrt ray A B C).Barycentric.z ≤ 1) ∧
    (RayTriangleIntersection Real.sqrt ray A B C).Position
      = A * (1 - mtU ray A B C - mtV ray A B C) + B * mtU ray A B C + C * mtV ray A B C := by
  have hacc := (RTI_isHit_iff Real.sqrt sqrt_ne_zero_of_pos ray A B C).1 h
  rw [RTI_of_accept Real.sqrt sqrt_ne_zero_of_pos ray A B C hacc]
  obtain ⟨h1, h2, h3, _⟩ := hacc
  have hu0 : 0 ≤ mtU ray A B C := by
    by_contra hc; exact h2 (Or.inl (not_le.1 hc))
  have hu1 : mtU ray A B C ≤ 1 := by
    by_contra hc; exact h2 (Or.inr (not_le.1 hc))
  have hv0 : 0 ≤ mtV ray A B C := by
    by_contra hc; exact h3 (Or.inl (not_le.1 hc))
  have huv : mtU ray A B C + mtV ray A B C ≤ 1 := by
    by_contra hc; exact h3 (Or.inr (not_le.1 hc))
  refine ⟨rfl, ⟨?_, ?_⟩, ⟨hu0, hu1⟩, ⟨hv0, ?_⟩, ?_⟩
  · show 0 ≤ 1 - mtU ray A B C - mtV ray A B C
    linarith
  · show 1 - mtU ray A B C - mtV ray A B C ≤ 1
    linarith
  · show mtV ray A B C ≤ 1
    linarith
  · show ray.Origin + ray.Direction * mtT ray A B C = _
    rw [mt_point ray A B C (mtA_ne_zero_of_accept h1)]
    ext <;>
    · simp only [DVec3.sub_x, DVec3.sub_y, DVec3.sub_z, DVec3.add_x, DVec3.add_y, DVec3.add_z,
        DVec3.scale_x, DVec3.scale_y, DVec3.scale_z]
      ring

/-- Witness for C20: the unit triangle and the ray from `(1/4,1/4,1)` along `(0,0,-1)`. -/
theorem RayTriangleIntersection_barycentric_witness :
    (RayTriangleIntersection Real.sqrt ⟨⟨1 / 4, 1 / 4, 1⟩, ⟨0, 0, -1⟩⟩
        ⟨0, 0, 0⟩ ⟨1, 0, 0⟩ ⟨0, 1, 0⟩).IsHit = true ∧
    (RayTriangleIntersection Real.sqrt ⟨⟨1 / 4, 1 / 4, 1⟩, ⟨0, 0, -1⟩⟩
        ⟨0, 0, 0⟩ ⟨1, 0, 0⟩ ⟨0, 1, 0⟩).Barycentric
      = ⟨1 - mtU (⟨⟨1 / 4, 1 / 4, 1⟩, ⟨0, 0, -1⟩⟩ : Ray ℝ) ⟨0, 0, 0⟩ ⟨1, 0, 0⟩ ⟨0, 1, 0⟩
            - mtV (⟨⟨1 / 4, 1 / 4, 1⟩, ⟨0, 0, -1⟩⟩ : Ray ℝ) ⟨0, 0, 0⟩ ⟨1, 0, 0⟩ ⟨0, 1, 0⟩,
          mtU (⟨⟨1 / 4, 1 / 4, 1⟩, ⟨0, 0, -1⟩⟩ : Ray ℝ) ⟨0, 0, 0⟩ ⟨1, 0, 0⟩ ⟨0, 1, 0⟩,
          mtV (⟨⟨1 / 4, 1 / 4, 1⟩, ⟨0, 0, -1⟩⟩ : Ray ℝ) ⟨0, 0, 0⟩ ⟨1, 0, 0⟩ ⟨0, 1, 0⟩⟩ :=
  ⟨by rw [unit_triangle_hit],
    (RayTriangleIntersection_barycentric _ _ _ _ (by rw [unit_triangle_hit])).1⟩

theorem lens_ray_hit_near :
    RayTriangleIntersection Real.sqrt ⟨⟨4 / 5, 0, 0⟩, ⟨-4 / 5, 0, -3 / 5⟩⟩
        ⟨18 / 25, -1 / 4, -1 / 4⟩ ⟨18 / 25, 3 / 4, -1 / 4⟩ ⟨18 / 25, -1 / 4, 3 / 4⟩
      = ⟨true, ⟨1, 0, 0⟩, ⟨18 / 25, 0, -3 / 50⟩, ⟨14 / 25, 1 / 4, 19 / 100⟩⟩ := by
  have hacc : mtAccept (⟨⟨4 / 5, 0, 0⟩, ⟨-4 / 5, 0, -3 / 5⟩⟩ : Ray ℝ)
      ⟨18 / 25, -1 / 4, -1 / 4⟩ ⟨18 / 25, 3 / 4, -1 / 4⟩ ⟨18 / 25, -1 / 4, 3 / 4⟩ := by
    simp only [mtAccept, mtA, mtU, mtV, mtT, dot, cross, EPSILON, DVec3.sub_x, DVec3.sub_y,
      DVec3.sub_z]
    norm_num
  rw [RTI_of_accept Real.sqrt sqrt_ne_zero_of_pos _ _ _ _ hacc]
  simp only [mtA, mtU, mtV, mtT, dot, cross, DVec3.normalize, DVec3.sub_x, DVec3.sub_y,
    DVec3.sub_z]
  have e : ∀ (a b : DVec3 ℝ), a + b = ⟨a.x + b.x, a.y + b.y, a.z + b.z⟩ := fun _ _ => rfl
  have e2 : ∀ (a : DVec3 ℝ) (k : ℝ), a * k = ⟨a.x * k, a.y * k, a.z * k⟩ := fun _ _ => rfl
  simp only [e, e2]
  norm_num

theorem lens_ray_hit_far :
    RayTriangleIntersection Real.sqrt ⟨⟨4 / 5, 0, 0⟩, ⟨-4 / 5, 0, -3 / 5⟩⟩
        ⟨16 / 25, -1 / 4, -1 / 4⟩ ⟨16 / 25, 3 / 4, -1 / 4⟩ ⟨16 / 25, -1 / 4, 3 / 4⟩
      = ⟨true, ⟨1, 0, 0⟩, ⟨16 / 25, 0, -3 / 25⟩, ⟨31 / 50, 1 / 4, 13 / 100⟩⟩ := by
  have hacc : mtAccept (⟨⟨4 / 5, 0, 0⟩, ⟨-4 / 5, 0, -3 / 5⟩⟩ : Ray ℝ)
      ⟨16 / 25, -1 / 4, -1 / 4⟩ ⟨16 / 25, 3 / 4, -1 / 4⟩ ⟨16 / 25, -1 / 4, 3 / 4⟩ := by
    simp only [mtAccept, mtA, mtU, mtV, mtT, dot, cross, EPSILON, DVec3.sub_x, DVec3.sub_y,
      DVec3.sub_z]
    norm_num
  rw [RTI_of_accept Real.sqrt sqrt_ne_zero_of_pos _ _ _ _ hacc]
  simp only [mtA, mtU, mtV, mtT, dot, cross, DVec3.normalize, DVec3.sub_x, DVec3.sub_y,
    DVec3.sub_z]
  have e : ∀ (a b : DVec3 ℝ), a + b = ⟨a.x + b.x, a.y + b.y, a.z + b.z⟩ := fun _ _ => rfl
  have e2 : ∀ (a : DVec3 ℝ) (k : ℝ), a * k = ⟨a.x * k, a.y * k, a.z * k⟩ := fun _ _ => rfl
  simp only [e, e2]
  norm_num

theorem example_camera_origin :
    (Camera.new Real.sqrt Real.tan Real.pi ⟨0, 0, 0⟩ ⟨0, 0, -1⟩ ⟨0, 1, 0⟩ 90 1 2 (3 / 5)).Origin
      = ⟨0, 0, 0⟩ := rfl

/-- Counterexample for C18: the camera at the origin looking along `-z` with aperture `2` and
focus distance `3/5`; for `(s,t) = (1/2,1/2)` and the lens sample `(4/5, 0)` the ray of
`GetRay` starts at `(4/5,0,0)` with the unit direction `(-4/5,0,-3/5)`. It hits one triangle at
`t = 1/10` and another at `t = 1/5`, and the hit at `t = 1/5` is the closer one to the camera
`Origin` (squared distances `53/125` against `261/500`). -/
theorem nearest_metrics_counterexample :
    (Camera.new Real.sqrt Real.tan Real.pi ⟨0, 0, 0⟩ ⟨0, 0, -1⟩ ⟨0, 1, 0⟩ 90 1 2 (3 / 5)).GetRay
        (1 / 2) (1 / 2) (fun n => if n = 0 then 9 / 10 else 1 / 2) 1 0
      = some (⟨⟨4 / 5, 0, 0⟩, ⟨-4 / 5, 0, -3 / 5⟩⟩, 2) ∧
    DVec3.length Real.sqrt (⟨-4 / 5, 0, -3 / 5⟩ : DVec3 ℝ) = 1 ∧
    (RayTriangleIntersection Real.sqrt ⟨⟨4 / 5, 0, 0⟩, ⟨-4 / 5, 0, -3 / 5⟩⟩
        ⟨18 / 25, -1 / 4, -1 / 4⟩ ⟨18 / 25, 3 / 4, -1 / 4⟩ ⟨18 / 25, -1 / 4, 3 / 4⟩).IsHit
      = true ∧
    (RayTriangleIntersection Real.sqrt ⟨⟨4 / 5, 0, 0⟩, ⟨-4 / 5, 0, -3 / 5⟩⟩
        ⟨18 / 25, -1 / 4, -1 / 4⟩ ⟨18 / 25, 3 / 4, -1 / 4⟩ ⟨18 / 25, -1 / 4, 3 / 4⟩).Position
      = (⟨4 / 5, 0, 0⟩ : DVec3 ℝ) + (⟨-4 / 5, 0, -3 / 5⟩ : DVec3 ℝ) * (1 / 10 : ℝ) ∧
    (RayTriangleIntersection Real.sqrt ⟨⟨4 / 5, 0, 0⟩, ⟨-4 / 5, 0, -3 / 5⟩⟩
        ⟨16 / 25, -1 / 4, -1 / 4⟩ ⟨16 / 25, 3 / 4, -1 / 4⟩ ⟨16 / 25, -1 / 4, 3 / 4⟩).IsHit
      = true ∧
    (RayTriangleIntersection Real.sqrt ⟨⟨4 / 5, 0, 0⟩, ⟨-4 / 5, 0, -3 / 5⟩⟩
        ⟨16 / 25, -1 / 4, -1 / 4⟩ ⟨16 / 25, 3 / 4, -1 / 4⟩ ⟨16 / 25, -1 / 4, 3 / 4⟩).Position
      = (⟨4 / 5, 0, 0⟩ : DVec3 ℝ) + (⟨-4 / 5, 0, -3 / 5⟩ : DVec3 ℝ) * (1 / 5 : ℝ) ∧
    (1 / 10 : ℝ) < 1 / 5 ∧
    ¬ distExp
        (RayTriangleIntersection Real.sqrt ⟨⟨4 / 5, 0, 0⟩, ⟨-4 / 5, 0, -3 / 5⟩⟩
          ⟨18 / 25, -1 / 4, -1 / 4⟩ ⟨18 / 25, 3 / 4, -1 / 4⟩ ⟨18 / 25, -1 / 4, 3 / 4⟩).Position
        (Camera.new Real.sqrt Real.tan Real.pi ⟨0, 0, 0⟩ ⟨0, 0, -1⟩ ⟨0, 1, 0⟩ 90 1 2
          (3 / 5)).Origin
      ≤ distExp
        (RayTriangleIntersection Real.sqrt ⟨⟨4 / 5, 0, 0⟩, ⟨-4 / 5, 0, -3 / 5⟩⟩
          ⟨16 / 25, -1 / 4, -1 / 4⟩ ⟨16 / 25, 3 / 4, -1 / 4⟩ ⟨16 / 25, -1 / 4, 3 / 4⟩).Position
        (Camera.new Real.sqrt Real.tan Real.pi ⟨0, 0, 0⟩ ⟨0, 0, -1⟩ ⟨0, 1, 0⟩ 90 1 2
          (3 / 5)).Origin := by
  have e : ∀ (a b : DVec3 ℝ), a + b = ⟨a.x + b.x, a.y + b.y, a.z + b.z⟩ := fun _ _ => rfl
  have e2 : ∀ (a : DVec3 ℝ) (k : ℝ), a * k = ⟨a.x * k, a.y * k, a.z * k⟩ := fun _ _ => rfl
  refine ⟨example_GetRay, ?_, ?_, ?_, ?_, ?_, ?_, ?_⟩
  · have h1 : dot (⟨-4 / 5, 0, -3 / 5⟩ : DVec3 ℝ) ⟨-4 / 5, 0, -3 / 5⟩ = 1 := by
      simp only [dot]; norm_num
    rw [DVec3.length, h1, Real.sqrt_one]
  · rw [lens_ray_hit_near]
  · rw [lens_ray_hit_near]
    simp only [e, e2]
    norm_num
  · rw [lens_ray_hit_far]
  · rw [lens_ray_hit_far]
    simp only [e, e2]
    norm_num
  · norm_num
  · rw [lens_ray_hit_near, lens_ray_hit_far, example_camera_origin]
    simp only [distExp, DVec3.sub_x, DVec3.sub_y, DVec3.sub_z]
    norm_num

/-- Witness for C18 (amended): a camera with `LensRadius = 0` at the origin, the ray through
the middle of the viewport and the parameters `1 < 2`. -/
theorem nearest_metrics_agree_witness :
    (⟨⟨0, 0, 0⟩, ⟨-1, 1, -1⟩, ⟨2, 0, 0⟩, ⟨0, 2, 0⟩, ⟨1, 0, 0⟩, ⟨0, 1, 0⟩, ⟨0, 0, 1⟩, 0⟩ :
        Camera ℚ).GetRay (1 / 2) (1 / 2) (fun _ => 1 / 2) 1 0
      = some (⟨⟨0, 0, 0⟩, ⟨0, 0, -1⟩⟩, 2) ∧
    (⟨⟨0, 0, 0⟩, ⟨-1, 1, -1⟩, ⟨2, 0, 0⟩, ⟨0, 2, 0⟩, ⟨1, 0, 0⟩, ⟨0, 1, 0⟩, ⟨0, 0, 1⟩, 0⟩ :
        Camera ℚ).LensRadius = 0 ∧
    (0 : ℚ) ≤ 1 ∧ (1 : ℚ) < 2 ∧
    distExp ((⟨0, 0, 0⟩ : DVec3 ℚ) + (⟨0, 0, -1⟩ : DVec3 ℚ) * (1 : ℚ))
        (⟨⟨0, 0, 0⟩, ⟨-1, 1, -1⟩, ⟨2, 0, 0⟩, ⟨0, 2, 0⟩, ⟨1, 0, 0⟩, ⟨0, 1, 0⟩, ⟨0, 0, 1⟩, 0⟩ :
          Camera ℚ).Origin
      ≤ distExp ((⟨0, 0, 0⟩ : DVec3 ℚ) + (⟨0, 0, -1⟩ : DVec3 ℚ) * (2 : ℚ))
        (⟨⟨0, 0, 0⟩, ⟨-1, 1, -1⟩, ⟨2, 0, 0⟩, ⟨0, 2, 0⟩, ⟨1, 0, 0⟩, ⟨0, 1, 0⟩, ⟨0, 0, 1⟩, 0⟩ :
          Camera ℚ).Origin := by
  have hg : (⟨⟨0, 0, 0⟩, ⟨-1, 1, -1⟩, ⟨2, 0, 0⟩, ⟨0, 2, 0⟩, ⟨1, 0, 0⟩, ⟨0, 1, 0⟩, ⟨0, 0, 1⟩, 0⟩ :
        Camera ℚ).GetRay (1 / 2) (1 / 2) (fun _ => 1 / 2) 1 0
      = some (⟨⟨0, 0, 0⟩, ⟨0, 0, -1⟩⟩, 2) := by
    have hp : randomInUnitDisk (fun _ => (1 / 2 : ℚ)) 1 0 = some (⟨0, 0, 0⟩, 2) := by
      simp only [randomInUnitDisk, RandomDouble]
      norm_num
    simp only [Camera.GetRay, hp]
    simp only [Option.some.injEq, Prod.mk.injEq, and_true]
    simp only [Camera.rayThrough]
    have e : ∀ (a b : DVec3 ℚ), a + b = ⟨a.x + b.x, a.y + b.y, a.z + b.z⟩ := fun _ _ => rfl
    have e2 : ∀ (a b : DVec3 ℚ), a - b = ⟨a.x - b.x, a.y - b.y, a.z - b.z⟩ := fun _ _ => rfl
    have e3 : ∀ (a : DVec3 ℚ) (k : ℚ), a * k = ⟨a.x * k, a.y * k, a.z * k⟩ := fun _ _ => rfl
    have e4 : ∀ (k : ℚ) (a : DVec3 ℚ), k * a = ⟨k * a.x, k * a.y, k * a.z⟩ := fun _ _ => rfl
    simp only [e, e2, e3, e4]
    norm_num
  exact ⟨hg, rfl, by norm_num, by norm_num,
    (nearest_metrics_agree _ (1 / 2) (1 / 2) (fun _ => 1 / 2) 1 0 _ 2 hg rfl 1 2 (by norm_num)
      (by norm_num)).2.1⟩

/-! ## Theorems: accumulative validation -/

theorem isErrorLine_ERROR (rest : String) : isErrorLine ("ERROR: [" ++ rest) = true := by
  simp [isErrorLine, String.data_append]

theorem isErrorLine_Error (rest : String) : isErrorLine ("Error: [" ++ rest) = true := by
  simp [isErrorLine, String.data_append]

theorem isErrorLine_WARNING (rest : String) : isErrorLine ("WARNING: [" ++ rest) = false := by
  simp [isErrorLine, String.data_append]

/-- The flag and the lines of `VerifyPrimitiveAttribute`: the lines are the findings of the
attribute, and the flag is `true` exactly when there is none. -/
theorem VerifyPrimitiveAttribute_findings (model : Model) (primitive : Primitive)
    (attributeName : String) (requiredType requiredComponentType : Int)
    (meshName attributeDescription : String) (r : Bool × List String)
    (h : VerifyPrimitiveAttribute model primitive attributeName requiredType
        requiredComponentType meshName attributeDescription = some r) :
    r.2 = attributeFindings model primitive attributeName requiredType requiredComponentType
        meshName attributeDescription ∧
    (r.1 = true ↔ r.2 = []) ∧ (∀ line ∈ r.2, isErrorLine line = true) := by
  unfold VerifyPrimitiveAttribute at h
  unfold attributeFindings
  cases hfind : mapFind primitive.attributes attributeName with
  | none =>
    simp only [hfind, Option.some.injEq] at h
    subst h
    refine ⟨rfl, by simp, ?_⟩
    intro line hl
    simp only [List.mem_singleton] at hl
    subst hl
    simp only [String.append_assoc]
    exact isErrorLine_ERROR _
  | some index =>
    cases hacc : vecAt model.accessors index with
    | none => simp [hfind, hacc] at h
    | some accessor =>
      simp only [hfind, hacc, Option.some.injEq] at h
      subst h
      by_cases h1 : accessor.type = requiredType <;>
        by_cases h2 : accessor.componentType = requiredComponentType <;>
        simp only [hacc, h1, h2, ne_eq, not_true_eq_false, not_false_eq_true, if_true, if_false,
          List.nil_append, List.append_nil, true_and, List.not_mem_nil, false_implies,
          implies_true, and_true, List.cons_ne_nil, Bool.false_eq_true,
          List.singleton_append, List.mem_cons, String.append_assoc, forall_eq_or_imp,
          isErrorLine_ERROR, and_self, reduceCtorEq, iff_self]


theorem modeFindings_errors (mesh : Mesh) (primitive : Primitive) :
    ∀ line ∈ modeFindings mesh primitive, isErrorLine line = true := by
  intro line hl
  unfold modeFindings at hl
  split at hl
  · simp only [List.mem_singleton] at hl
    subst hl
    simp only [String.append_assoc]
    exact isErrorLine_ERROR _
  · simp at hl

theorem indicesFindings_errors (mesh : Mesh) (primitive : Primitive) :
    ∀ line ∈ indicesFindings mesh primitive, isErrorLine line = true := by
  intro line hl
  unfold indicesFindings at hl
  split at hl
  · simp only [List.mem_singleton] at hl
    subst hl
    simp only [String.append_assoc]
    exact isErrorLine_Error _
  · simp at hl

theorem materialFindings_no_error (mesh : Mesh) (primitive : Primitive) :
    ∀ line ∈ materialFindings mesh primitive, isErrorLine line = false := by
  intro line hl
  unfold materialFindings at hl
  split at hl
  · simp only [List.mem_singleton] at hl
    subst hl
    simp only [String.append_assoc]
    exact isErrorLine_WARNING _
  · simp at hl

/-- A list of error reports contains no error exactly when it is empty. -/
theorem no_error_iff_nil (lines : List String)
    (h : ∀ line ∈ lines, isErrorLine line = true) :
    (∀ line ∈ lines, isErrorLine line = false) ↔ lines = [] := by
  constructor
  · intro hno
    cases lines with
    | nil => rfl
    | cons a rest =>
      have h1 := h a (List.mem_cons_self _ _)
      have h2 := hno a (List.mem_cons_self _ _)
      rw [h1] at h2
      exact absurd h2 (by decide)
  · intro hnil
    subst hnil
    intro line hl
    simp at hl

/-- The flag and the lines of `VerifyPrimitive` in terms of the results of its three calls of
`VerifyPrimitiveAttribute`. -/
theorem VerifyPrimitive_out (model : Model) (mesh : Mesh) (primitive : Primitive)
    (p n c : Bool × List String)
    (hp : VerifyPrimitiveAttribute model primitive "POSITION"
        TINYGLTF_TYPE_VEC3 TINYGLTF_COMPONENT_TYPE_FLOAT mesh.name "vertex position" = some p)
    (hn : VerifyPrimitiveAttribute model primitive "NORMAL"
        TINYGLTF_TYPE_VEC3 TINYGLTF_COMPONENT_TYPE_FLOAT mesh.name "vertex normal" = some n)
    (hc : VerifyPrimitiveAttribute model primitive "COLOR_0"
        TINYGLTF_TYPE_VEC4 TINYGLTF_COMPONENT_TYPE_UNSIGNED_SHORT mesh.name "vertex color"
          = some c) :
    VerifyPrimitive model mesh primitive
      = some (decide (primitive.mode = TINYGLTF_MODE_TRIANGLES) && p.1 && n.1 && c.1
          && decide (primitive.indices ≠ -1),
        modeFindings mesh primitive ++ materialFindings mesh primitive ++ p.2 ++ n.2 ++ c.2
          ++ indicesFindings mesh primitive) := by
  unfold VerifyPrimitive modeFindings materialFindings indicesFindings
  simp only [Option.bind_eq_bind, Option.pure_def, hp, hn, hc, Option.some_bind]
  by_cases hm : primitive.mode = TINYGLTF_MODE_TRIANGLES <;>
    by_cases hmat : primitive.material = -1 <;>
    by_cases hi : primitive.indices = -1 <;>
    simp [hm, hmat, hi]

theorem VerifyPrimitive_findings (model : Model) (mesh : Mesh) (primitive : Primitive)
    (b : Bool) (out : List String)
    (h : VerifyPrimitive model mesh primitive = some (b, out)) :
    out = primitiveFindings model mesh primitive ∧
    (b = true ↔ ∀ line ∈ out, isErrorLine line = false) := by
  obtain ⟨p, n, c, hp, hn, hc, -⟩ := VerifyPrimitive_eq model mesh primitive b out h
  rw [VerifyPrimitive_out model mesh primitive p n c hp hn hc] at h
  simp only [Option.some.injEq, Prod.mk.injEq] at h
  obtain ⟨hb, hout⟩ := h
  obtain ⟨p2, p1, pe⟩ := VerifyPrimitiveAttribute_findings _ _ _ _ _ _ _ _ hp
  obtain ⟨n2, n1, ne⟩ := VerifyPrimitiveAttribute_findings _ _ _ _ _ _ _ _ hn
  obtain ⟨c2, c1, ce⟩ := VerifyPrimitiveAttribute_findings _ _ _ _ _ _ _ _ hc
  constructor
  · rw [← hout, p2, n2, c2]
    rfl
  · rw [← hb, ← hout]
    simp only [Bool.and_eq_true, decide_eq_true_eq, List.forall_mem_append]
    rw [no_error_iff_nil _ pe, no_error_iff_nil _ ne, no_error_iff_nil _ ce,
      no_error_iff_nil _ (modeFindings_errors mesh primitive),
      no_error_iff_nil _ (indicesFindings_errors mesh primitive), p1, n1, c1]
    have hmat := materialFindings_no_error mesh primitive
    have hmode : modeFindings mesh primitive = [] ↔ primitive.mode = TINYGLTF_MODE_TRIANGLES := by
      unfold modeFindings
      by_cases hm : primitive.mode = TINYGLTF_MODE_TRIANGLES <;> simp [hm]
    have hidx : indicesFindings mesh primitive = [] ↔ primitive.indices ≠ -1 := by
      unfold indicesFindings
      by_cases hi : primitive.indices = -1 <;> simp [hi]
    rw [hmode, hidx]
    tauto

theorem VerifyPrimitive_isSome_of_inRange (model : Model) (mesh : Mesh) (primitive : Primitive)
    (h : accessorsInRange model primitive) :
    (VerifyPrimitive model mesh primitive).isSome = true := by
  obtain ⟨p, hp⟩ := VerifyPrimitiveAttribute_isSome model primitive "POSITION"
    TINYGLTF_TYPE_VEC3 TINYGLTF_COMPONENT_TYPE_FLOAT mesh.name "vertex position"
    (fun index hi => h "POSITION" (by simp) index hi)
  obtain ⟨n, hn⟩ := VerifyPrimitiveAttribute_isSome model primitive "NORMAL"
    TINYGLTF_TYPE_VEC3 TINYGLTF_COMPONENT_TYPE_FLOAT mesh.name "vertex normal"
    (fun index hi => h "NORMAL" (by simp) index hi)
  obtain ⟨c, hc⟩ := VerifyPrimitiveAttribute_isSome model primitive "COLOR_0"
    TINYGLTF_TYPE_VEC4 TINYGLTF_COMPONENT_TYPE_UNSIGNED_SHORT mesh.name "vertex color"
    (fun index hi => h "COLOR_0" (by simp) index hi)
  rw [VerifyPrimitive_out model mesh primitive p n c hp hn hc]
  rfl

/-- The verification loop appends the findings of every primitive of the list, whatever the
state it starts from, and ends valid exactly when it started valid and no finding is an
error. -/
theorem verifyLoop_findings (model : Model) (primitives : List (Mesh × Primitive))
    (state r : Bool × Nat × List String)
    (h : verifyLoop model primitives state = some r) :
    r.2.2 = state.2.2 ++ findingsOf model primitives ∧
    (r.1 = true ↔
      state.1 = true ∧ ∀ line ∈ findingsOf model primitives, isErrorLine line = false) := by
  induction primitives generalizing state with
  | nil =>
    simp only [verifyLoop, Option.some.injEq] at h
    subst h
    simp [findingsOf]
  | cons mp rest ih =>
    obtain ⟨mesh, primitive⟩ := mp
    obtain ⟨isValid, vertexCount, out⟩ := state
    simp only [verifyLoop, Option.bind_eq_bind, Option.bind_eq_some] at h
    obtain ⟨⟨b, o⟩, hv, h⟩ := h
    obtain ⟨ho, hb⟩ := VerifyPrimitive_findings model mesh primitive b o hv
    have hcons : findingsOf model ((mesh, primitive) :: rest)
        = primitiveFindings model mesh primitive ++ findingsOf model rest := by
      simp [findingsOf]
    rw [hcons]
    simp only [List.forall_mem_append]
    rw [← ho, ← hb]
    split at h
    · rename_i hcond
      simp only [Bool.and_eq_true] at hcond
      simp only [Option.bind_eq_some] at h
      obtain ⟨accessor, -, h⟩ := h
      obtain ⟨h1, h2⟩ := ih _ h
      simp only at h1 h2
      refine ⟨by rw [h1, List.append_assoc], ?_⟩
      rw [h2]
      simp [hcond.1, hcond.2]
    · rename_i hcond
      obtain ⟨h1, h2⟩ := ih _ h
      simp only at h1 h2
      refine ⟨by rw [h1, List.append_assoc], ?_⟩
      rw [h2]
      simp only [Bool.and_eq_true, not_and, Bool.not_eq_true] at hcond
      simp only [Bool.false_eq_true, false_and, false_iff, not_and]
      intro hv1 hb1
      have := hcond hv1
      rw [hb1] at this
      exact absurd this (by decide)

/-- C11: validation is accumulative.  For every asset whose attributes name accessors of
the model, `VerifyPrimitive` returns for every primitive the findings of all of its checks,
each taken alone, and its flag is `true` exactly when none of them is an error; the
verification loop of `LoadModel` returns with the concatenation of the findings of all
primitives of all meshes, valid exactly when that list contains no error; an invalid asset
gives the value-initialised registry; and the lines `LoadModel` writes are that list. -/
theorem LoadModel_accumulative (model : Model)
    (hdef : ∀ mp ∈ allPrimitives model.meshes, accessorsInRange model mp.2) :
    (∀ mp ∈ allPrimitives model.meshes,
      ∃ b, VerifyPrimitive model mp.1 mp.2 = some (b, primitiveFindings model mp.1 mp.2) ∧
        (b = true ↔ ∀ line ∈ primitiveFindings model mp.1 mp.2, isErrorLine line = false)) ∧
    (∃ isValid vertexCount,
      verifyLoop model (allPrimitives model.meshes) (true, 0, [])
        = some (isValid, vertexCount, assetFindings model) ∧
      (isValid = true ↔ ∀ line ∈ assetFindings model, isErrorLine line = false) ∧
      (isValid = false →
        LoadModel true model = some (TriangleRegistry.empty, assetFindings model))) ∧
    (∀ registry out, LoadModel true model = some (registry, out) →
      out = assetFindings model) := by
  have hsome : ∀ mp ∈ allPrimitives model.meshes,
      (VerifyPrimitive model mp.1 mp.2).isSome = true :=
    fun mp hm => VerifyPrimitive_isSome_of_inRange model mp.1 mp.2 (hdef mp hm)
  obtain ⟨⟨isValid, vertexCount, out⟩, hv⟩ :=
    verifyLoop_isSome model (allPrimitives model.meshes) hsome (true, 0, [])
  obtain ⟨hout, hvalid⟩ := verifyLoop_findings model _ _ _ hv
  simp only [List.nil_append, true_and] at hout hvalid
  subst hout
  refine ⟨?_, ⟨isValid, vertexCount, hv, hvalid, ?_⟩, ?_⟩
  · intro mp hm
    have h := hsome mp hm
    rw [Option.isSome_iff_exists] at h
    obtain ⟨⟨b, o⟩, hb⟩ := h
    obtain ⟨ho, hiff⟩ := VerifyPrimitive_findings model mp.1 mp.2 b o hb
    subst ho
    exact ⟨b, hb, hiff⟩
  · intro hfalse
    subst hfalse
    simp only [LoadModel, if_true, Option.bind_eq_bind, hv, Option.some_bind,
      Bool.false_eq_true, if_false, Option.pure_def]
    rfl
  · intro registry out' h
    simp only [LoadModel, if_true, Option.bind_eq_bind, hv, Option.some_bind] at h
    split at h
    · simp only [Option.bind_eq_some] at h
      obtain ⟨positions, -, normals, -, colors, -, h⟩ := h
      split at h
      · simp only [Option.bind_eq_some, Option.pure_def, Option.some.injEq,
          Prod.mk.injEq] at h
        obtain ⟨triangles, -, -, h⟩ := h
        exact h.symm
      · simp at h
    · simp only [Option.pure_def, Option.some.injEq, Prod.mk.injEq] at h
      exact h.2.symm

/-- The findings of the asset `twoFailuresModel`. -/
theorem twoFailuresModel_findings :
    assetFindings twoFailuresModel
      = ["WARNING: [first] Primitive found with material specified. Materials will be ignored because they are not supported.\n",
         "ERROR: [first] Primitive found without vertex normal data!\n",
         "ERROR: [second] Primitive found with mode 'LINES' which is not supported! (Only 'TRIANGLES' is supported.)\n",
         "Error: [second] Primitive found with no indices!\n"] := by
  decide

set_option maxRecDepth 100000 in
theorem twoFailuresModel_inRange :
    ∀ mp ∈ allPrimitives twoFailuresModel.meshes, accessorsInRange twoFailuresModel mp.2 := by
  decide

set_option maxRecDepth 100000 in
/-- Witness for C11: an asset of two failing primitives; the reports of both are written, a
warning and an error for the first, two errors for the second. -/
theorem LoadModel_accumulative_witness :
    (∀ mp ∈ allPrimitives twoFailuresModel.meshes, accessorsInRange twoFailuresModel mp.2) ∧
    assetFindings twoFailuresModel
      = ["WARNING: [first] Primitive found with material specified. Materials will be ignored because they are not supported.\n",
         "ERROR: [first] Primitive found without vertex normal data!\n",
         "ERROR: [second] Primitive found with mode 'LINES' which is not supported! (Only 'TRIANGLES' is supported.)\n",
         "Error: [second] Primitive found with no indices!\n"] ∧
    LoadModel true twoFailuresModel
      = some (TriangleRegistry.empty, assetFindings twoFailuresModel) ∧
    (∀ registry out, LoadModel true twoFailuresModel = some (registry, out) →
      out = assetFindings twoFailuresModel) :=
  ⟨twoFailuresModel_inRange, twoFailuresModel_findings, by decide,
    (LoadModel_accumulative twoFailuresModel twoFailuresModel_inRange).2.2⟩

/-! ## Theorems: nearest-hit scan -/

section ScanLemmas

variable {K : Type} [LinearOrderedField K]

theorem nearestHitScan_append (sqrt : K → K) (camOrigin : DVec3 K) (ray : Ray K)
    (positions : List (DVec3 K)) (xs ys : List UVec3) (state : ScanState K) :
    nearestHitScan sqrt camOrigin ray positions (xs ++ ys) state
      = (nearestHitScan sqrt camOrigin ray positions xs state).bind
          (nearestHitScan sqrt camOrigin ray positions ys) := by
  induction xs generalizing state with
  | nil => rfl
  | cons x xs ih =>
    simp only [List.cons_append, nearestHitScan, Option.bind_eq_bind]
    cases h : scanStep sqrt camOrigin ray positions state x with
    | none => rfl
    | some next =>
      simp only [Option.some_bind]
      exact ih next

theorem triangleResult_isSome (sqrt : K → K) (ray : Ray K) (positions : List (DVec3 K))
    (indices : UVec3)
    (h : indices.x < positions.length ∧ indices.y < positions.length ∧
      indices.z < positions.length) :
    ∃ result, triangleResult sqrt ray positions indices = some result := by
  obtain ⟨hx, hy, hz⟩ := h
  unfold triangleResult
  simp only [Option.bind_eq_bind, Option.pure_def, List.getElem?_eq_getElem hx,
    List.getElem?_eq_getElem hy, List.getElem?_eq_getElem hz, Option.some_bind]
  exact ⟨_, rfl⟩

/-- The scan of a list, one triangle after the other: the final state of the list extended
by one triangle. -/
theorem nearestHitScan_snoc (sqrt : K → K) (camOrigin : DVec3 K) (ray : Ray K)
    (positions : List (DVec3 K)) (xs : List UVec3) (x : UVec3) (state : ScanState K) :
    nearestHitScan sqrt camOrigin ray positions (xs ++ [x]) state
      = (nearestHitScan sqrt camOrigin ray positions xs state).bind
          (fun s => scanStep sqrt camOrigin ray positions s x) := by
  rw [nearestHitScan_append]
  congr 1
  funext s
  simp only [nearestHitScan, Option.bind_eq_bind]
  cases scanStep sqrt camOrigin ray positions s x <;> rfl

/-- The invariant of the scan. -/
theorem nearestHitScan_invariant (sqrt : K → K) (camOrigin : DVec3 K) (ray : Ray K)
    (positions : List (DVec3 K)) (triangles : List UVec3)
    (h : trianglesInRange positions triangles) :
    ∃ final, nearestHitScan sqrt camOrigin ray positions triangles ScanState.initial
        = some final ∧
      (final.hasHit = false →
        ∀ indices ∈ triangles, ∀ result,
          triangleResult sqrt ray positions indices = some result → result.IsHit = false) ∧
      (final.hasHit = true →
        ∃ i, isFirstNearest sqrt camOrigin ray positions triangles i final) := by
  induction triangles using List.reverseRecOn with
  | nil =>
    refine ⟨ScanState.initial, rfl, ?_, ?_⟩
    · intro _ indices hmem
      simp at hmem
    · intro hh
      simp [ScanState.initial] at hh
  | append_singleton pre t ih =>
    have hpre : trianglesInRange positions pre :=
      fun indices hm => h indices (List.mem_append_left _ hm)
    obtain ⟨st, hst, hmiss, hhit⟩ := ih hpre
    obtain ⟨result, hres⟩ := triangleResult_isSome sqrt ray positions t
      (h t (List.mem_append_right _ (List.mem_singleton_self _)))
    rw [nearestHitScan_snoc, hst, Option.some_bind]
    have hlast : (pre ++ [t])[pre.length]? = some t := by
      simp
    have hget : ∀ j indicesJ, (pre ++ [t])[j]? = some indicesJ →
        (j < pre.length ∧ pre[j]? = some indicesJ) ∨ (j = pre.length ∧ indicesJ = t) := by
      intro j indicesJ hj
      rcases Nat.lt_trichotomy j pre.length with hlt | heq | hgt
      · left
        rw [List.getElem?_append_left hlt] at hj
        exact ⟨hlt, hj⟩
      · right
        subst heq
        rw [hlast] at hj
        exact ⟨rfl, (Option.some.inj hj).symm⟩
      · exfalso
        have : (pre ++ [t])[j]? = none := by
          apply List.getElem?_eq_none
          simp only [List.length_append, List.length_singleton]
          omega
        rw [this] at hj
        exact absurd hj (by simp)
    unfold scanStep
    simp only [Option.bind_eq_bind, hres, Option.some_bind, Option.pure_def]
    by_cases hit : result.IsHit = true
    · simp only [hit, if_true]
      by_cases hcond : st.hasHit = false ∨ distExp result.Position camOrigin < st.closestDistance
      · -- the new hit replaces the state
        simp only [hcond, if_true]
        refine ⟨_, rfl, ?_, ?_⟩
        · intro hh
          simp at hh
        · intro _
          refine ⟨pre.length, t, result, hlast, hres, hit, rfl, rfl, rfl, ?_⟩
          intro j indicesJ resultJ hj hrj hitJ
          simp only
          rcases hget j indicesJ hj with ⟨hlt, hpj⟩ | ⟨heq, ht⟩
          · -- an earlier hit: the state held a hit, so the new one is strictly closer
            have hhas : st.hasHit = true := by
              by_contra hc
              have hf : st.hasHit = false := by simpa using hc
              have := hmiss hf indicesJ (List.mem_iff_getElem?.2 ⟨j, hpj⟩) resultJ hrj
              rw [hitJ] at this
              exact absurd this (by decide)
            obtain ⟨i, ti, ri, -, -, -, -, -, -, hmin⟩ := hhit hhas
            have hlt2 : distExp result.Position camOrigin < st.closestDistance := by
              rcases hcond with hc | hc
              · rw [hhas] at hc
                exact absurd hc (by decide)
              · exact hc
            have := (hmin j indicesJ resultJ hpj hrj hitJ).1
            exact ⟨le_of_lt (lt_of_lt_of_le hlt2 this), fun _ => lt_of_lt_of_le hlt2 this⟩
          · subst ht
            rw [hres] at hrj
            have := Option.some.inj hrj
            subst this
            exact ⟨le_refl _, fun hlt => absurd hlt (by omega)⟩
      · -- the state is kept
        simp only [hcond, if_false]
        push_neg at hcond
        obtain ⟨hhas, hle⟩ := hcond
        have hhas : st.hasHit = true := by simpa using hhas
        refine ⟨st, rfl, ?_, ?_⟩
        · intro hf
          rw [hhas] at hf
          exact absurd hf (by decide)
        · intro _
          obtain ⟨i, ti, ri, hti, hri, hiti, e1, e2, e3, hmin⟩ := hhit hhas
          have hilt : i < pre.length := by
            by_contra hc
            rw [List.getElem?_eq_none (by omega)] at hti
            exact absurd hti (by simp)
          refine ⟨i, ti, ri, ?_, hri, hiti, e1, e2, e3, ?_⟩
          · rw [List.getElem?_append_left hilt]
            exact hti
          · intro j indicesJ resultJ hj hrj hitJ
            rcases hget j indicesJ hj with ⟨hlt, hpj⟩ | ⟨heq, ht⟩
            · exact hmin j indicesJ resultJ hpj hrj hitJ
            · subst ht
              rw [hres] at hrj
              have := Option.some.inj hrj
              subst this
              exact ⟨hle, fun hlt => absurd hlt (by omega)⟩
    · have hit' : result.IsHit = false := by simpa using hit
      simp only [hit', Bool.false_eq_true, if_false]
      refine ⟨st, rfl, ?_, ?_⟩
      · intro hf indices hmem r hr
        rcases List.mem_append.1 hmem with hm | hm
        · exact hmiss hf indices hm r hr
        · simp only [List.mem_singleton] at hm
          subst hm
          rw [hres] at hr
          rw [← Option.some.inj hr]
          exact hit'
      · intro hhas
        obtain ⟨i, ti, ri, hti, hri, hiti, e1, e2, e3, hmin⟩ := hhit hhas
        have hilt : i < pre.length := by
          by_contra hc
          rw [List.getElem?_eq_none (by omega)] at hti
          exact absurd hti (by simp)
        refine ⟨i, ti, ri, ?_, hri, hiti, e1, e2, e3, ?_⟩
        · rw [List.getElem?_append_left hilt]
          exact hti
        · intro j indicesJ resultJ hj hrj hitJ
          rcases hget j indicesJ hj with ⟨hlt, hpj⟩ | ⟨heq, ht⟩
          · exact hmin j indicesJ resultJ hpj hrj hitJ
          · subst ht
            rw [hres] at hrj
            rw [← Option.some.inj hrj, hit'] at hitJ
            exact absurd hitJ (by decide)

end ScanLemmas

section ScanClaim

variable {K : Type} [LinearOrderedField K]

/-- C16: for every ray and every list of triangles whose indices are indices of the array of
positions, the nearest-hit scan returns; it ends with `hasHit = true` exactly when some
triangle of the list is hit, and then `closestHit`, `closestIndices` and `closestDistance`
belong to a triangle `i` whose squared distance from the camera origin is at most that of
every hit triangle and strictly less than that of every hit triangle before `i`. -/
theorem nearestHitScan_spec (sqrt : K → K) (camOrigin : DVec3 K) (ray : Ray K)
    (positions : List (DVec3 K)) (triangles : List UVec3)
    (h : trianglesInRange positions triangles) :
    ∃ final, nearestHitScan sqrt camOrigin ray positions triangles ScanState.initial
        = some final ∧
      (final.hasHit = true ↔
        ∃ indices ∈ triangles, ∃ result,
          triangleResult sqrt ray positions indices = some result ∧ result.IsHit = true) ∧
      (final.hasHit = true →
        ∃ i, isFirstNearest sqrt camOrigin ray positions triangles i final) := by
  obtain ⟨final, hfinal, hmiss, hhit⟩ :=
    nearestHitScan_invariant sqrt camOrigin ray positions triangles h
  refine ⟨final, hfinal, ⟨?_, ?_⟩, hhit⟩
  · intro hh
    obtain ⟨i, indices, result, hi, hr, hit, -⟩ := hhit hh
    exact ⟨indices, List.mem_iff_getElem?.2 ⟨i, hi⟩, result, hr, hit⟩
  · rintro ⟨indices, hmem, result, hr, hit⟩
    by_contra hc
    have hf : final.hasHit = false := by simpa using hc
    have := hmiss hf indices hmem result hr
    rw [hit] at this
    exact absurd this (by decide)

end ScanClaim

theorem example_scan_inRange :
    trianglesInRange
      ([⟨18 / 25, -1 / 4, -1 / 4⟩, ⟨18 / 25, 3 / 4, -1 / 4⟩, ⟨18 / 25, -1 / 4, 3 / 4⟩,
        ⟨16 / 25, -1 / 4, -1 / 4⟩, ⟨16 / 25, 3 / 4, -1 / 4⟩, ⟨16 / 25, -1 / 4, 3 / 4⟩] :
        List (DVec3 ℝ))
      [⟨0, 1, 2⟩, ⟨3, 4, 5⟩] := by
  intro indices hmem
  simp only [List.mem_cons, List.mem_singleton, List.not_mem_nil, or_false] at hmem
  rcases hmem with rfl | rfl <;> simp

/-- The scan of the two triangles of the lens-ray example keeps the second triangle, whose hit
is the closer one to the camera origin. -/
theorem example_scan :
    nearestHitScan Real.sqrt ⟨0, 0, 0⟩ ⟨⟨4 / 5, 0, 0⟩, ⟨-4 / 5, 0, -3 / 5⟩⟩
      ([⟨18 / 25, -1 / 4, -1 / 4⟩, ⟨18 / 25, 3 / 4, -1 / 4⟩, ⟨18 / 25, -1 / 4, 3 / 4⟩,
        ⟨16 / 25, -1 / 4, -1 / 4⟩, ⟨16 / 25, 3 / 4, -1 / 4⟩, ⟨16 / 25, -1 / 4, 3 / 4⟩] :
        List (DVec3 ℝ))
      [⟨0, 1, 2⟩, ⟨3, 4, 5⟩] ScanState.initial
    = some ⟨true, 53 / 125,
        ⟨true, ⟨1, 0, 0⟩, ⟨16 / 25, 0, -3 / 25⟩, ⟨31 / 50, 1 / 4, 13 / 100⟩⟩, ⟨3, 4, 5⟩⟩ := by
  have r1 : triangleResult Real.sqrt ⟨⟨4 / 5, 0, 0⟩, ⟨-4 / 5, 0, -3 / 5⟩⟩
      ([⟨18 / 25, -1 / 4, -1 / 4⟩, ⟨18 / 25, 3 / 4, -1 / 4⟩, ⟨18 / 25, -1 / 4, 3 / 4⟩,
        ⟨16 / 25, -1 / 4, -1 / 4⟩, ⟨16 / 25, 3 / 4, -1 / 4⟩, ⟨16 / 25, -1 / 4, 3 / 4⟩] :
        List (DVec3 ℝ)) ⟨0, 1, 2⟩
      = some ⟨true, ⟨1, 0, 0⟩, ⟨18 / 25, 0, -3 / 50⟩, ⟨14 / 25, 1 / 4, 19 / 100⟩⟩ := by
    simp only [triangleResult, Option.bind_eq_bind, Option.pure_def, List.getElem?_cons_zero,
      List.getElem?_cons_succ, Option.some_bind, lens_ray_hit_near]
  have r2 : triangleResult Real.sqrt ⟨⟨4 / 5, 0, 0⟩, ⟨-4 / 5, 0, -3 / 5⟩⟩
      ([⟨18 / 25, -1 / 4, -1 / 4⟩, ⟨18 / 25, 3 / 4, -1 / 4⟩, ⟨18 / 25, -1 / 4, 3 / 4⟩,
        ⟨16 / 25, -1 / 4, -1 / 4⟩, ⟨16 / 25, 3 / 4, -1 / 4⟩, ⟨16 / 25, -1 / 4, 3 / 4⟩] :
        List (DVec3 ℝ)) ⟨3, 4, 5⟩
      = some ⟨true, ⟨1, 0, 0⟩, ⟨16 / 25, 0, -3 / 25⟩, ⟨31 / 50, 1 / 4, 13 / 100⟩⟩ := by
    simp only [triangleResult, Option.bind_eq_bind, Option.pure_def, List.getElem?_cons_zero,
      List.getElem?_cons_succ, Option.some_bind, lens_ray_hit_far]
  simp only [nearestHitScan, scanStep, Option.bind_eq_bind, r1, r2, Option.some_bind,
    Option.pure_def, if_true, ScanState.initial, true_or, distExp, DVec3.sub_x, DVec3.sub_y,
    DVec3.sub_z]
  norm_num

/-- Witness for C16: the two triangles of the lens-ray example; the scan keeps the second
triangle, at squared distance `53/125`. -/
theorem nearestHitScan_spec_witness :
    trianglesInRange
      ([⟨18 / 25, -1 / 4, -1 / 4⟩, ⟨18 / 25, 3 / 4, -1 / 4⟩, ⟨18 / 25, -1 / 4, 3 / 4⟩,
        ⟨16 / 25, -1 / 4, -1 / 4⟩, ⟨16 / 25, 3 / 4, -1 / 4⟩, ⟨16 / 25, -1 / 4, 3 / 4⟩] :
        List (DVec3 ℝ))
      [⟨0, 1, 2⟩, ⟨3, 4, 5⟩] ∧
    nearestHitScan Real.sqrt ⟨0, 0, 0⟩ ⟨⟨4 / 5, 0, 0⟩, ⟨-4 / 5, 0, -3 / 5⟩⟩
      ([⟨18 / 25, -1 / 4, -1 / 4⟩, ⟨18 / 25, 3 / 4, -1 / 4⟩, ⟨18 / 25, -1 / 4, 3 / 4⟩,
        ⟨16 / 25, -1 / 4, -1 / 4⟩, ⟨16 / 25, 3 / 4, -1 / 4⟩, ⟨16 / 25, -1 / 4, 3 / 4⟩] :
        List (DVec3 ℝ))
      [⟨0, 1, 2⟩, ⟨3, 4, 5⟩] ScanState.initial
    = some ⟨true, 53 / 125,
        ⟨true, ⟨1, 0, 0⟩, ⟨16 / 25, 0, -3 / 25⟩, ⟨31 / 50, 1 / 4, 13 / 100⟩⟩, ⟨3, 4, 5⟩⟩ ∧
    ∃ final, nearestHitScan Real.sqrt ⟨0, 0, 0⟩ ⟨⟨4 / 5, 0, 0⟩, ⟨-4 / 5, 0, -3 / 5⟩⟩
        ([⟨18 / 25, -1 / 4, -1 / 4⟩, ⟨18 / 25, 3 / 4, -1 / 4⟩, ⟨18 / 25, -1 / 4, 3 / 4⟩,
          ⟨16 / 25, -1 / 4, -1 / 4⟩, ⟨16 / 25, 3 / 4, -1 / 4⟩, ⟨16 / 25, -1 / 4, 3 / 4⟩] :
          List (DVec3 ℝ))
        [⟨0, 1, 2⟩, ⟨3, 4, 5⟩] ScanState.initial = some final ∧
      (final.hasHit = true ↔
        ∃ indices ∈ ([⟨0, 1, 2⟩, ⟨3, 4, 5⟩] : List UVec3), ∃ result,
          triangleResult Real.sqrt ⟨⟨4 / 5, 0, 0⟩, ⟨-4 / 5, 0, -3 / 5⟩⟩
            ([⟨18 / 25, -1 / 4, -1 / 4⟩, ⟨18 / 25, 3 / 4, -1 / 4⟩, ⟨18 / 25, -1 / 4, 3 / 4⟩,
              ⟨16 / 25, -1 / 4, -1 / 4⟩, ⟨16 / 25, 3 / 4, -1 / 4⟩,
              ⟨16 / 25, -1 / 4, 3 / 4⟩] : List (DVec3 ℝ)) indices = some result ∧
          result.IsHit = true) ∧
      (final.hasHit = true →
        ∃ i, isFirstNearest Real.sqrt ⟨0, 0, 0⟩ ⟨⟨4 / 5, 0, 0⟩, ⟨-4 / 5, 0, -3 / 5⟩⟩
          ([⟨18 / 25, -1 / 4, -1 / 4⟩, ⟨18 / 25, 3 / 4, -1 / 4⟩, ⟨18 / 25, -1 / 4, 3 / 4⟩,
            ⟨16 / 25, -1 / 4, -1 / 4⟩, ⟨16 / 25, 3 / 4, -1 / 4⟩, ⟨16 / 25, -1 / 4, 3 / 4⟩] :
            List (DVec3 ℝ))
          [⟨0, 1, 2⟩, ⟨3, 4, 5⟩] i final) :=
  ⟨example_scan_inRange, example_scan,
    nearestHitScan_spec Real.sqrt _ _ _ _ example_scan_inRange⟩

/-! ## Theorems: image writers -/

section ImageIndex

theorem PPMImage.pixel_index_bound {K : Type} (img : PPMImage K) (h : img.allocated) (x y : Int)
    (hx : 0 ≤ x) (hxw : x < img.Width) (hy : 0 ≤ y) (hyh : y < img.Height) :
    0 ≤ x + y * img.Width ∧ (x + y * img.Width).toNat < img.m_Buffer.length := by
  obtain ⟨hw, hh, -, hlen⟩ := h
  have h1 : 0 ≤ y * img.Width := mul_nonneg hy hw
  have h2 : x + y * img.Width < img.Width * img.Height := by
    have : (y + 1) * img.Width ≤ img.Height * img.Width :=
      mul_le_mul_of_nonneg_right (by omega) hw
    nlinarith
  constructor
  · omega
  · rw [hlen]
    omega

theorem PPMImage.vecAt_pixel {K : Type} [LinearOrderedField K] (img : PPMImage K) (h : img.allocated) (x y : Int)
    (hx : 0 ≤ x) (hxw : x < img.Width) (hy : 0 ≤ y) (hyh : y < img.Height) :
    vecAt img.m_Buffer (x + y * img.Width) = some (img.pixel x y) := by
  obtain ⟨h0, hlt⟩ := img.pixel_index_bound h x y hx hxw hy hyh
  unfold PPMImage.pixel vecAt
  rw [if_pos h0, List.getElem?_eq_getElem hlt]
  rfl

end ImageIndex

section ImageLemmas

variable {K : Type} [LinearOrderedField K]

theorem clamp_range (c : K) : 0 ≤ clamp c 0 (999 / 1000) ∧ clamp c 0 (999 / 1000) ≤ 999 / 1000 := by
  unfold clamp
  split
  · constructor <;> norm_num
  · split
    · constructor <;> norm_num
    · constructor <;> linarith

variable [FloorRing K]

/-- Every channel value of the text writer is an integer of `[0, 255]`. -/
theorem ppmChannel_range (c : K) : 0 ≤ ppmChannel c ∧ ppmChannel c ≤ 255 := by
  obtain ⟨h0, h1⟩ := clamp_range c
  have hnn : (0 : K) ≤ 256 * clamp c 0 (999 / 1000) := by linarith
  unfold ppmChannel truncate
  rw [if_pos hnn]
  constructor
  · exact Int.floor_nonneg.2 hnn
  · have : ⌊256 * clamp c 0 (999 / 1000)⌋ < 256 := by
      rw [Int.floor_lt]
      push_cast
      linarith
    omega

theorem concatText_append (a b : List String) :
    concatText (a ++ b) = concatText a ++ concatText b := by
  induction a with
  | nil => simp [concatText]
  | cons t rest ih => simp [concatText, ih, String.append_assoc]

theorem concatText_flatMap {α β : Type} (l : List α) (f : α → List β) (g : β → String) :
    concatText ((l.flatMap f).map g) = concatText (l.map (fun a => concatText ((f a).map g))) := by
  induction l with
  | nil => rfl
  | cons a rest ih =>
    simp only [List.flatMap_cons, List.map_append, concatText_append, List.map_cons, concatText, ih]

/-- The inner loop writes the pixels of columns `n - 1`, ..., `0` in that order. -/
theorem PPMImage.writeRow_eq (img : PPMImage K) (h : img.allocated) (y : Int)
    (hy : 0 ≤ y) (hyh : y < img.Height) (n : Nat) (hn : (n : Int) ≤ img.Width) :
    img.writeRow y ((n : Int) - 1)
      = some (concatText ((List.range n).reverse.map
          (fun (x : Nat) => PPMImage.pixelText (img.pixel (x : Int) y)))) := by
  induction n with
  | zero =>
    rw [PPMImage.writeRow]
    simp [concatText]
  | succ n ih =>
    rw [PPMImage.writeRow]
    have hpos : (0 : Int) ≤ ((n + 1 : Nat) : Int) - 1 := by push_cast; omega
    have hx : ((n + 1 : Nat) : Int) - 1 = (n : Int) := by push_cast; omega
    rw [if_pos hpos, hx]
    rw [img.vecAt_pixel h n y (by omega) (by push_cast at hn; omega) hy hyh]
    rw [ih (by push_cast at hn; omega)]
    simp only [Option.bind_eq_bind, Option.some_bind, Option.pure_def, List.range_succ,
      List.reverse_append, List.reverse_cons, List.reverse_nil, List.nil_append,
      List.singleton_append, List.map_cons, concatText]

/-- The outer loop writes the rows `Height - k`, ..., `Height - 1` in that order. -/
theorem PPMImage.writeRows_eq (img : PPMImage K) (h : img.allocated) (k : Nat)
    (hk : k ≤ img.Height.toNat) :
    img.writeRows (img.Height - k)
      = some (concatText ((List.range' (img.Height.toNat - k) k).map
          (fun (y : Nat) => concatText ((List.range img.Width.toNat).reverse.map
            (fun (x : Nat) => PPMImage.pixelText (img.pixel (x : Int) (y : Int))))))) := by
  have hw := h.1
  have hh := h.2.1
  induction k with
  | zero =>
    rw [PPMImage.writeRows]
    simp [concatText]
  | succ k ih =>
    rw [PPMImage.writeRows]
    have hlt : img.Height - ((k + 1 : Nat) : Int) < img.Height := by push_cast; omega
    have hy0 : 0 ≤ img.Height - ((k + 1 : Nat) : Int) := by push_cast; omega
    rw [if_pos hlt]
    have hrow := img.writeRow_eq h (img.Height - ((k + 1 : Nat) : Int)) hy0 hlt
      img.Width.toNat (by omega)
    have hwc : ((img.Width.toNat : Nat) : Int) - 1 = img.Width - 1 := by omega
    rw [hwc] at hrow
    have hnext : img.Height - ((k + 1 : Nat) : Int) + 1 = img.Height - (k : Int) := by
      push_cast; omega
    rw [hrow, hnext, ih (by omega)]
    have hs : img.Height.toNat - k = (img.Height.toNat - (k + 1)) + 1 := by omega
    have hc : img.Height - ((k + 1 : Nat) : Int) = ((img.Height.toNat - (k + 1) : Nat) : Int) := by
      omega
    simp only [Option.bind_eq_bind, Option.some_bind, Option.pure_def, List.range'_succ,
      List.map_cons, concatText, hs, hc]

/-- The text of `WriteImage`: the header, then the pixels in the order `pixelOrder`. -/
theorem PPMImage.WriteImage_eq (img : PPMImage K) (h : img.allocated) :
    img.WriteImage true
      = some ("P3\n" ++ toString img.Width ++ " " ++ toString img.Height ++ "\n255\n"
          ++ concatText ((pixelOrder img.Width img.Height).map
              (fun p => PPMImage.pixelText (img.pixel p.1 p.2)))) := by
  have hrows := img.writeRows_eq h img.Height.toNat (le_refl _)
  have h0 : img.Height - ((img.Height.toNat : Nat) : Int) = 0 := by
    have := h.2.1
    omega
  rw [h0, Nat.sub_self] at hrows
  unfold PPMImage.WriteImage
  rw [if_pos rfl, hrows]
  simp only [Option.bind_eq_bind, Option.some_bind, Option.pure_def, pixelOrder,
    concatText_flatMap, List.map_map, List.range_eq_range']
  rfl

end ImageLemmas


section TextLines

theorem digitChar_ne_newline (n : Nat) (h : n < 10) : Nat.digitChar n ≠ '\n' := by
  interval_cases n <;> decide

theorem toDigitsCore_no_newline (fuel n : Nat) (ds : List Char) (hds : '\n' ∉ ds) :
    '\n' ∉ Nat.toDigitsCore 10 fuel n ds := by
  induction fuel generalizing n ds with
  | zero => simpa [Nat.toDigitsCore] using hds
  | succ fuel ih =>
    have hd : '\n' ∉ Nat.digitChar (n % 10) :: ds := by
      intro hmem
      rcases List.mem_cons.1 hmem with h | h
      · exact digitChar_ne_newline (n % 10) (Nat.mod_lt _ (by decide)) h.symm
      · exact hds h
    unfold Nat.toDigitsCore
    simp only
    split
    · exact hd
    · exact ih _ _ hd

theorem toString_nat_no_newline (n : Nat) : '\n' ∉ (toString n).data := by
  show '\n' ∉ (Nat.toDigits 10 n).asString.data
  exact toDigitsCore_no_newline _ _ _ (by simp)

/-- The decimal text of an integer contains no newline. -/
theorem toString_int_no_newline (n : Int) : '\n' ∉ (toString n).data := by
  cases n with
  | ofNat m => exact toString_nat_no_newline m
  | negSucc m =>
    show '\n' ∉ ("-" ++ toString (Nat.succ m)).data
    rw [String.data_append]
    intro hmem
    rcases List.mem_append.1 hmem with h | h
    · simp at h
    · exact toString_nat_no_newline _ h

theorem linesAux_line (line : List Char) (hl : '\n' ∉ line) (rest current : List Char) :
    linesAux (line ++ '\n' :: rest) current
      = String.mk (current.reverse ++ line) :: linesAux rest [] := by
  induction line generalizing current with
  | nil => simp [linesAux]
  | cons c line ih =>
    have hc : c ≠ '\n' := fun h => hl (by simp [h])
    have hl2 : '\n' ∉ line := fun h => hl (List.mem_cons_of_mem _ h)
    simp only [List.cons_append, linesAux, if_neg hc]
    have := ih hl2 (c :: current)
    simp only [List.reverse_cons, List.append_assoc, List.singleton_append] at this
    exact this

/-- A text made of lines without newline, each ended by a newline, has exactly these
lines. -/
theorem linesOf_concatText (lines : List String) (h : ∀ line ∈ lines, '\n' ∉ line.data) :
    linesOf (concatText (lines.map (fun line => line ++ "\n"))) = lines := by
  unfold linesOf
  induction lines with
  | nil => simp [concatText, linesAux]
  | cons line rest ih =>
    have h1 := h line (List.mem_cons_self _ _)
    have h2 := ih (fun l hl => h l (List.mem_cons_of_mem _ hl))
    simp only [List.map_cons, concatText, String.data_append]
    rw [List.append_assoc, List.singleton_append, linesAux_line _ h1, h2]
    simp

end TextLines

section ImageLines

variable {K : Type} [LinearOrderedField K] [FloorRing K]

theorem pixelLine_no_newline (color : DVec3 K) : '\n' ∉ (pixelLine color).data := by
  unfold pixelLine
  simp only [String.data_append, List.mem_append, not_or]
  refine ⟨⟨⟨⟨toString_int_no_newline _, by decide⟩, toString_int_no_newline _⟩, by decide⟩,
    toString_int_no_newline _⟩

theorem ppmHeaderLines_no_newline (width height : Int) :
    ∀ line ∈ ppmHeaderLines width height, '\n' ∉ line.data := by
  intro line hl
  simp only [ppmHeaderLines, List.mem_cons, List.mem_singleton, List.not_mem_nil,
    or_false] at hl
  rcases hl with rfl | rfl | rfl
  · decide
  · simp only [String.data_append, List.mem_append, not_or]
    exact ⟨⟨toString_int_no_newline _, by decide⟩, toString_int_no_newline _⟩
  · decide

theorem pixelOrder_length (width height : Int) (hw : 0 ≤ width) (hh : 0 ≤ height) :
    (pixelOrder width height).length = (width * height).toNat := by
  unfold pixelOrder
  have : ∀ n : Nat, ((List.range n).flatMap
      (fun (y : Nat) => (List.range width.toNat).reverse.map
        (fun (x : Nat) => ((x : Int), (y : Int))))).length = n * width.toNat := by
    intro n
    induction n with
    | zero => simp
    | succ n ih =>
      rw [List.range_succ, List.flatMap_append, List.length_append, ih]
      simp [Nat.succ_mul]
  rw [this]
  have h1 : ((height.toNat * width.toNat : Nat) : Int) = width * height := by
    push_cast
    rw [Int.toNat_of_nonneg hw, Int.toNat_of_nonneg hh]
    ring
  omega

/-- The text of `WriteImage` as a sequence of lines, each ended by a newline. -/
theorem PPMImage.WriteImage_text (img : PPMImage K) (h : img.allocated) :
    img.WriteImage true
      = some (concatText ((ppmHeaderLines img.Width img.Height
          ++ (pixelOrder img.Width img.Height).map
              (fun p => pixelLine (img.pixel p.1 p.2))).map (fun line => line ++ "\n"))) := by
  have hhead : ("P3\n" ++ toString img.Width ++ " " ++ toString img.Height ++ "\n255\n" : String)
      = concatText ((ppmHeaderLines img.Width img.Height).map (fun line => line ++ "\n")) := by
    apply String.ext
    simp [concatText, ppmHeaderLines, String.data_append]
  have hpix : (pixelOrder img.Width img.Height).map
        (fun p => PPMImage.pixelText (img.pixel p.1 p.2))
      = ((pixelOrder img.Width img.Height).map
          (fun p => pixelLine (img.pixel p.1 p.2))).map (fun line => line ++ "\n") := by
    rw [List.map_map]
    rfl
  rw [img.WriteImage_eq h, hhead, hpix, List.map_append, concatText_append]

end ImageLines

section PNGLemmas

theorem writeByte_some (buffer : List Byte) (i : Int) (value : Byte)
    (h0 : 0 ≤ i) (hlt : i.toNat < buffer.length) :
    writeByte buffer i value = some (buffer.set i.toNat value) := by
  unfold writeByte
  rw [if_pos ⟨h0, hlt⟩]

theorem vecAt_set_self (buffer : List Byte) (i : Int) (value : Byte)
    (h0 : 0 ≤ i) (hlt : i.toNat < buffer.length) :
    vecAt (buffer.set i.toNat value) i = some value := by
  unfold vecAt
  rw [if_pos h0]
  simp [List.getElem?_set, hlt]

theorem vecAt_set_other (buffer : List Byte) (i j : Int) (value : Byte)
    (h0 : 0 ≤ i) (hne : j ≠ i) :
    vecAt (buffer.set i.toNat value) j = vecAt buffer j := by
  unfold vecAt
  by_cases hj : 0 ≤ j
  · rw [if_pos hj, if_pos hj]
    have : i.toNat ≠ j.toNat := by omega
    simp [List.getElem?_set, this]
  · rw [if_neg hj, if_neg hj]

theorem PNGImage.byte_index_bound (img : PNGImage) (h : img.allocated) (x y : Int)
    (hx : 0 ≤ x) (hxw : x < img.Width) (hy : 0 ≤ y) (hyh : y < img.Height) :
    0 ≤ (x + y * img.Width) * 3 ∧
      ((x + y * img.Width) * 3 + 2).toNat < img.m_Buffer.length := by
  obtain ⟨hw, hh, -, hlen⟩ := h
  have h1 : 0 ≤ y * img.Width := mul_nonneg hy hw
  have h2 : x + y * img.Width < img.Width * img.Height := by
    have : (y + 1) * img.Width ≤ img.Height * img.Width :=
      mul_le_mul_of_nonneg_right (by omega) hw
    nlinarith
  constructor
  · omega
  · rw [hlen]
    omega

variable {K : Type} [LinearOrderedField K] [FloorRing K]

/-- The write of `PNGImage::SetPixel`: the three bytes of the pixel `(x, y)` are stored from
index `(x + y * Width) * 3` on, and no other byte changes. -/
theorem PNGImage.SetPixel_spec (img : PNGImage) (h : img.allocated) (x y : Int)
    (hx : 0 ≤ x) (hxw : x < img.Width) (hy : 0 ≤ y) (hyh : y < img.Height)
    (color : DVec3 K) :
    ∃ img', img.SetPixel x y color = some img' ∧
      img'.Width = img.Width ∧ img'.Height = img.Height ∧
      img'.m_Buffer.length = img.m_Buffer.length ∧
      vecAt img'.m_Buffer ((x + y * img.Width) * 3) = some (pngChannel color.x) ∧
      vecAt img'.m_Buffer ((x + y * img.Width) * 3 + 1) = some (pngChannel color.y) ∧
      vecAt img'.m_Buffer ((x + y * img.Width) * 3 + 2) = some (pngChannel color.z) ∧
      ∀ i, i ≠ (x + y * img.Width) * 3 → i ≠ (x + y * img.Width) * 3 + 1 →
        i ≠ (x + y * img.Width) * 3 + 2 → vecAt img'.m_Buffer i = vecAt img.m_Buffer i := by
  obtain ⟨h0, hlt⟩ := img.byte_index_bound h x y hx hxw hy hyh
  have hl0 : ((x + y * img.Width) * 3).toNat < img.m_Buffer.length := by omega
  have hl1 : ((x + y * img.Width) * 3 + 1).toNat
      < (img.m_Buffer.set ((x + y * img.Width) * 3).toNat (pngChannel color.x)).length := by
    rw [List.length_set]; omega
  have hl2 : ((x + y * img.Width) * 3 + 2).toNat
      < ((img.m_Buffer.set ((x + y * img.Width) * 3).toNat (pngChannel color.x)).set
          ((x + y * img.Width) * 3 + 1).toNat (pngChannel color.y)).length := by
    rw [List.length_set, List.length_set]; omega
  have hset : img.SetPixel x y color
      = some { img with
          m_Buffer := ((img.m_Buffer.set ((x + y * img.Width) * 3).toNat
              (pngChannel color.x)).set ((x + y * img.Width) * 3 + 1).toNat
              (pngChannel color.y)).set ((x + y * img.Width) * 3 + 2).toNat
              (pngChannel color.z) } := by
    unfold PNGImage.SetPixel
    rw [if_pos ⟨hx, hxw, hy, hyh⟩]
    simp only [Option.bind_eq_bind, Option.pure_def]
    rw [writeByte_some _ _ _ h0 hl0, Option.some_bind,
      writeByte_some _ _ _ (by omega) hl1, Option.some_bind,
      writeByte_some _ _ _ (by omega) hl2, Option.some_bind]
  refine ⟨_, hset, ?_⟩
  · refine ⟨rfl, rfl, ?_, ?_, ?_, ?_, ?_⟩
    · simp only [List.length_set]
    · simp only
      rw [vecAt_set_other _ _ _ _ (by omega) (by omega),
        vecAt_set_other _ _ _ _ (by omega) (by omega), vecAt_set_self _ _ _ h0 hl0]
    · simp only
      rw [vecAt_set_other _ _ _ _ (by omega) (by omega),
        vecAt_set_self _ _ _ (by omega) hl1]
    · simp only
      rw [vecAt_set_self _ _ _ (by omega) hl2]
    · intro i n0 n1 n2
      simp only
      rw [vecAt_set_other _ _ _ _ (by omega) n2, vecAt_set_other _ _ _ _ (by omega) n1,
        vecAt_set_other _ _ _ _ h0 n0]

/-- The picture of width `2` and height `1` is written right pixel first. -/
theorem PPMImage.WriteImage_two_by_one (left right : DVec3 K) :
    (⟨[left, right], 2, 1⟩ : PPMImage K).WriteImage true
      = some ("P3\n2 1\n255\n" ++ PPMImage.pixelText right ++ PPMImage.pixelText left) := by
  have hall : (⟨[left, right], 2, 1⟩ : PPMImage K).allocated :=
    ⟨by norm_num, by norm_num, by norm_num, by simp⟩
  have ho : pixelOrder 2 1 = [(1, 0), (0, 0)] := by decide
  have h2 : toString (2 : Int) = "2" := by decide
  have h1 : toString (1 : Int) = "1" := by decide
  have hp1 : (⟨[left, right], 2, 1⟩ : PPMImage K).pixel 1 0 = right := by
    simp [PPMImage.pixel, vecAt]
  have hp0 : (⟨[left, right], 2, 1⟩ : PPMImage K).pixel 0 0 = left := by
    simp [PPMImage.pixel, vecAt]
  have hh : ("P3\n" ++ "2" ++ " " ++ "1" ++ "\n255\n" : String) = "P3\n2 1\n255\n" := by
    decide
  rw [PPMImage.WriteImage_eq _ hall]
  simp only [ho, h1, h2, hh, List.map_cons, List.map_nil, concatText, Nat.cast_one,
    Nat.cast_zero, hp1, hp0, String.append_empty]
  rw [String.append_assoc]

/-- C14: `PPMImage::WriteImage` writes, after the header, the pixel triples of the rows
`y = 0`, ..., `Height - 1` and within each row of the columns `x = Width - 1`, ..., `0`; for a
picture of width `2` and height `1` the triple of the right pixel comes before that of the
left pixel; and `PNGImage::SetPixel` stores the three bytes of the pixel `(x, y)` from index
`(x + y * Width) * 3` on and changes no other byte. -/
theorem WriteImage_order (img : PPMImage K) (h : img.allocated) (left right : DVec3 K)
    (png : PNGImage) (hp : png.allocated) (x y : Int)
    (hx : 0 ≤ x ∧ x < png.Width) (hy : 0 ≤ y ∧ y < png.Height) (color : DVec3 K) :
    img.WriteImage true
      = some ("P3\n" ++ toString img.Width ++ " " ++ toString img.Height ++ "\n255\n"
          ++ concatText ((pixelOrder img.Width img.Height).map
              (fun p => PPMImage.pixelText (img.pixel p.1 p.2)))) ∧
    (⟨[left, right], 2, 1⟩ : PPMImage K).WriteImage true
      = some ("P3\n2 1\n255\n" ++ PPMImage.pixelText right ++ PPMImage.pixelText left) ∧
    ∃ png', png.SetPixel x y color = some png' ∧
      png'.Width = png.Width ∧ png'.Height = png.Height ∧
      png'.m_Buffer.length = png.m_Buffer.length ∧
      vecAt png'.m_Buffer ((x + y * png.Width) * 3) = some (pngChannel color.x) ∧
      vecAt png'.m_Buffer ((x + y * png.Width) * 3 + 1) = some (pngChannel color.y) ∧
      vecAt png'.m_Buffer ((x + y * png.Width) * 3 + 2) = some (pngChannel color.z) ∧
      ∀ i, i ≠ (x + y * png.Width) * 3 → i ≠ (x + y * png.Width) * 3 + 1 →
        i ≠ (x + y * png.Width) * 3 + 2 → vecAt png'.m_Buffer i = vecAt png.m_Buffer i :=
  ⟨img.WriteImage_eq h, PPMImage.WriteImage_two_by_one left right,
    png.SetPixel_spec hp x y hx.1 hx.2 hy.1 hy.2 color⟩

/-- C15 (amended): the text that `PPMImage::WriteImage` writes consists of the lines `P3`,
`<width> <height>` and `255` followed by one line per pixel, `Width * Height` lines in all,
each holding the three channel values of one pixel separated by single spaces, in the order
of the rows from top to bottom and of the columns from right to left; every line is ended by
a newline and every channel value is an integer of `[0, 255]`. -/
theorem WriteImage_lines (img : PPMImage K) (h : img.allocated) :
    ∃ text, img.WriteImage true = some text ∧
      linesOf text = ppmHeaderLines img.Width img.Height
        ++ (pixelOrder img.Width img.Height).map (fun p => pixelLine (img.pixel p.1 p.2)) ∧
      text = concatText ((linesOf text).map (fun line => line ++ "\n")) ∧
      (linesOf text).length = 3 + (img.Width * img.Height).toNat ∧
      ∀ c : K, 0 ≤ ppmChannel c ∧ ppmChannel c ≤ 255 := by
  have hlines : linesOf (concatText ((ppmHeaderLines img.Width img.Height
        ++ (pixelOrder img.Width img.Height).map
            (fun p => pixelLine (img.pixel p.1 p.2))).map (fun line => line ++ "\n")))
      = ppmHeaderLines img.Width img.Height
        ++ (pixelOrder img.Width img.Height).map (fun p => pixelLine (img.pixel p.1 p.2)) := by
    apply linesOf_concatText
    intro line hl
    rcases List.mem_append.1 hl with hm | hm
    · exact ppmHeaderLines_no_newline _ _ line hm
    · obtain ⟨p, -, rfl⟩ := List.mem_map.1 hm
      exact pixelLine_no_newline _
  refine ⟨_, img.WriteImage_text h, hlines, ?_, ?_, ppmChannel_range⟩
  · rw [hlines]
  · rw [hlines, List.length_append, List.length_map,
      pixelOrder_length _ _ h.1 h.2.1]
    rfl

end PNGLemmas

theorem ppmChannel_one : ppmChannel (1 : ℚ) = 255 := by
  unfold ppmChannel truncate clamp
  norm_num

theorem ppmChannel_zero : ppmChannel (0 : ℚ) = 0 := by
  unfold ppmChannel truncate clamp
  norm_num

theorem redBlueImage_allocated : redBlueImage.allocated := by
  refine ⟨by decide, by decide, by decide, by decide⟩

/-- The text written for the red and blue picture. -/
theorem redBlueImage_text :
    redBlueImage.WriteImage true = some "P3\n2 1\n255\n0 0 255\n255 0 0\n" := by
  unfold redBlueImage
  rw [PPMImage.WriteImage_two_by_one]
  simp only [PPMImage.pixelText, ppmChannel_one, ppmChannel_zero]
  decide

theorem blankPNG_allocated : blankPNG.allocated :=
  ⟨by decide, by decide, by decide, by decide⟩

/-- Witness for C14: the red and blue picture of width `2` and height `1` is written as
`P3`, `2 1`, `255`, `0 0 255`, `255 0 0`: the blue right pixel first. -/
theorem WriteImage_order_witness :
    redBlueImage.allocated ∧ blankPNG.allocated ∧
    ((0 : Int) ≤ 1 ∧ (1 : Int) < blankPNG.Width) ∧
    ((0 : Int) ≤ 0 ∧ (0 : Int) < blankPNG.Height) ∧
    redBlueImage.WriteImage true = some "P3\n2 1\n255\n0 0 255\n255 0 0\n" ∧
    (⟨[⟨1, 0, 0⟩, ⟨0, 0, 1⟩], 2, 1⟩ : PPMImage ℚ).WriteImage true
      = some ("P3\n2 1\n255\n" ++ PPMImage.pixelText (⟨0, 0, 1⟩ : DVec3 ℚ)
          ++ PPMImage.pixelText (⟨1, 0, 0⟩ : DVec3 ℚ)) :=
  ⟨redBlueImage_allocated, blankPNG_allocated, ⟨by decide, by decide⟩, ⟨by decide, by decide⟩,
    redBlueImage_text,
    (WriteImage_order redBlueImage redBlueImage_allocated ⟨1, 0, 0⟩ ⟨0, 0, 1⟩ blankPNG
      blankPNG_allocated 1 0 ⟨by decide, by decide⟩ ⟨by decide, by decide⟩
      (⟨0, 0, 1⟩ : DVec3 ℚ)).2.1⟩

/-- Witness for C15 (amended): the red and blue picture of width `2` and height `1`. -/
theorem WriteImage_lines_witness :
    redBlueImage.allocated ∧
    redBlueImage.WriteImage true = some "P3\n2 1\n255\n0 0 255\n255 0 0\n" ∧
    ∃ text, redBlueImage.WriteImage true = some text ∧
      linesOf text = ppmHeaderLines redBlueImage.Width redBlueImage.Height
        ++ (pixelOrder redBlueImage.Width redBlueImage.Height).map
            (fun p => pixelLine (redBlueImage.pixel p.1 p.2)) ∧
      text = concatText ((linesOf text).map (fun line => line ++ "\n")) ∧
      (linesOf text).length = 3 + (redBlueImage.Width * redBlueImage.Height).toNat ∧
      ∀ c : ℚ, 0 ≤ ppmChannel c ∧ ppmChannel c ≤ 255 :=
  ⟨redBlueImage_allocated, redBlueImage_text, WriteImage_lines redBlueImage redBlueImage_allocated⟩

/-- Counterexample for C15: the text written for the red and blue picture of width `2` and
height `1` has the five lines `P3`, `2 1`, `255`, `0 0 255`, `255 0 0`: two lines of one
triple each after the header, not `Height = 1` line of two triples. -/
theorem WriteImage_lines_counterexample :
    redBlueImage.allocated ∧
    redBlueImage.WriteImage true = some "P3\n2 1\n255\n0 0 255\n255 0 0\n" ∧
    linesOf "P3\n2 1\n255\n0 0 255\n255 0 0\n" = ["P3", "2 1", "255", "0 0 255", "255 0 0"] ∧
    ¬ (linesOf "P3\n2 1\n255\n0 0 255\n255 0 0\n").length = 3 + redBlueImage.Height.toNat :=
  ⟨redBlueImage_allocated, redBlueImage_text, by decide, by decide⟩

/-! ## Theorems: `RayEquation` -/

section RayEquationTheorems

variable {K : Type} [LinearOrderedField K]

/-- C21: `RayEquation` does not return the point of the ray at the parameter `t`.  It returns
`Origin + Direction` for every `t`, which is the point at the parameter `1`, and this is the
point `Origin + t * Direction` only when `t = 1` or the direction is zero; for the ray from
the origin along `(1,0,0)` and `t = 2` it returns `(1,0,0)` where the point of the ray is
`(2,0,0)`. -/
theorem RayEquation_ignores_parameter :
    (∀ (ray : Ray K) (t : K), RayEquation ray t = rayPoint ray 1) ∧
    (∀ (ray : Ray K) (t : K),
      RayEquation ray t = rayPoint ray t ↔ t = 1 ∨ ray.Direction = zero) ∧
    RayEquation (⟨⟨0, 0, 0⟩, ⟨1, 0, 0⟩⟩ : Ray ℚ) 2 = ⟨1, 0, 0⟩ ∧
    rayPoint (⟨⟨0, 0, 0⟩, ⟨1, 0, 0⟩⟩ : Ray ℚ) 2 = ⟨2, 0, 0⟩ ∧
    RayEquation (⟨⟨0, 0, 0⟩, ⟨1, 0, 0⟩⟩ : Ray ℚ) 2
      ≠ rayPoint (⟨⟨0, 0, 0⟩, ⟨1, 0, 0⟩⟩ : Ray ℚ) 2 := by
  have hiff : ∀ (ray : Ray K) (t : K),
      RayEquation ray t = rayPoint ray t ↔ t = 1 ∨ ray.Direction = zero := by
    intro ray t
    constructor
    · intro h
      by_cases ht : t = 1
      · exact Or.inl ht
      · right
        have hne : t - 1 ≠ 0 := sub_ne_zero.2 ht
        have hx := congrArg DVec3.x h
        have hy := congrArg DVec3.y h
        have hz := congrArg DVec3.z h
        simp only [RayEquation, rayPoint, DVec3.add_x, DVec3.add_y, DVec3.add_z,
          DVec3.lscale_x, DVec3.lscale_y, DVec3.lscale_z] at hx hy hz
        have ex : (t - 1) * ray.Direction.x = 0 := by linarith
        have ey : (t - 1) * ray.Direction.y = 0 := by linarith
        have ez : (t - 1) * ray.Direction.z = 0 := by linarith
        ext
        · exact (mul_eq_zero.1 ex).resolve_left hne
        · exact (mul_eq_zero.1 ey).resolve_left hne
        · exact (mul_eq_zero.1 ez).resolve_left hne
    · rintro (rfl | hd)
      · ext <;> simp [RayEquation, rayPoint]
      · ext <;> simp [RayEquation, rayPoint, hd, zero]
  have e1 : RayEquation (⟨⟨0, 0, 0⟩, ⟨1, 0, 0⟩⟩ : Ray ℚ) 2 = ⟨1, 0, 0⟩ := by
    ext <;> simp [RayEquation]
  have e2 : rayPoint (⟨⟨0, 0, 0⟩, ⟨1, 0, 0⟩⟩ : Ray ℚ) 2 = ⟨2, 0, 0⟩ := by
    ext <;> simp [rayPoint]
  refine ⟨?_, hiff, e1, e2, ?_⟩
  · intro ray t
    ext <;> simp [RayEquation, rayPoint]
  · rw [e1, e2]
    intro h
    have hx := congrArg DVec3.x h
    norm_num at hx

end RayEquationTheorems

end NamelessRaytracer
